import Mathlib

/-!
# excel-proje: validation, column analysis, cleaning and transformation

A shallow embedding of `server/validation.js` (`validators`, `validateRow`,
`validateDataset`, `generateValidationRules`, `cleanData`) and of `analyzeColumnType`,
`applyTransformation` and the row loop of `/transform-data` from `server/index.js`, together
with the part of the JavaScript runtime these functions rely on.

Modelling conventions.

* JavaScript values are the values a parsed JSON body can hold, plus `undefined`
  (the result of reading an absent key or index).
* Numbers are IEEE binary64 values, written `m * 2 ^ e` with integers `m`, `e`.
  Division and multiplication round to nearest, ties to even, exactly as binary64
  does.  The sign of zero is not represented: none of the modelled operations
  observes it.
* Strings are sequences of Unicode scalar values (lone surrogates are not represented).
  Where the code can return a string with a lone surrogate (`substring`), the result is
  given by its UTF-16 code units (`Outcome.illFormed`).
* Built-ins whose behaviour is fixed by the host rather than by this repository
  (`Number::toString`, the `URL` parser, `RegExp` for user supplied patterns, `Date`
  parsing) are fields of `Host`; the general statements are quantified over the host.
  The transformation step needs more of them (case mapping, `RegExp` replacement, the
  getters of `Date`): these are the fields of `Runtime`, which extends `Host`.
* A thrown exception is `Except.error`, and `Outcome.error` in the transformation step.
* Column names are ordinary keys: they do not collide with members of
  `Object.prototype`.  A rule set is the list `Object.entries(rules)`.
-/

namespace Excel

/-! ## Numbers -/

/-- A JavaScript number: `fin m e` is the binary64 value `m * 2 ^ e`. -/
inductive JSNum where
  | nan
  | posInf
  | negInf
  | fin (m : Int) (e : Int)
  deriving DecidableEq, Repr

/-- One halving step of the bit-length computation on a pair `(n, bits so far)`. -/
def bitStep (k : Nat) (s : Nat × Nat) : Nat × Nat :=
  bif Nat.ble (2 ^ k) s.1 then (s.1 / 2 ^ k, s.2 + k) else s

/-- Number of binary digits of a natural number below `2 ^ 64`. -/
def bitLengthSmall (n : Nat) : Nat :=
  let s := bitStep 1 (bitStep 2 (bitStep 4 (bitStep 8 (bitStep 16 (bitStep 32 (n, 0))))))
  s.1 + s.2

/-- Bit length by 64-bit limbs; the first argument bounds the number of limbs. -/
def bitLengthAux : Nat → Nat → Nat
  | 0, _ => 0
  | fuel + 1, n => if n < 2 ^ 64 then bitLengthSmall n else bitLengthAux fuel (n / 2 ^ 64) + 64

/-- Number of binary digits of `n` (`0` for `0`). -/
def bitLength (n : Nat) : Nat := bitLengthAux n n

/-- Nearest natural number to `p / q`, ties to the even neighbour. -/
def roundHalfEven (p q : Nat) : Nat :=
  let f := p / q
  let r := p % q
  if 2 * r < q then f else if q < 2 * r then f + 1 else if f % 2 = 0 then f else f + 1

/-- The integer `⌊log₂ (p / q)⌋` for positive `p`, `q`. -/
def floorLog2 (p q : Nat) : Int :=
  match (bitLength p : Int) - (bitLength q : Int) with
  | .ofNat k => if q * 2 ^ k ≤ p then (k : Int) else (k : Int) - 1
  | .negSucc k => if q ≤ p * 2 ^ (k + 1) then Int.negSucc k else Int.negSucc k - 1

/-- The integer `n` with the given sign. -/
def signed (neg : Bool) (n : Nat) : Int := if neg then -(n : Int) else (n : Int)

/-- Binary64 rounding of `± p / q` once `⌊log₂ (p / q)⌋` is known: 53 significant bits,
exponent at least `-1074`, overflow to infinity from `2 ^ 1024`. -/
def roundPos (neg : Bool) (p q : Nat) (fl : Int) : JSNum :=
  match max fl (-1022) - 52 with
  | .ofNat s =>
    let n := roundHalfEven p (q * 2 ^ s)
    if 971 < s ∨ (s = 971 ∧ 2 ^ 53 ≤ n) then (if neg then .negInf else .posInf)
    else .fin (signed neg n) (Int.ofNat s)
  | .negSucc s => .fin (signed neg (roundHalfEven (p * 2 ^ (s + 1)) q)) (Int.negSucc s)

/-- The binary64 value nearest to the rational `± p / q` (round to nearest, ties to even). -/
def roundRat (neg : Bool) : Nat → Nat → JSNum
  | 0, _ => .fin 0 0
  | _, 0 => .fin 0 0
  | p + 1, q + 1 => roundPos neg (p + 1) (q + 1) (floorLog2 (p + 1) (q + 1))

/-- The number with integer value `n`. -/
def JSNum.ofNat (n : Nat) : JSNum := .fin n 0

/-- JavaScript `x / y`. -/
def jsDiv : JSNum → JSNum → JSNum
  | .fin m1 e1, .fin m2 e2 =>
    if m2 = 0 then (if m1 = 0 then .nan else if 0 < m1 then .posInf else .negInf)
    else
      match e1 - e2 with
      | .ofNat d => roundRat (decide ((m1 < 0) ≠ (m2 < 0))) (m1.natAbs * 2 ^ d) m2.natAbs
      | .negSucc d => roundRat (decide ((m1 < 0) ≠ (m2 < 0))) m1.natAbs (m2.natAbs * 2 ^ (d + 1))
  | .fin _ _, .posInf => .fin 0 0
  | .fin _ _, .negInf => .fin 0 0
  | .posInf, .fin m _ => if m < 0 then .negInf else .posInf
  | .negInf, .fin m _ => if m < 0 then .posInf else .negInf
  | _, _ => .nan

/-- JavaScript `x * y`. -/
def jsMul : JSNum → JSNum → JSNum
  | .fin m1 e1, .fin m2 e2 =>
    match e1 + e2 with
    | .ofNat d => roundRat (decide ((m1 < 0) ≠ (m2 < 0))) ((m1 * m2).natAbs * 2 ^ d) 1
    | .negSucc d => roundRat (decide ((m1 < 0) ≠ (m2 < 0))) (m1 * m2).natAbs (2 ^ (d + 1))
  | .posInf, .fin m _ => if m = 0 then .nan else if m < 0 then .negInf else .posInf
  | .negInf, .fin m _ => if m = 0 then .nan else if m < 0 then .posInf else .negInf
  | .fin m _, .posInf => if m = 0 then .nan else if m < 0 then .negInf else .posInf
  | .fin m _, .negInf => if m = 0 then .nan else if m < 0 then .posInf else .negInf
  | .posInf, .posInf => .posInf
  | .negInf, .negInf => .posInf
  | .posInf, .negInf => .negInf
  | .negInf, .posInf => .negInf
  | _, _ => .nan

/-- JavaScript `Math.round`: the integer `⌊x + 1/2⌋`. -/
def mathRound : JSNum → JSNum
  | .fin m e =>
    match e with
    | .ofNat s => .fin (m * 2 ^ s) 0
    | .negSucc s => .fin ((2 * m + 2 ^ (s + 1)) / 2 ^ (s + 2)) 0
  | v => v

/-- Comparison of `m1 * 2 ^ e1` with `m2 * 2 ^ e2` after scaling both to the smaller exponent. -/
def finLt (m1 e1 m2 e2 : Int) : Bool :=
  decide (m1 * 2 ^ (e1 - min e1 e2).toNat < m2 * 2 ^ (e2 - min e1 e2).toNat)

/-- JavaScript `x < y` on numbers (false whenever an operand is `NaN`). -/
def jsLt : JSNum → JSNum → Bool
  | .fin m1 e1, .fin m2 e2 => finLt m1 e1 m2 e2
  | .negInf, .fin _ _ => true
  | .negInf, .posInf => true
  | .fin _ _, .posInf => true
  | _, _ => false

/-- JavaScript `x === y` on numbers. -/
def jsEq : JSNum → JSNum → Bool
  | .fin m1 e1, .fin m2 e2 => !finLt m1 e1 m2 e2 && !finLt m2 e2 m1 e1
  | .posInf, .posInf => true
  | .negInf, .negInf => true
  | _, _ => false

/-- JavaScript `x <= y` on numbers. -/
def jsLe (x y : JSNum) : Bool := jsLt x y || jsEq x y

/-- JavaScript `x > y` on numbers. -/
def jsGt (x y : JSNum) : Bool := jsLt y x

/-- JavaScript `x >= y` on numbers. -/
def jsGe (x y : JSNum) : Bool := jsLe y x

/-- JavaScript `isNaN` on a number. -/
def JSNum.isNaN : JSNum → Bool
  | .nan => true
  | _ => false

/-- Whether a number is `+0`, `-0` or `NaN` (the falsy numbers). -/
def JSNum.isFalsy : JSNum → Bool
  | .nan => true
  | .fin m _ => decide (m = 0)
  | _ => false

/-! ## Characters and strings -/

/-- The characters matched by the pattern class `\d`: the ASCII digits. -/
def isDigit (c : Char) : Bool := decide (48 ≤ c.toNat ∧ c.toNat ≤ 57)

/-- The characters matched by the pattern class `\s`, which are also the characters
removed by `String.prototype.trim`: ECMAScript white space and line terminators. -/
def isWhiteSpace (c : Char) : Bool :=
  let n := c.toNat
  decide ((9 ≤ n ∧ n ≤ 13) ∨ n = 32 ∨ n = 160 ∨ n = 5760 ∨ (8192 ≤ n ∧ n ≤ 8202) ∨ n = 8232 ∨
    n = 8233 ∨ n = 8239 ∨ n = 8287 ∨ n = 12288 ∨ n = 65279)

/-- Removal of leading white space. -/
def trimStart (cs : List Char) : List Char := cs.dropWhile isWhiteSpace

/-- Removal of trailing white space. -/
def trimEnd (cs : List Char) : List Char := (cs.reverse.dropWhile isWhiteSpace).reverse

/-- JavaScript `s.trim()`. -/
def jsTrim (s : String) : String := String.mk (trimEnd (trimStart s.toList))

/-- JavaScript `s.length`: the number of UTF-16 code units. -/
def utf16Length (s : String) : Nat :=
  (s.toList.map fun c => if c.toNat < 65536 then 1 else 2).sum

/-- Lower-casing of the ASCII letters only.  Under the `i` flag (without `u`) an ASCII
letter of a pattern matches exactly its two ASCII forms, and a non-ASCII pattern character
whose upper case is ASCII (such as the dotless `ı`) matches only itself. -/
def asciiLower (c : Char) : Char :=
  if 65 ≤ c.toNat ∧ c.toNat ≤ 90 then Char.ofNat (c.toNat + 32) else c

/-- Value of a run of decimal digits. -/
def digitsValue (ds : List Char) : Nat := ds.foldl (fun acc c => 10 * acc + (c.toNat - 48)) 0

/-- Whether `t` occurs in `s` as a contiguous block (`String.prototype.includes`). -/
def containsSub (s t : List Char) : Bool := s.tails.any fun u => t.isPrefixOf u

/-! ## Values -/

/-- A JavaScript value as found in a parsed JSON body, or `undefined`. -/
inductive JSValue where
  | undefined
  | null
  | bool (b : Bool)
  | num (x : JSNum)
  | str (s : String)
  | arr (items : List JSValue)
  | obj (fields : List (String × JSValue))

/-- An exception thrown by the runtime. -/
inductive JSError where
  | typeError (what : String)
  deriving DecidableEq, Repr

/-- Built-ins supplied by the JavaScript host. -/
structure Host where
  /-- The string form of a number (`Number::toString`, radix 10). -/
  numberToString : JSNum → String
  /-- Whether `new URL(s)` succeeds. -/
  urlParses : String → Bool
  /-- The result of `new RegExp(pattern).test(s)`; `none` when the constructor throws. -/
  regexTest : JSValue → String → Option Bool
  /-- The time value of `new Date(v)` (`NaN` for an invalid date). -/
  dateTime : JSValue → JSNum

mutual
/-- The string form of an array element, for `Array.prototype.join`. -/
def itemStr (h : Host) : JSValue → String
  | .undefined => "undefined"
  | .null => "null"
  | .bool true => "true"
  | .bool false => "false"
  | .num x => h.numberToString x
  | .str s => s
  | .arr items => String.intercalate "," (joinItems h items)
  | .obj _ => "[object Object]"
/-- The pieces joined by `Array.prototype.join`: `null` and `undefined` give the empty string. -/
def joinItems (h : Host) : List JSValue → List String
  | [] => []
  | .undefined :: rest => "" :: joinItems h rest
  | .null :: rest => "" :: joinItems h rest
  | v :: rest => itemStr h v :: joinItems h rest
end

/-- JavaScript `String(v)`. -/
def toStr (h : Host) (v : JSValue) : String :=
  match v with
  | .undefined => "undefined"
  | .null => "null"
  | .bool true => "true"
  | .bool false => "false"
  | .num x => h.numberToString x
  | .str s => s
  | .arr items => String.intercalate "," (joinItems h items)
  | .obj _ => "[object Object]"

/-- JavaScript truthiness (`!!v`). -/
def truthy : JSValue → Bool
  | .undefined => false
  | .null => false
  | .bool b => b
  | .num x => !x.isFalsy
  | .str s => s != ""
  | .arr _ => true
  | .obj _ => true

/-- Property read `o[key]` on a record; an absent key reads as `undefined`. -/
def getField (fields : List (String × JSValue)) (key : String) : JSValue :=
  match fields.find? (fun kv => kv.1 == key) with
  | some kv => kv.2
  | none => .undefined

/-! ## Numeric literals -/

/-- A scanned `StrUnsignedDecimalLiteral`: `Infinity`, or the decimal `digits * 10 ^ scale`. -/
inductive DecLit where
  | infinity
  | dec (digits : Nat) (scale : Int)
  deriving DecidableEq, Repr

/-- An optional `ExponentPart` at the head of the input: its value and the remaining input.
An incomplete exponent (no digit after `e` and the sign) is not consumed. -/
def scanExponent (cs : List Char) : Int × List Char :=
  match cs with
  | [] => (0, [])
  | c :: rest =>
    if c = 'e' ∨ c = 'E' then
      match rest with
      | '+' :: body =>
        if (body.takeWhile isDigit).isEmpty then (0, cs)
        else (signed false (digitsValue (body.takeWhile isDigit)), body.dropWhile isDigit)
      | '-' :: body =>
        if (body.takeWhile isDigit).isEmpty then (0, cs)
        else (signed true (digitsValue (body.takeWhile isDigit)), body.dropWhile isDigit)
      | body =>
        if (body.takeWhile isDigit).isEmpty then (0, cs)
        else (signed false (digitsValue (body.takeWhile isDigit)), body.dropWhile isDigit)
    else (0, cs)

/-- The fraction digits after an optional decimal point, and the remaining input. -/
def scanFraction (cs : List Char) : List Char × List Char :=
  match cs with
  | '.' :: rest => (rest.takeWhile isDigit, rest.dropWhile isDigit)
  | _ => ([], cs)

/-- The longest `StrUnsignedDecimalLiteral` at the head of the input, with the remaining
input; `none` when no such literal starts there. -/
def scanUnsigned (cs : List Char) : Option (DecLit × List Char) :=
  if "Infinity".toList.isPrefixOf cs then some (.infinity, cs.drop 8)
  else
    let ip := cs.takeWhile isDigit
    let fr := scanFraction (cs.dropWhile isDigit)
    if ip.isEmpty ∧ fr.1.isEmpty then none
    else
      let ex := scanExponent fr.2
      some (.dec (digitsValue (ip ++ fr.1)) (ex.1 - (fr.1.length : Int)), ex.2)

/-- The longest `StrDecimalLiteral` (an optional sign, then an unsigned literal) at the head
of the input: whether it is negative, its value, and the remaining input. -/
def scanSigned (cs : List Char) : Option (Bool × DecLit × List Char) :=
  match cs with
  | '+' :: rest => (scanUnsigned rest).map fun r => (false, r.1, r.2)
  | '-' :: rest => (scanUnsigned rest).map fun r => (true, r.1, r.2)
  | _ => (scanUnsigned cs).map fun r => (false, r.1, r.2)

/-- The number denoted by a decimal literal, rounded to binary64. -/
def decValue (neg : Bool) : DecLit → JSNum
  | .infinity => if neg then .negInf else .posInf
  | .dec d (.ofNat k) => roundRat neg (d * 10 ^ k) 1
  | .dec d (.negSucc k) => roundRat neg d (10 ^ (k + 1))

/-- JavaScript `parseFloat` on a string: the longest decimal literal after leading white
space, `NaN` when there is none. -/
def parseFloatStr (s : String) : JSNum :=
  match scanSigned (trimStart s.toList) with
  | some (neg, lit, _) => decValue neg lit
  | none => .nan

/-- Value of a digit in a radix up to 16. -/
def radixDigit (c : Char) : Option Nat :=
  let n := c.toNat
  if 48 ≤ n ∧ n ≤ 57 then some (n - 48)
  else if 97 ≤ n ∧ n ≤ 102 then some (n - 87)
  else if 65 ≤ n ∧ n ≤ 70 then some (n - 55)
  else none

/-- Whether `c` is a digit of the given radix. -/
def isRadixDigit (radix : Nat) (c : Char) : Bool :=
  match radixDigit c with
  | some d => decide (d < radix)
  | none => false

/-- A `NonDecimalIntegerLiteral` body: at least one digit of the radix, nothing else. -/
def radixValue (radix : Nat) (ds : List Char) : JSNum :=
  if ds.isEmpty ∨ !ds.all (isRadixDigit radix) then .nan
  else roundRat false (ds.foldl (fun acc c => radix * acc + (radixDigit c).getD 0) 0) 1

/-- A whole string read as a `StrDecimalLiteral`. -/
def decimalToNumber (cs : List Char) : JSNum :=
  match scanSigned cs with
  | some (neg, lit, []) => decValue neg lit
  | _ => .nan

/-- JavaScript `Number(s)` on a string (`StringToNumber`): white space is trimmed, the
empty string is `0`, and the rest must be a decimal literal or a `0x`, `0o`, `0b` literal. -/
def stringToNumber (s : String) : JSNum :=
  match trimEnd (trimStart s.toList) with
  | [] => .fin 0 0
  | '0' :: x :: rest =>
    if x = 'x' ∨ x = 'X' then radixValue 16 rest
    else if x = 'o' ∨ x = 'O' then radixValue 8 rest
    else if x = 'b' ∨ x = 'B' then radixValue 2 rest
    else decimalToNumber ('0' :: x :: rest)
  | cs => decimalToNumber cs

/-- JavaScript `Number(v)` (`ToNumber`). -/
def toNumber (h : Host) : JSValue → JSNum
  | .undefined => .nan
  | .null => .fin 0 0
  | .bool true => .fin 1 0
  | .bool false => .fin 0 0
  | .num x => x
  | .str s => stringToNumber s
  | v => stringToNumber (toStr h v)

/-- JavaScript `parseFloat(v)`: the argument is first converted to a string. -/
def jsParseFloat (h : Host) (v : JSValue) : JSNum := parseFloatStr (toStr h v)

/-! ## The fixed patterns of the source -/

/-- The alternatives of the boolean pattern of `analyzeColumnType`. -/
def booleanLiterals : List String :=
  ["true", "false", "yes", "no", "1", "0", "evet", "hayır", "tamam", "ok"]

/-- The test `/^(true|false|yes|no|1|0|evet|hayır|tamam|ok)$/i`. -/
def isBooleanLiteral (s : String) : Bool :=
  booleanLiterals.any fun l => s.toList.map asciiLower == l.toList

/-- A maximal run of digits whose length lies in `lo..hi`: the remaining input. -/
def digitRun (lo hi : Nat) (cs : List Char) : Option (List Char) :=
  if lo ≤ (cs.takeWhile isDigit).length ∧ (cs.takeWhile isDigit).length ≤ hi
  then some (cs.dropWhile isDigit) else none

/-- The separator class `[\/\-\.]` of the date patterns. -/
def isDateSep (c : Char) : Bool := c == '/' || c == '-' || c == '.'

/-- An anchored pattern `^\d{a,b} sep \d{c,d} sep \d{e,f}$`. -/
def matchDigitGroups (isSep : Char → Bool) (r1 r2 r3 : Nat × Nat) (cs : List Char) : Bool :=
  match digitRun r1.1 r1.2 cs with
  | some (s1 :: rest1) =>
    isSep s1 &&
      match digitRun r2.1 r2.2 rest1 with
      | some (s2 :: rest2) =>
        isSep s2 &&
          match digitRun r3.1 r3.2 rest2 with
          | some [] => true
          | _ => false
      | _ => false
  | _ => false

/-- The three date tests of `analyzeColumnType`, in source order. -/
def isDateLike (s : String) : Bool :=
  matchDigitGroups isDateSep (1, 4) (1, 2) (1, 4) s.toList ||
  matchDigitGroups isDateSep (1, 2) (1, 2) (1, 4) s.toList ||
  matchDigitGroups (fun c => c == '-') (4, 4) (2, 2) (2, 2) s.toList

/-- The class `[^\s@]` of the email pattern. -/
def isEmailChar (c : Char) : Bool := !isWhiteSpace c && c != '@'

/-- The test `/^[^\s@]+@[^\s@]+\.[^\s@]+$/`. -/
def emailTest (s : String) : Bool :=
  match s.toList.dropWhile isEmailChar with
  | '@' :: dom =>
    !(s.toList.takeWhile isEmailChar).isEmpty && dom.all isEmailChar &&
      ((dom.drop 1).dropLast).contains '.'
  | _ => false

/-- The class `[0-9\s\-\(\)]` of the phone pattern. -/
def isPhoneChar (c : Char) : Bool :=
  isDigit c || isWhiteSpace c || c == '-' || c == '(' || c == ')'

/-- The test `/^[\+]?[0-9\s\-\(\)]{10,}$/`. -/
def phoneTest (s : String) : Bool :=
  match s.toList with
  | '+' :: rest => rest.all isPhoneChar && decide (10 ≤ rest.length)
  | cs => cs.all isPhoneChar && decide (10 ≤ cs.length)

/-! ## Column analysis (`server/index.js`) -/

/-- The object returned by `analyzeColumnType`; the two early returns leave
`sampleValues`, `nullPercentage` and `typeExplanation` absent. -/
structure ColumnProfile where
  type : String
  confidence : JSNum
  sampleValues : Option (List String)
  nullPercentage : Option JSNum
  typeExplanation : Option String
  deriving DecidableEq, Repr

/-- The local variables of the sampling loop of `analyzeColumnType`. -/
structure Counts where
  stringCount : Nat
  numberCount : Nat
  dateCount : Nat
  booleanCount : Nat
  nullCount : Nat
  sampleValues : List String
  deriving DecidableEq, Repr

/-- The test `value === null || value === undefined || value === ""`. -/
def isNullish : JSValue → Bool
  | .null => true
  | .undefined => true
  | .str s => s == ""
  | _ => false

/-- The bucket tests applied to a non-empty trimmed string, in source order. -/
def classifyStep (acc : Counts) (strValue : String) : Counts :=
  if isBooleanLiteral strValue then { acc with booleanCount := acc.booleanCount + 1 }
  else if isDateLike strValue then { acc with dateCount := acc.dateCount + 1 }
  else if !(stringToNumber strValue).isNaN && strValue != "" then
    { acc with numberCount := acc.numberCount + 1 }
  else { acc with stringCount := acc.stringCount + 1 }

/-- One iteration of the sampling loop of `analyzeColumnType`. -/
def analyzeStep (h : Host) (acc : Counts) (value : JSValue) : Counts :=
  if isNullish value then { acc with nullCount := acc.nullCount + 1 }
  else if jsTrim (toStr h value) = "" then { acc with nullCount := acc.nullCount + 1 }
  else
    classifyStep { acc with sampleValues := acc.sampleValues ++ [jsTrim (toStr h value)] }
      (jsTrim (toStr h value))

/-- The sampling loop: the first `Math.min(values.length, 100)` values. -/
def sampleCounts (h : Host) (values : List JSValue) : Counts :=
  (values.take 100).foldl (analyzeStep h) ⟨0, 0, 0, 0, 0, []⟩

/-- One of the three `if (percentages.x > bestConfidence)` updates. -/
def betterOf (best : String × JSNum) (name : String) (share : JSNum) : String × JSNum :=
  if jsGt share best.2 then (name, share) else best

/-- The selection of `bestType` and `bestConfidence` from the four counts. -/
def bestBucket (c : Counts) : String × JSNum :=
  let total := JSNum.ofNat (c.stringCount + c.numberCount + c.dateCount + c.booleanCount)
  betterOf
    (betterOf
      (betterOf ("string", jsDiv (.ofNat c.stringCount) total)
        "number" (jsDiv (.ofNat c.numberCount) total))
      "date" (jsDiv (.ofNat c.dateCount) total))
    "boolean" (jsDiv (.ofNat c.booleanCount) total)

/-- The `typeExplanation` text for a winning type. -/
def typeExplanation (bestType : String) : String :=
  if bestType = "number" then "Sayısal değerler tespit edildi"
  else if bestType = "date" then "Tarih formatı tespit edildi"
  else if bestType = "boolean" then "Evet/Hayır değerleri tespit edildi"
  else "Metin formatı tespit edildi"

/-- The function `analyzeColumnType(values)`. -/
def analyzeColumnType (h : Host) (values : List JSValue) : ColumnProfile :=
  if values.length = 0 then ⟨"string", .fin 0 0, none, none, none⟩
  else
    let c := sampleCounts h values
    if c.stringCount + c.numberCount + c.dateCount + c.booleanCount = 0 then
      ⟨"string", .fin 0 0, none, none, none⟩
    else
      { type := (bestBucket c).1
        confidence := mathRound (jsMul (bestBucket c).2 (.ofNat 100))
        sampleValues := some (c.sampleValues.take 5)
        nullPercentage :=
          some (mathRound (jsMul (jsDiv (.ofNat c.nullCount) (.ofNat values.length)) (.ofNat 100)))
        typeExplanation := some (typeExplanation (bestBucket c).1) }

/-! ## Validation (`server/validation.js`) -/

/-- The validator `required`. -/
def validators.required (value : JSValue) : Bool := !isNullish value

/-- The validator `email`. -/
def validators.email (h : Host) (value : JSValue) : Bool :=
  if !truthy value then true else emailTest (toStr h value)

/-- The validator `phone`. -/
def validators.phone (h : Host) (value : JSValue) : Bool :=
  if !truthy value then true else phoneTest (toStr h value)

/-- The validator `url`: an exception of the `URL` constructor is caught. -/
def validators.url (h : Host) (value : JSValue) : Bool :=
  if !truthy value then true else h.urlParses (toStr h value)

/-- The validator `min_length`. -/
def validators.min_length (h : Host) (value min : JSValue) : Bool :=
  if !truthy value then true
  else jsGe (.ofNat (utf16Length (toStr h value))) (toNumber h min)

/-- The validator `max_length`. -/
def validators.max_length (h : Host) (value max : JSValue) : Bool :=
  if !truthy value then true
  else jsLe (.ofNat (utf16Length (toStr h value))) (toNumber h max)

/-- The validator `min_value`. -/
def validators.min_value (h : Host) (value min : JSValue) : Bool :=
  if !truthy value then true
  else !(jsParseFloat h value).isNaN && jsGe (jsParseFloat h value) (toNumber h min)

/-- The validator `max_value`. -/
def validators.max_value (h : Host) (value max : JSValue) : Bool :=
  if !truthy value then true
  else !(jsParseFloat h value).isNaN && jsLe (jsParseFloat h value) (toNumber h max)

/-- The validator `regex`: an exception of the `RegExp` constructor is caught. -/
def validators.regex (h : Host) (value pattern : JSValue) : Bool :=
  if !truthy value then true
  else
    match h.regexTest pattern (toStr h value) with
    | some b => b
    | none => false

/-- Property read `v.key` on a value that is neither `null` nor `undefined`: only a
record has the properties `min_date` and `max_date`. -/
def getProp (v : JSValue) (key : String) : JSValue :=
  match v with
  | .obj fields => getField fields key
  | _ => .undefined

/-- The validator `date_range`.  Its second parameter is destructured in the parameter
list, before the body runs: `null` and `undefined` throw there. -/
def validators.date_range (h : Host) (value params : JSValue) : Except JSError Bool :=
  match params with
  | .undefined => .error (.typeError "Cannot destructure property 'min_date' of undefined")
  | .null => .error (.typeError "Cannot destructure property 'min_date' of null")
  | _ =>
    if !truthy value then .ok true
    else if (h.dateTime value).isNaN then .ok false
    else if truthy (getProp params "min_date") &&
        jsLt (h.dateTime value) (h.dateTime (getProp params "min_date")) then .ok false
    else if truthy (getProp params "max_date") &&
        jsGt (h.dateTime value) (h.dateTime (getProp params "max_date")) then .ok false
    else .ok true

/-- The test `x === s` for a string `s`. -/
def isString (x : JSValue) (s : String) : Bool :=
  match x with
  | .str t => t == s
  | _ => false

/-- The validator `enum`: `allowed_values.includes` exists on arrays and on strings only. -/
def validators.enum (h : Host) (value allowed_values : JSValue) : Except JSError Bool :=
  if !truthy value then .ok true
  else
    match allowed_values with
    | .arr items => .ok (items.any fun x => isString x (toStr h value))
    | .str t => .ok (containsSub t.toList (toStr h value).toList)
    | .undefined => .error (.typeError "Cannot read properties of undefined (reading 'includes')")
    | .null => .error (.typeError "Cannot read properties of null (reading 'includes')")
    | _ => .error (.typeError "allowed_values.includes is not a function")

/-- The own keys of the object `validators`. -/
def validatorKeys : List String :=
  ["required", "email", "phone", "url", "min_length", "max_length", "min_value", "max_value",
    "regex", "date_range", "enum"]

/-- The read `validators[type]` followed by the call `validators[type](value, params)`,
reduced to what `validateRow` observes: `none` when the read is falsy (the rule is skipped),
otherwise the truthiness of the result or the exception thrown.  Besides its own keys the
object answers to the members it inherits from `Object.prototype`. -/
def callValidator (h : Host) (key : String) (value params : JSValue) : Option (Except JSError Bool) :=
  if key = "required" then some (.ok (validators.required value))
  else if key = "email" then some (.ok (validators.email h value))
  else if key = "phone" then some (.ok (validators.phone h value))
  else if key = "url" then some (.ok (validators.url h value))
  else if key = "min_length" then some (.ok (validators.min_length h value params))
  else if key = "max_length" then some (.ok (validators.max_length h value params))
  else if key = "min_value" then some (.ok (validators.min_value h value params))
  else if key = "max_value" then some (.ok (validators.max_value h value params))
  else if key = "regex" then some (.ok (validators.regex h value params))
  else if key = "date_range" then some (validators.date_range h value params)
  else if key = "enum" then some (validators.enum h value params)
  else if key = "constructor" ∨ key = "toString" ∨ key = "toLocaleString" ∨ key = "valueOf" then
    some (.ok true)
  else if key = "hasOwnProperty" ∨ key = "propertyIsEnumerable" then
    some (.ok (validatorKeys.contains (toStr h value)))
  else if key = "isPrototypeOf" then some (.ok false)
  else if key = "__lookupGetter__" ∨ key = "__lookupSetter__" then
    some (.ok (toStr h value == "__proto__"))
  else if key = "__defineGetter__" ∨ key = "__defineSetter__" then
    some (.error (.typeError "Object.prototype.__defineGetter__: Expecting function"))
  else if key = "__proto__" then some (.error (.typeError "validators[type] is not a function"))
  else none

/-- A validation rule; a field absent from the rule object is `undefined`. -/
structure Rule where
  type : JSValue
  params : JSValue
  message : JSValue
  severity : JSValue

/-- An entry of the `errors` or `warnings` list; `rowIndex` is set by `validateDataset`. -/
structure ValidationError where
  column : String
  value : JSValue
  rule : JSValue
  message : JSValue
  severity : JSValue
  rowIndex : Option Nat

/-- A row of the dataset: the list of its entries. -/
abbrev Record := List (String × JSValue)

/-- The rule set: `Object.entries(rules)`. -/
abbrev RuleSet := List (String × List Rule)

/-- The default `params = {}` of the destructuring in `validateRow`. -/
def ruleParams (rule : Rule) : JSValue :=
  match rule.params with
  | .undefined => .obj []
  | p => p

/-- The default `severity = 'error'` of the destructuring in `validateRow`. -/
def ruleSeverity (rule : Rule) : JSValue :=
  match rule.severity with
  | .undefined => .str "error"
  | v => v

/-- The entry built by `validateRow` for a failed rule. -/
def mkError (h : Host) (columnName : String) (value : JSValue) (rule : Rule) : ValidationError :=
  { column := columnName
    value := value
    rule := rule.type
    message :=
      if truthy rule.message then rule.message
      else .str ("Validation failed for " ++ columnName ++ ": " ++ toStr h rule.type)
    severity := ruleSeverity rule
    rowIndex := none }

/-- The body of the inner loop of `validateRow`, for one rule of one column. -/
def applyRule (h : Host) (columnName : String) (value : JSValue)
    (acc : List ValidationError × List ValidationError) (rule : Rule) :
    Except JSError (List ValidationError × List ValidationError) :=
  match callValidator h (toStr h rule.type) value (ruleParams rule) with
  | none => .ok acc
  | some (.error e) => .error e
  | some (.ok true) => .ok acc
  | some (.ok false) =>
    if isString (ruleSeverity rule) "error" then .ok (acc.1 ++ [mkError h columnName value rule], acc.2)
    else .ok (acc.1, acc.2 ++ [mkError h columnName value rule])

/-- The body of the outer loop of `validateRow`, for one column of the rule set. -/
def applyColumn (h : Host) (row : Record)
    (acc : List ValidationError × List ValidationError) (entry : String × List Rule) :
    Except JSError (List ValidationError × List ValidationError) :=
  entry.2.foldlM (applyRule h entry.1 (getField row entry.1)) acc

/-- The function `validateRow(row, rules)`: the pair `(errors, warnings)`. -/
def validateRow (h : Host) (row : Record) (rules : RuleSet) :
    Except JSError (List ValidationError × List ValidationError) :=
  rules.foldlM (applyColumn h row) ([], [])

/-- An entry of `results.summary`. -/
structure ColumnSummary where
  errors : Nat
  warnings : Nat
  invalidRows : Nat
  deriving DecidableEq, Repr

/-- The object returned by `validateDataset`. -/
structure Report where
  totalRows : Nat
  validRows : Nat
  invalidRows : Nat
  totalErrors : Nat
  totalWarnings : Nat
  errors : List ValidationError
  warnings : List ValidationError
  summary : List (String × ColumnSummary)

/-- An update `f` of the summary entry of one column. -/
def bumpSummary (summary : List (String × ColumnSummary)) (column : String)
    (f : ColumnSummary → ColumnSummary) : List (String × ColumnSummary) :=
  summary.map fun kv => if kv.1 = column then (kv.1, f kv.2) else kv

/-- The callback of `rowValidation.errors.forEach` for row number `i` (counted from 0). -/
def addError (i : Nat) (res : Report) (error : ValidationError) : Report :=
  { res with
    errors := res.errors ++ [{ error with rowIndex := some (i + 1) }]
    totalErrors := res.totalErrors + 1
    summary := bumpSummary res.summary error.column fun c =>
      { c with errors := c.errors + 1, invalidRows := c.invalidRows + 1 } }

/-- The callback of `rowValidation.warnings.forEach` for row number `i` (counted from 0). -/
def addWarning (i : Nat) (res : Report) (warning : ValidationError) : Report :=
  { res with
    warnings := res.warnings ++ [{ warning with rowIndex := some (i + 1) }]
    totalWarnings := res.totalWarnings + 1
    summary := bumpSummary res.summary warning.column fun c =>
      { c with warnings := c.warnings + 1 } }

/-- The effect of one iteration of the row loop of `validateDataset`, given the result of
`validateRow` for that row. -/
def recordRow (i : Nat) (res : Report)
    (rowValidation : List ValidationError × List ValidationError) : Report :=
  let counted : Report :=
    if rowValidation.1.length = 0 then { res with validRows := res.validRows + 1 }
    else { res with invalidRows := res.invalidRows + 1 }
  rowValidation.2.foldl (addWarning i) (rowValidation.1.foldl (addError i) counted)

/-- The row loop of `validateDataset`, from row number `i` on. -/
def validateLoop (h : Host) (rules : RuleSet) : Nat → List Record → Report → Except JSError Report
  | _, [], res => .ok res
  | i, row :: rest, res =>
    match validateRow h row rules with
    | .error e => .error e
    | .ok rowValidation => validateLoop h rules (i + 1) rest (recordRow i res rowValidation)

/-- The function `validateDataset(rows, rules)`. -/
def validateDataset (h : Host) (rows : List Record) (rules : RuleSet) : Except JSError Report :=
  validateLoop h rules 0 rows
    { totalRows := rows.length
      validRows := 0
      invalidRows := 0
      totalErrors := 0
      totalWarnings := 0
      errors := []
      warnings := []
      summary := rules.map fun kv => (kv.1, ⟨0, 0, 0⟩) }

/-! ## Definitions used by the statements -/

/-- A host for the worked examples.  Their values are strings, `null`, `undefined` and
booleans, whose string forms do not depend on the host. -/
def exampleHost : Host :=
  { numberToString := fun _ => "0"
    urlParses := fun _ => false
    regexTest := fun _ _ => none
    dateTime := fun _ => .nan }

/-- The rows of Scenario A. -/
def scenarioARows : List Record :=
  [[("age", .str "30")], [("age", .str "forty")], [("age", .str "")]]

/-- The rule set of Scenario A: `min_value` with bound 20 on column `age`. -/
def scenarioARules : RuleSet :=
  [("age", [{ type := .str "min_value", params := .num (.ofNat 20), message := .undefined,
              severity := .undefined }])]

/-- A rule with the given kind and parameters and no message or severity. -/
def plainRule (kind : String) (params : JSValue) : Rule :=
  { type := .str kind, params := params, message := .undefined, severity := .undefined }

/-- The report of Scenario A: one error, on row 2. -/
def scenarioAReport : Report :=
  { totalRows := 3
    validRows := 2
    invalidRows := 1
    totalErrors := 1
    totalWarnings := 0
    errors :=
      [{ column := "age", value := .str "forty", rule := .str "min_value",
         message := .str "Validation failed for age: min_value", severity := .str "error",
         rowIndex := some 2 }]
    warnings := []
    summary := [("age", ⟨1, 0, 1⟩)] }

/-- The share `count / total` computed by `analyzeColumnType`. -/
def shareOf (count total : Nat) : JSNum := jsDiv (.ofNat count) (.ofNat total)

/-- The confidence `Math.round((count / total) * 100)` computed by `analyzeColumnType`. -/
def confidenceOf (count total : Nat) : JSNum := mathRound (jsMul (shareOf count total) (.ofNat 100))

/-- The value `round(100 * count / total)` with halves rounded up, except that the ratio
`23 / 40` gives 57: the binary64 product `(23 / 40) * 100` is `57.49999999999999`. -/
def expectedConfidence (count total : Nat) : Nat :=
  if 40 * count = 23 * total then 57 else (200 * count + total) / (2 * total)

/-- Whether `confidenceOf count total` is `expectedConfidence count total` for every
`count ≤ total`. -/
def confidenceRowOk (total : Nat) : Bool :=
  (List.range (total + 1)).all fun count =>
    decide (confidenceOf count total = .fin (expectedConfidence count total) 0)

/-- Whether `confidenceRowOk` holds for every total from 1 to 100. -/
def confidenceTableOk : Bool := (List.range 100).all fun t => confidenceRowOk (t + 1)

/-- Whether the shares `0 / total`, `1 / total`, ..., `total / total` increase strictly. -/
def shareRowOk (total : Nat) : Bool :=
  (List.range total).all fun count => jsLt (shareOf count total) (shareOf (count + 1) total)

/-- Whether `shareRowOk` holds for every total from 1 to 100. -/
def shareTableOk : Bool := (List.range 100).all fun t => shareRowOk (t + 1)

/-- A value counts as null when it is absent, `null`, or blank after trimming. -/
def isNullValue (h : Host) (v : JSValue) : Bool := isNullish v || jsTrim (toStr h v) == ""

/-- The trimmed string forms of the non-null values of a list, in their original order. -/
def trimmedNonNull (h : Host) (values : List JSValue) : List String :=
  (values.filter fun v => !isNullValue h v).map fun v => jsTrim (toStr h v)

/-- The non-null sampled values: the trimmed string forms of the non-null values among the
first 100 values of a column. -/
def nonNullSample (h : Host) (values : List JSValue) : List String :=
  trimmedNonNull h (values.take 100)

/-- The four buckets, in the order `string < number < date < boolean`. -/
inductive Bucket where
  | string
  | number
  | date
  | boolean
  deriving DecidableEq, Repr

/-- The type name of a bucket. -/
def Bucket.name : Bucket → String
  | .string => "string"
  | .number => "number"
  | .date => "date"
  | .boolean => "boolean"

/-- The position of a bucket in the order `string < number < date < boolean`. -/
def Bucket.rank : Bucket → Nat
  | .string => 0
  | .number => 1
  | .date => 2
  | .boolean => 3

/-- The bucket of a non-null sampled value: boolean literal first, else date pattern, else
numeric (`Number(s)` is not `NaN`), else string. -/
def classify (s : String) : Bucket :=
  if isBooleanLiteral s then .boolean
  else if isDateLike s then .date
  else if !(stringToNumber s).isNaN then .number
  else .string

/-- The number of values of a sample that fall in a bucket. -/
def bucketCount (b : Bucket) (sample : List String) : Nat :=
  sample.countP fun s => decide (classify s = b)

/-- The selection of `analyzeColumnType` on the counts themselves: a later bucket replaces
the current best only when its count is strictly larger. -/
def winner (s n d b : Nat) : Bucket × Nat :=
  let w1 : Bucket × Nat := if s < n then (.number, n) else (.string, s)
  let w2 : Bucket × Nat := if w1.2 < d then (.date, d) else w1
  if w2.2 < b then (.boolean, b) else w2

/-- The winning bucket and its count for a sample. -/
def sampleWinner (sample : List String) : Bucket × Nat :=
  winner (bucketCount .string sample) (bucketCount .number sample)
    (bucketCount .date sample) (bucketCount .boolean sample)

/-- A column of 200 values: 100 non-empty strings followed by 100 `null`s. -/
def halfNullColumn : List JSValue :=
  List.replicate 100 (.str "a") ++ List.replicate 100 .null

/-- A column of 40 values: 23 numeric strings and 17 plain strings. -/
def ratio2340Column : List JSValue :=
  List.replicate 23 (.str "5") ++ List.replicate 17 (.str "x")

/-- The column of Scenario B. -/
def scenarioBColumn : List JSValue :=
  [.str "2023-01-05", .str "2023-02-10", .str "not-a-date"]

/-- A column with nulls and blanks between padded values. -/
def paddedColumn : List JSValue :=
  [.str " a ", .null, .str "b", .str "", .str "c", .undefined, .str "  ", .str "d", .str "e",
    .str "f", .str "g"]

/-- Digits with an optional fraction: `digits` or `digits.digits`. -/
def isDecimalBody (cs : List Char) : Bool :=
  !(cs.takeWhile isDigit).isEmpty &&
    match cs.dropWhile isDigit with
    | [] => true
    | c :: fs => c == '.' && !fs.isEmpty && fs.all isDigit

/-- A valid integer or decimal string: an optional sign, digits, and an optional fraction. -/
def isDecimalString (s : String) : Bool :=
  match s.toList with
  | [] => false
  | c :: cs => if c = '+' ∨ c = '-' then isDecimalBody cs else isDecimalBody (c :: cs)

/-- A column of decimal strings with padding and a null. -/
def decimalColumn : List JSValue :=
  [.str "12", .str " 3.5 ", .null, .str "-7", .str "+0.25"]

/-- A column with one boolean literal and one plain string. -/
def tieColumn : List JSValue := [.str "true", .str "abc"]

/-! ## The report as a function of the rows -/

/-- The stamp `error.rowIndex = i + 1` put on an entry of row number `i` (counted from 0). -/
def setRowIndex (i : Nat) (e : ValidationError) : ValidationError :=
  { e with rowIndex := some (i + 1) }

/-- The errors and warnings of one row (both empty when `validateRow` throws). -/
def rowResult (h : Host) (rules : RuleSet) (row : Record) :
    List ValidationError × List ValidationError :=
  match validateRow h row rules with
  | .ok rv => rv
  | .error _ => ([], [])

/-- The error entries of the rows, in row order, each stamped with the 1-based index of its
row; the first row has number `i` (counted from 0). -/
def loopErrors (h : Host) (rules : RuleSet) : Nat → List Record → List ValidationError
  | _, [] => []
  | i, row :: rest =>
    (rowResult h rules row).1.map (setRowIndex i) ++ loopErrors h rules (i + 1) rest

/-- The warning entries of the rows, in row order, each stamped with the 1-based index of
its row; the first row has number `i` (counted from 0). -/
def loopWarnings (h : Host) (rules : RuleSet) : Nat → List Record → List ValidationError
  | _, [] => []
  | i, row :: rest =>
    (rowResult h rules row).2.map (setRowIndex i) ++ loopWarnings h rules (i + 1) rest

/-- The number of entries of a list that belong to a column. -/
def columnCount (column : String) (entries : List ValidationError) : Nat :=
  entries.countP fun e => decide (e.column = column)

/-- The summary after `errs` and `warns` have been recorded on top of `summary`. -/
def addToSummary (summary : List (String × ColumnSummary)) (errs warns : List ValidationError) :
    List (String × ColumnSummary) :=
  summary.map fun kv =>
    (kv.1, { errors := kv.2.errors + columnCount kv.1 errs
             warnings := kv.2.warnings + columnCount kv.1 warns
             invalidRows := kv.2.invalidRows + columnCount kv.1 errs })

/-- Whether the validator of a rule returns a falsy result on `row[column]`. -/
def ruleFails (h : Host) (row : Record) (column : String) (rule : Rule) : Bool :=
  match callValidator h (toStr h rule.type) (getField row column) (ruleParams rule) with
  | some (.ok false) => true
  | _ => false

/-- The number of (column, rule) pairs of the rule set whose validator returns false on a row. -/
def failingPairs (h : Host) (rules : RuleSet) (row : Record) : Nat :=
  (rules.map fun entry => entry.2.countP (ruleFails h row entry.1)).sum

/-- The number of (row, column, rule) triples whose validator returns false. -/
def failingTriples (h : Host) (rules : RuleSet) (rows : List Record) : Nat :=
  (rows.map (failingPairs h rules)).sum

/-- The sum of two summaries with the same columns, entry by entry. -/
def addSummaries (s1 s2 : List (String × ColumnSummary)) : List (String × ColumnSummary) :=
  List.zipWith (fun x y =>
    (x.1, { errors := x.2.errors + y.2.errors
            warnings := x.2.warnings + y.2.warnings
            invalidRows := x.2.invalidRows + y.2.invalidRows })) s1 s2

/-- The keys that `validators` does not own but inherits from `Object.prototype`. -/
def inheritedKeys : List String :=
  ["constructor", "toString", "toLocaleString", "valueOf", "hasOwnProperty",
    "propertyIsEnumerable", "isPrototypeOf", "__lookupGetter__", "__lookupSetter__",
    "__defineGetter__", "__defineSetter__", "__proto__"]

/-- Whether the kind of a rule is neither a key of `validators` nor an inherited member. -/
def isUnknownKind (h : Host) (rule : Rule) : Bool :=
  !validatorKeys.contains (toStr h rule.type) && !inheritedKeys.contains (toStr h rule.type)

/-- The rule set with the rules of unknown kind removed from the list of each column. -/
def dropUnknown (h : Host) (rules : RuleSet) : RuleSet :=
  rules.map fun entry => (entry.1, entry.2.filter fun rule => !isUnknownKind h rule)

/-- A one-row dataset with a cell `status`. -/
def statusRows : List Record := [[("status", .str "open")]]

/-- The report of `statusRows` under a rule of kind `hasOwnProperty`: one error. -/
def inheritedKindReport : Report :=
  { totalRows := 1
    validRows := 0
    invalidRows := 1
    totalErrors := 1
    totalWarnings := 0
    errors :=
      [{ column := "status", value := .str "open", rule := .str "hasOwnProperty",
         message := .str "Validation failed for status: hasOwnProperty",
         severity := .str "error", rowIndex := some 1 }]
    warnings := []
    summary := [("status", ⟨1, 0, 1⟩)] }

/-- The report of `statusRows` when column `status` has no rule: no error. -/
def noRuleReport : Report :=
  { totalRows := 1
    validRows := 1
    invalidRows := 0
    totalErrors := 0
    totalWarnings := 0
    errors := []
    warnings := []
    summary := [("status", ⟨0, 0, 0⟩)] }

/-! ## Rule generation (`server/validation.js`) -/

/-- JavaScript `Math.min(...xs)`: `Infinity` without arguments, `NaN` if an argument is `NaN`. -/
def mathMin (xs : List JSNum) : JSNum :=
  xs.foldl (fun acc x => if acc.isNaN || x.isNaN then .nan else if jsLt x acc then x else acc)
    .posInf

/-- JavaScript `Math.max(...xs)`: `-Infinity` without arguments, `NaN` if an argument is `NaN`. -/
def mathMax (xs : List JSNum) : JSNum :=
  xs.foldl (fun acc x => if acc.isNaN || x.isNaN then .nan else if jsLt acc x then x else acc)
    .negInf

/-- The test `columnAnalysis.nullPercentage < 20`; an absent field compares as `NaN`. -/
def belowTwenty : Option JSNum → Bool
  | some x => jsLt x (.ofNat 20)
  | none => false

/-- The rule pushed for a column with a low null percentage. -/
def requiredRule (columnName : String) : Rule :=
  { type := .str "required", params := .undefined,
    message := .str (columnName ++ " is required"), severity := .undefined }

/-- The rule pushed for a column of type `email`. -/
def emailRule (columnName : String) : Rule :=
  { type := .str "email", params := .undefined,
    message := .str (columnName ++ " must be a valid email address"), severity := .undefined }

/-- The `min_value` rule pushed for a column of type `number`. -/
def minValueRule (h : Host) (columnName : String) (min : JSNum) : Rule :=
  { type := .str "min_value", params := .num min,
    message := .str (columnName ++ " must be at least " ++ h.numberToString min),
    severity := .undefined }

/-- The `max_value` rule pushed for a column of type `number`. -/
def maxValueRule (h : Host) (columnName : String) (max : JSNum) : Rule :=
  { type := .str "max_value", params := .num max,
    message := .str (columnName ++ " must be at most " ++ h.numberToString max),
    severity := .undefined }

/-- The rule pushed for a column of type `date`. -/
def dateRangeRule (columnName : String) : Rule :=
  { type := .str "date_range",
    params := .obj [("min_date", .str "1900-01-01"), ("max_date", .str "2100-12-31")],
    message := .str (columnName ++ " must be a valid date"), severity := .undefined }

/-- The rule pushed for a column of type `string` whose longest sample value has
`maxLength` code units. -/
def maxLengthRule (h : Host) (columnName : String) (maxLength : Nat) : Rule :=
  { type := .str "max_length", params := .num (.ofNat (maxLength * 2)),
    message := .str (columnName ++ " must not exceed "
      ++ h.numberToString (.ofNat (maxLength * 2)) ++ " characters"),
    severity := .undefined }

/-- The array `sampleValues.map(v => parseFloat(v)).filter(n => !isNaN(n))`. -/
def sampleNumbers (sampleValues : List String) : List JSNum :=
  (sampleValues.map parseFloatStr).filter fun n => !n.isNaN

/-- The rules of the `case 'number'` branch. -/
def numberRules (h : Host) (columnName : String) (sampleValues : List String) : List Rule :=
  if 0 < (sampleNumbers sampleValues).length then
    if !jsEq (mathMin (sampleNumbers sampleValues)) (mathMax (sampleNumbers sampleValues)) then
      [minValueRule h columnName (mathMin (sampleNumbers sampleValues)),
        maxValueRule h columnName (mathMax (sampleNumbers sampleValues))]
    else []
  else []

/-- The rules of the `switch (columnAnalysis.type)`; reading `sampleValues.map` throws when
`sampleValues` is absent. -/
def typeRules (h : Host) (columnName : String) (p : ColumnProfile) : Except JSError (List Rule) :=
  if p.type = "email" then .ok [emailRule columnName]
  else if p.type = "number" then
    match p.sampleValues with
    | none => .error (.typeError "Cannot read properties of undefined (reading 'map')")
    | some sampleValues => .ok (numberRules h columnName sampleValues)
  else if p.type = "date" then .ok [dateRangeRule columnName]
  else .ok []

/-- The length of the longest sample value, `Math.max(...sampleValues.map(v => v.length))`.
Without sample values `Math.max()` is `-Infinity`, which like 0 fails the test
`maxLength > 0`. -/
def longestSample (sampleValues : List String) : Nat :=
  (sampleValues.map utf16Length).foldl max 0

/-- The rules of the block `if (columnAnalysis.type === 'string')`. -/
def lengthRules (h : Host) (columnName : String) (p : ColumnProfile) :
    Except JSError (List Rule) :=
  if p.type = "string" then
    match p.sampleValues with
    | none => .error (.typeError "Cannot read properties of undefined (reading 'map')")
    | some sampleValues =>
      .ok (if 0 < longestSample sampleValues then
        [maxLengthRule h columnName (longestSample sampleValues)] else [])
  else .ok []

/-- The list `columnRules` built by one iteration of the loop of `generateValidationRules`. -/
def columnRulesOf (h : Host) (columnName : String) (p : ColumnProfile) :
    Except JSError (List Rule) :=
  match typeRules h columnName p with
  | .error e => .error e
  | .ok typed =>
    match lengthRules h columnName p with
    | .error e => .error e
    | .ok lengths =>
      .ok ((if belowTwenty p.nullPercentage then [requiredRule columnName] else [])
        ++ typed ++ lengths)

/-- One iteration of the loop of `generateValidationRules`. -/
def generateStep (h : Host) (rules : RuleSet) (entry : String × ColumnProfile) :
    Except JSError RuleSet :=
  match columnRulesOf h entry.1 entry.2 with
  | .error e => .error e
  | .ok columnRules =>
    .ok (if 0 < columnRules.length then rules ++ [(entry.1, columnRules)] else rules)

/-- The function `generateValidationRules(analysis)`; `analysis` is `Object.entries(analysis)`. -/
def generateValidationRules (h : Host) (analysis : List (String × ColumnProfile)) :
    Except JSError RuleSet :=
  analysis.foldlM (generateStep h) []

/-- The rule list built for a column (empty when building it throws). -/
def columnRulesOr (h : Host) (entry : String × ColumnProfile) : List Rule :=
  match columnRulesOf h entry.1 entry.2 with
  | .ok columnRules => columnRules
  | .error _ => []

/-- The rule list of a column in a rule set, empty when the column is omitted. -/
def rulesFor (rules : RuleSet) (columnName : String) : List Rule :=
  match rules.find? (fun kv => kv.1 == columnName) with
  | some kv => kv.2
  | none => []

/-- The extended rational denoted by a number other than `NaN`. -/
def JSNum.toExt : JSNum → WithBot (WithTop ℚ)
  | .nan => ⊥
  | .negInf => ⊥
  | .posInf => ((⊤ : WithTop ℚ) : WithBot (WithTop ℚ))
  | .fin m e => (((m : ℚ) * (2 : ℚ) ^ e : ℚ) : WithTop ℚ)

/-- A profile of type `string` whose only sample value is the empty string. -/
def emptySampleProfile : ColumnProfile :=
  { type := "string", confidence := .ofNat 100, sampleValues := some [""],
    nullPercentage := some (.ofNat 50), typeExplanation := none }

/-- Whether all numbers of a list are equal to each other (`===`). -/
def allEqual (xs : List JSNum) : Bool :=
  xs.all fun x => xs.all fun y => jsEq x y

/-- Whether a rule is a `min_value` or a `max_value` rule. -/
def isBoundRule (rule : Rule) : Bool :=
  isString rule.type "min_value" || isString rule.type "max_value"

/-- Whether a rule is a `max_length` rule. -/
def isMaxLengthRule (rule : Rule) : Bool :=
  isString rule.type "max_length"

/-- A profile of type `number` with three sample values, one of them not a number. -/
def mixedNumberProfile : ColumnProfile :=
  { type := "number", confidence := .ofNat 67, sampleValues := some ["7", "n/a", "3"],
    nullPercentage := some (.ofNat 0), typeExplanation := none }

/-- A profile of type `string` with two sample values. -/
def cityProfile : ColumnProfile :=
  { type := "string", confidence := .ofNat 100, sampleValues := some ["Izmir", "Ankara"],
    nullPercentage := some (.ofNat 50), typeExplanation := none }

/-- The rule set generated for a column `n` with the profile `mixedNumberProfile`. -/
def mixedNumberRules : RuleSet :=
  [("n", [requiredRule "n", minValueRule exampleHost "n" (parseFloatStr "3"),
    maxValueRule exampleHost "n" (parseFloatStr "7")])]

/-- The rule set generated for a column `city` with the profile `cityProfile`. -/
def cityRules : RuleSet :=
  [("city", [maxLengthRule exampleHost "city" 6])]

/-! ## Cleaning (`server/validation.js`) -/

/-- An entry of the cleaning log; a field that the entry does not have is `none`. -/
structure LogEntry where
  action : String
  rowIndex : Nat
  reason : Option String
  column : Option String
  oldValue : Option JSValue
  newValue : Option JSValue

/-- The options of `cleanData`, after the defaults of the destructuring have been applied
(`removeInvalidRows = false`, `fixCommonIssues = true`, `defaultValues = {}`). -/
structure CleaningOptions where
  removeInvalidRows : Bool
  fixCommonIssues : Bool
  defaultValues : Record

/-- The object returned by `cleanData`. -/
structure CleanResult where
  cleanedRows : List Record
  cleaningLog : List LogEntry
  originalCount : Nat
  cleanedCount : Nat
  removedCount : Nat

/-- Property write `o[key] = v` on a record: the value of an existing key is replaced in
place, a new key is added at the end. -/
def setField : Record → String → JSValue → Record
  | [], key, v => [(key, v)]
  | kv :: rest, key, v =>
    if kv.1 == key then (kv.1, v) :: rest else kv :: setField rest key v

/-- The array `validationResults.errors.filter(e => e.rowIndex === i + 1)`. -/
def rowErrors (validationResults : Report) (i : Nat) : List ValidationError :=
  validationResults.errors.filter fun e => e.rowIndex == some (i + 1)

/-- The log entry of a removed row that has `n` errors. -/
def removedEntry (h : Host) (i n : Nat) : LogEntry :=
  { action := "removed", rowIndex := i + 1,
    reason := some (h.numberToString (.ofNat n) ++ " validation errors"),
    column := none, oldValue := none, newValue := none }

/-- The log entry of a trimmed cell. -/
def trimmedEntry (i : Nat) (columnName : String) (value newValue : JSValue) : LogEntry :=
  { action := "trimmed", rowIndex := i + 1, reason := none, column := some columnName,
    oldValue := some value, newValue := some newValue }

/-- The log entry of a cell that received its default value. -/
def defaultEntry (i : Nat) (columnName : String) (value newValue : JSValue) : LogEntry :=
  { action := "default_value", rowIndex := i + 1, reason := none, column := some columnName,
    oldValue := some value, newValue := some newValue }

/-- The block "Trim whitespace" on the cell `value`: the new value and the entries pushed. -/
def trimStep (i : Nat) (columnName : String) (value : JSValue) : JSValue × List LogEntry :=
  match value with
  | .str s =>
    if jsTrim s != s then (.str (jsTrim s), [trimmedEntry i columnName value (.str (jsTrim s))])
    else (value, [])
  | _ => (value, [])

/-- The block "Apply default values for empty fields" on the cell `value` whose current new
value is `newValue`: the new value and the entries pushed. -/
def defaultStep (defaultValues : Record) (i : Nat) (columnName : String)
    (value newValue : JSValue) : JSValue × List LogEntry :=
  if isNullish newValue && truthy (getField defaultValues columnName) then
    (getField defaultValues columnName,
      [defaultEntry i columnName value (getField defaultValues columnName)])
  else (newValue, [])

/-- The two blocks applied to one cell: the final new value and the entries pushed. -/
def fixCell (defaultValues : Record) (i : Nat) (columnName : String) (value : JSValue) :
    JSValue × List LogEntry :=
  ((defaultStep defaultValues i columnName value (trimStep i columnName value).1).1,
    (trimStep i columnName value).2
      ++ (defaultStep defaultValues i columnName value (trimStep i columnName value).1).2)

/-- One iteration of the loop over `Object.entries(cleanedRow)`, on the pair
`(cleanedRow, cleaningLog)`. -/
def fixStep (defaultValues : Record) (i : Nat) (acc : Record × List LogEntry)
    (entry : String × JSValue) : Record × List LogEntry :=
  (setField acc.1 entry.1 (fixCell defaultValues i entry.1 entry.2).1,
    acc.2 ++ (fixCell defaultValues i entry.1 entry.2).2)

/-- The block "Apply fixes" on the copy of a row: the loop runs over the entries that the
copy has when the loop starts. -/
def fixRow (defaultValues : Record) (i : Nat) (row : Record) (cleaningLog : List LogEntry) :
    Record × List LogEntry :=
  row.foldl (fixStep defaultValues i) (row, cleaningLog)

/-- One iteration of the loop of `cleanData`, on the pair `(cleanedRows, cleaningLog)`. -/
def cleanStep (h : Host) (validationResults : Report) (options : CleaningOptions) (i : Nat)
    (acc : List Record × List LogEntry) (row : Record) : List Record × List LogEntry :=
  if options.removeInvalidRows && decide (0 < (rowErrors validationResults i).length) then
    (acc.1, acc.2 ++ [removedEntry h i (rowErrors validationResults i).length])
  else if options.fixCommonIssues then
    (acc.1 ++ [(fixRow options.defaultValues i row acc.2).1],
      (fixRow options.defaultValues i row acc.2).2)
  else (acc.1 ++ [row], acc.2)

/-- The loop of `cleanData` from row number `i` (counted from 0) on. -/
def cleanLoop (h : Host) (validationResults : Report) (options : CleaningOptions) :
    Nat → List Record → List Record × List LogEntry → List Record × List LogEntry
  | _, [], acc => acc
  | i, row :: rest, acc =>
    cleanLoop h validationResults options (i + 1) rest
      (cleanStep h validationResults options i acc row)

/-- The function `cleanData(rows, validationResults, options)`. -/
def cleanData (h : Host) (rows : List Record) (validationResults : Report)
    (options : CleaningOptions) : CleanResult :=
  { cleanedRows := (cleanLoop h validationResults options 0 rows ([], [])).1
    cleaningLog := (cleanLoop h validationResults options 0 rows ([], [])).2
    originalCount := rows.length
    cleanedCount := (cleanLoop h validationResults options 0 rows ([], [])).1.length
    removedCount := rows.length - (cleanLoop h validationResults options 0 rows ([], [])).1.length }

/-! ## Definitions used by the statements on cleaning -/

/-- Whether the report has an error entry with the 1-based index of row number `i`. -/
def hasRowError (validationResults : Report) (i : Nat) : Bool :=
  validationResults.errors.any fun e => e.rowIndex == some (i + 1)

/-- Whether row number `i` is dropped. -/
def isDropped (validationResults : Report) (options : CleaningOptions) (i : Nat) : Bool :=
  options.removeInvalidRows && hasRowError validationResults i

/-- The kept rows with their numbers (counted from 0), in their original order. -/
def keptRows (validationResults : Report) (options : CleaningOptions) (rows : List Record) :
    List (Nat × Record) :=
  rows.enum.filter fun ir => !isDropped validationResults options ir.1

/-- The dropped rows with their numbers (counted from 0), in their original order. -/
def droppedRows (validationResults : Report) (options : CleaningOptions) (rows : List Record) :
    List (Nat × Record) :=
  rows.enum.filter fun ir => isDropped validationResults options ir.1

/-- The cleaned form of the kept row number `i`. -/
def cleanedRowOf (options : CleaningOptions) (i : Nat) (row : Record) : Record :=
  if options.fixCommonIssues then (fixRow options.defaultValues i row []).1 else row

/-- The log entries of row number `i`. -/
def rowLogOf (h : Host) (validationResults : Report) (options : CleaningOptions) (i : Nat)
    (row : Record) : List LogEntry :=
  if isDropped validationResults options i then
    [removedEntry h i (rowErrors validationResults i).length]
  else if options.fixCommonIssues then (fixRow options.defaultValues i row []).2
  else []

/-- An error entry of the report of Scenario D. -/
def scenarioDError (column : String) (rule : String) : ValidationError :=
  { column := column, value := .str "", rule := .str rule, message := .undefined,
    severity := .str "error", rowIndex := some 3 }

/-- The rows of Scenario D. -/
def scenarioDRows : List Record :=
  [[("name", .str "Ada"), ("city", .str "Izmir")], [("name", .str "Bora"), ("city", .str "Bursa")],
    [("name", .str ""), ("city", .str "")], [("name", .str "Cem"), ("city", .str "Adana")]]

/-- The report of Scenario D: two errors on row 3, none on the rows 1, 2 and 4. -/
def scenarioDReport : Report :=
  { totalRows := 4, validRows := 3, invalidRows := 1, totalErrors := 2, totalWarnings := 0,
    errors := [scenarioDError "name" "required", scenarioDError "city" "required"],
    warnings := [], summary := [("name", ⟨1, 0, 1⟩), ("city", ⟨1, 0, 1⟩)] }

/-- The options of Scenario D. -/
def scenarioDOptions : CleaningOptions :=
  { removeInvalidRows := true, fixCommonIssues := true, defaultValues := [] }

/-- A report without entries. -/
def emptyReport : Report :=
  { totalRows := 1, validRows := 1, invalidRows := 0, totalErrors := 0, totalWarnings := 0,
    errors := [], warnings := [], summary := [] }

/-- Options with the default `N/A` for the column `c`. -/
def fillOptions : CleaningOptions :=
  { removeInvalidRows := false, fixCommonIssues := true, defaultValues := [("c", .str "N/A")] }

/-- Options with the default `0` for the column `c`. -/
def zeroFillOptions : CleaningOptions :=
  { removeInvalidRows := false, fixCommonIssues := true, defaultValues := [("c", .num (.ofNat 0))] }

/-- A one-row dataset with a blank cell `c` and a padded cell `d`. -/
def paddedRows : List Record := [[("c", .str "  "), ("d", .str " x ")]]

/-! ## Strings and numbers of the transformation step -/

/-- Upper-casing of the ASCII letters only. -/
def asciiUpper (c : Char) : Char :=
  if 97 ≤ c.toNat ∧ c.toNat ≤ 122 then Char.ofNat (c.toNat - 32) else c

/-- The built-ins of the host that the transformation step uses besides those of `Host`. -/
structure Runtime extends Host where
  /-- The upper-case form of a character: `String.prototype.toUpperCase` maps every code
  point on its own, to one or more code points. -/
  upperOf : Char → List Char
  /-- On ASCII the mapping is the ASCII one. -/
  upperOf_ascii : ∀ c : Char, c.toNat < 128 → upperOf c = [asciiUpper c]
  /-- The result of `String.prototype.toLowerCase`. -/
  toLowerCase : String → String
  /-- The function `(s, r) => s.replace(new RegExp(pattern, 'g'), r)`; `none` when the
  constructor throws. -/
  regexReplace : String → Option (String → String → String)
  /-- The message of the exception that `new RegExp(pattern, 'g')` throws. -/
  regexError : String → String
  /-- The result of `Date.prototype.toISOString` for a time value. -/
  toISOString : JSNum → String
  /-- The result of `Date.prototype.getDate` for a time value. -/
  getDate : JSNum → Nat
  /-- The result of `Date.prototype.getMonth` for a time value. -/
  getMonth : JSNum → Nat
  /-- The result of `Date.prototype.getFullYear` for a time value. -/
  getFullYear : JSNum → Int

/-- JavaScript `s.toUpperCase()`. -/
def toUpperCase (rt : Runtime) (s : String) : String := String.mk (s.toList.flatMap rt.upperOf)

/-- The binary64 value nearest to `m * 2 ^ e`. -/
def roundScaled (m e : Int) : JSNum :=
  match e with
  | .ofNat k => roundRat (decide (m < 0)) (m.natAbs * 2 ^ k) 1
  | .negSucc k => roundRat (decide (m < 0)) m.natAbs (2 ^ (k + 1))

/-- JavaScript `x + y` on numbers. -/
def jsAdd : JSNum → JSNum → JSNum
  | .fin m1 e1, .fin m2 e2 =>
    roundScaled (m1 * 2 ^ (e1 - min e1 e2).toNat + m2 * 2 ^ (e2 - min e1 e2).toNat) (min e1 e2)
  | .nan, _ => .nan
  | _, .nan => .nan
  | .posInf, .negInf => .nan
  | .negInf, .posInf => .nan
  | .posInf, _ => .posInf
  | _, .posInf => .posInf
  | .negInf, _ => .negInf
  | _, .negInf => .negInf

/-- JavaScript `parseInt(s)` without a radix: leading white space, an optional sign, an
optional `0x`, then the longest run of digits; `NaN` when the run is empty. -/
def parseIntChars (cs : List Char) : JSNum :=
  let body : List Char :=
    match trimStart cs with
    | '+' :: r => r
    | '-' :: r => r
    | r => r
  let radix : Nat :=
    match body with
    | '0' :: x :: _ => if x = 'x' ∨ x = 'X' then 16 else 10
    | _ => 10
  let digits : List Char := (if radix = 16 then body.drop 2 else body).takeWhile (isRadixDigit radix)
  if digits.isEmpty then .nan
  else roundRat (decide ((trimStart cs).head? = some '-'))
    (digits.foldl (fun acc c => radix * acc + (radixDigit c).getD 0) 0) 1

/-- The index that `substring` makes of an argument: `NaN` and negative numbers give 0, the
fraction is dropped, and the result is at most `len`. -/
def clampIndex (len : Nat) : JSNum → Nat
  | .nan => 0
  | .negInf => 0
  | .posInf => len
  | .fin m (.ofNat k) => min len (m * 2 ^ k).toNat
  | .fin m (.negSucc k) => min len (m / 2 ^ (k + 1)).toNat

/-- The UTF-16 code units of a character: one unit in the basic plane, a surrogate pair
outside it. -/
def charUnits (c : Char) : List Nat :=
  if c.toNat < 65536 then [c.toNat]
  else [55296 + (c.toNat - 65536) / 1024, 56320 + (c.toNat - 65536) % 1024]

/-- The UTF-16 code units of a string. -/
def utf16 (s : String) : List Nat := s.toList.flatMap charUnits

/-- The characters of a well-formed sequence of UTF-16 code units; `none` when a surrogate
is not part of a pair (or a number is not a code unit). -/
def decodeUtf16 : List Nat → Option (List Char)
  | [] => some []
  | [u] => if u < 55296 ∨ (57344 ≤ u ∧ u < 65536) then some [Char.ofNat u] else none
  | u :: l :: tail =>
    if 55296 ≤ u ∧ u < 56320 then
      if 56320 ≤ l ∧ l < 57344 then
        (decodeUtf16 tail).map fun cs =>
          Char.ofNat (65536 + (u - 55296) * 1024 + (l - 56320)) :: cs
      else none
    else if u < 55296 ∨ (57344 ≤ u ∧ u < 65536) then
      (decodeUtf16 (l :: tail)).map fun cs => Char.ofNat u :: cs
    else none

/-- JavaScript `s.substring(a, b)`, given by its code units: both indices are clamped to
`0..s.length` and swapped when the first is larger.  A cut inside a surrogate pair leaves
half of the pair in the result. -/
def jsSubstring (s : String) (a b : JSNum) : List Nat :=
  ((utf16 s).drop (min (clampIndex (utf16Length s) a) (clampIndex (utf16Length s) b))).take
    (max (clampIndex (utf16Length s) a) (clampIndex (utf16Length s) b)
      - min (clampIndex (utf16Length s) a) (clampIndex (utf16Length s) b))

/-- What a call of the transformation step gives. -/
inductive Outcome where
  /-- The call returns a value. -/
  | ok (value : JSValue)
  /-- The call throws an exception with this message. -/
  | error (message : String)
  /-- The call returns a string that is not well-formed UTF-16, given by its code units;
  such a string has no counterpart in `JSValue`. -/
  | illFormed (units : List Nat)

/-- The string with the given code units, as the result of a call. -/
def textOf (units : List Nat) : Outcome :=
  match decodeUtf16 units with
  | some cs => .ok (.str (String.mk cs))
  | none => .illFormed units

/-- The code units of the string that a call returns; `none` when it returns no string. -/
def Outcome.units : Outcome → Option (List Nat)
  | .ok (.str s) => some (utf16 s)
  | .illFormed units => some units
  | _ => none

/-- JavaScript `s.split(sep)` for a separator of one character. -/
def jsSplit (sep : Char) : List Char → List (List Char)
  | [] => [[]]
  | c :: rest =>
    if c = sep then [] :: jsSplit sep rest
    else
      match jsSplit sep rest with
      | [] => [[c]]
      | p :: ps => (c :: p) :: ps

/-- The double quote and the single quote. -/
def doubleQuote : Char := Char.ofNat 34

/-- The single quote. -/
def singleQuote : Char := Char.ofNat 39

/-- The callback of `CONCAT`: the part is trimmed, and a pair of double or single quotes
around it is removed (`part.slice(1, -1)`). -/
def unquote (part : List Char) : List Char :=
  if (trimEnd (trimStart part)).head? = some doubleQuote
      ∧ (trimEnd (trimStart part)).getLast? = some doubleQuote then
    ((trimEnd (trimStart part)).drop 1).dropLast
  else if (trimEnd (trimStart part)).head? = some singleQuote
      ∧ (trimEnd (trimStart part)).getLast? = some singleQuote then
    ((trimEnd (trimStart part)).drop 1).dropLast
  else trimEnd (trimStart part)

/-- The replacement `.replace(/['"]/g, '')`. -/
def stripQuotes (cs : List Char) : List Char :=
  cs.filter fun c => !(c == doubleQuote || c == singleQuote)

/-- A case-insensitive match of the pattern text at the head of the input: the rest of the
input. -/
def matchHead : List Char → List Char → Option (List Char)
  | [], rest => some rest
  | _ :: _, [] => none
  | p :: ps, c :: rest => if asciiLower c = asciiLower p then matchHead ps rest else none

/-- A match of `/NAME\(([^)]+)\)/i` that starts at the head of the input: the text of the
capture group. -/
def matchCallAt (name cs : List Char) : Option (List Char) :=
  match matchHead (name ++ ['(']) cs with
  | none => none
  | some rest =>
    if (rest.takeWhile fun c => c != ')').isEmpty then none
    else if (rest.dropWhile fun c => c != ')').isEmpty then none
    else some (rest.takeWhile fun c => c != ')')

/-- The result of `formula.match(/NAME\(([^)]+)\)/i)`: the capture group of the leftmost
match. -/
def matchCall (name : List Char) : List Char → Option (List Char)
  | [] => none
  | c :: rest =>
    match matchCallAt name (c :: rest) with
    | some body => some body
    | none => matchCall name rest

/-- The parameters `matches[1].split(',').map(p => p.trim())` of a formula. -/
def formulaParams (body : List Char) : List (List Char) :=
  (jsSplit ',' body).map fun p => trimEnd (trimStart p)

/-- The string `String(n).padStart(2, '0')` for a natural number. -/
def pad2 (n : Nat) : String := if n < 10 then "0" ++ toString n else toString n

/-- The date part `date.toISOString().split('T')[0]`. -/
def isoDate (rt : Runtime) (t : JSNum) : String :=
  String.mk ((rt.toISOString t).toList.takeWhile fun c => c != 'T')

/-- The formatting of `new Date(result)` shared by the operation `date_format` and the
formula `DATE_FORMAT`; an invalid date leaves the string as it is. -/
def formatDate (rt : Runtime) (format : JSValue) (result : String) : String :=
  if (rt.dateTime (.str result)).isNaN then result
  else if isString format "DD/MM/YYYY" then
    pad2 (rt.getDate (rt.dateTime (.str result))) ++ "/"
      ++ pad2 (rt.getMonth (rt.dateTime (.str result)) + 1) ++ "/"
      ++ toString (rt.getFullYear (rt.dateTime (.str result)))
  else if isString format "MM/DD/YYYY" then
    pad2 (rt.getMonth (rt.dateTime (.str result)) + 1) ++ "/"
      ++ pad2 (rt.getDate (rt.dateTime (.str result))) ++ "/"
      ++ toString (rt.getFullYear (rt.dateTime (.str result)))
  else isoDate rt (rt.dateTime (.str result))

/-! ## Transformations (`server/index.js`) -/

/-- The names that the formula evaluator looks for, in the order of its tests. -/
def formulaNames : List String :=
  ["CONCAT", "UPPER", "LOWER", "TRIM", "LENGTH", "SUBSTRING", "REPLACE", "DATE_FORMAT"]

/-- The body of the `try` block of the case `formula`, for the upper-case form `upper` of the
formula: what the block gives as the new `result`, or the exception it throws. -/
def formulaBranch (rt : Runtime) (upper formula : List Char) (result : String) : Outcome :=
  if containsSub upper "CONCAT".toList then
    match matchCall "CONCAT".toList formula with
    | some body => .ok (.str (String.mk ((jsSplit ',' body).map unquote).flatten))
    | none => .ok (.str result)
  else if containsSub upper "UPPER".toList then
    match matchCall "UPPER".toList formula with
    | some _ => .ok (.str (toUpperCase rt result))
    | none => .ok (.str result)
  else if containsSub upper "LOWER".toList then
    match matchCall "LOWER".toList formula with
    | some _ => .ok (.str (rt.toLowerCase result))
    | none => .ok (.str result)
  else if containsSub upper "TRIM".toList then
    match matchCall "TRIM".toList formula with
    | some _ => .ok (.str (jsTrim result))
    | none => .ok (.str result)
  else if containsSub upper "LENGTH".toList then
    match matchCall "LENGTH".toList formula with
    | some _ => .ok (.num (.ofNat (utf16Length result)))
    | none => .ok (.str result)
  else if containsSub upper "SUBSTRING".toList then
    match matchCall "SUBSTRING".toList formula with
    | some body =>
      textOf (jsSubstring result
        (jsAdd (parseIntChars ((formulaParams body).getD 1 "undefined".toList)) (.fin (-1) 0))
        (jsAdd
          (jsAdd (parseIntChars ((formulaParams body).getD 1 "undefined".toList)) (.fin (-1) 0))
          (parseIntChars ((formulaParams body).getD 2 "undefined".toList))))
    | none => .ok (.str result)
  else if containsSub upper "REPLACE".toList then
    match matchCall "REPLACE".toList formula with
    | some body =>
      match (formulaParams body)[1]?, (formulaParams body)[2]? with
      | some search, some replace =>
        match rt.regexReplace (String.mk (stripQuotes search)) with
        | some f => .ok (.str (f result (String.mk (stripQuotes replace))))
        | none => .error (rt.regexError (String.mk (stripQuotes search)))
      | _, _ => .error "Cannot read properties of undefined (reading 'replace')"
    | none => .ok (.str result)
  else if containsSub upper "DATE_FORMAT".toList then
    match matchCall "DATE_FORMAT".toList formula with
    | some body =>
      match (formulaParams body)[1]? with
      | some format => .ok (.str (formatDate rt (.str (String.mk (stripQuotes format))) result))
      | none => .error "Cannot read properties of undefined (reading 'replace')"
    | none => .ok (.str result)
  else .ok (.str result)

/-- The case `formula` of `applyTransformation`: an exception inside the `try` block, also
the one of calling `toUpperCase` on an expression that is not a string, is caught and leaves
`result` as it is. -/
def evalFormula (rt : Runtime) (expression : JSValue) (result : String) : Outcome :=
  if truthy expression then
    match expression with
    | .str formula =>
      match formulaBranch rt (toUpperCase rt formula).toList formula.toList result with
      | .error _ => .ok (.str result)
      | out => out
    | _ => .ok (.str result)
  else .ok (.str result)

/-- The function `applyTransformation(value, transformation)`. -/
def applyTransformation (rt : Runtime) (value transformation : JSValue) : Outcome :=
  match value with
  | .null => .ok .null
  | .undefined => .ok .undefined
  | _ =>
    match transformation with
    | .null => .error "Cannot read properties of null (reading 'type')"
    | .undefined => .error "Cannot read properties of undefined (reading 'type')"
    | _ =>
      if isString (getProp transformation "type") "trim" then
        .ok (.str (jsTrim (toStr rt.toHost value)))
      else if isString (getProp transformation "type") "uppercase" then
        .ok (.str (toUpperCase rt (toStr rt.toHost value)))
      else if isString (getProp transformation "type") "lowercase" then
        .ok (.str (rt.toLowerCase (toStr rt.toHost value)))
      else if isString (getProp transformation "type") "date_format" then
        if truthy (getProp transformation "format") then
          .ok (.str (formatDate rt (getProp transformation "format") (toStr rt.toHost value)))
        else .ok (.str (toStr rt.toHost value))
      else if isString (getProp transformation "type") "regex_replace" then
        if truthy (getProp transformation "pattern")
            && truthy (getProp transformation "replacement") then
          match rt.regexReplace (toStr rt.toHost (getProp transformation "pattern")) with
          | some f =>
            .ok (.str (f (toStr rt.toHost value)
              (toStr rt.toHost (getProp transformation "replacement"))))
          | none => .ok (.str (toStr rt.toHost value))
        else .ok (.str (toStr rt.toHost value))
      else if isString (getProp transformation "type") "constant" then
        if truthy (getProp transformation "value") then .ok (getProp transformation "value")
        else .ok (.str "")
      else if isString (getProp transformation "type") "formula" then
        evalFormula rt (getProp transformation "expression") (toStr rt.toHost value)
      else if isString (getProp transformation "type") "concat" then
        if truthy (getProp transformation "prefix") || truthy (getProp transformation "suffix") then
          .ok (.str (
            toStr rt.toHost (if truthy (getProp transformation "prefix")
              then getProp transformation "prefix" else .str "")
            ++ toStr rt.toHost value
            ++ toStr rt.toHost (if truthy (getProp transformation "suffix")
              then getProp transformation "suffix" else .str "")))
        else .ok (.str (toStr rt.toHost value))
      else if isString (getProp transformation "type") "extract" then
        if truthy (getProp transformation "start") && truthy (getProp transformation "end") then
          textOf (jsSubstring (toStr rt.toHost value)
            (toNumber rt.toHost (getProp transformation "start"))
            (toNumber rt.toHost (getProp transformation "end")))
        else .ok (.str (toStr rt.toHost value))
      else if isString (getProp transformation "type") "replace_text" then
        if truthy (getProp transformation "search") && truthy (getProp transformation "replace") then
          match rt.regexReplace (toStr rt.toHost (getProp transformation "search")) with
          | some f =>
            .ok (.str (f (toStr rt.toHost value)
              (toStr rt.toHost (getProp transformation "replace"))))
          | none => .error (rt.regexError (toStr rt.toHost (getProp transformation "search")))
        else .ok (.str (toStr rt.toHost value))
      else .ok (.str (toStr rt.toHost value))

/-- The literals of `/^(true|false|1|0|yes|no|evet|hayır)$/i`. -/
def coercionLiterals : List String :=
  ["true", "false", "1", "0", "yes", "no", "evet", "hayır"]

/-- The test `/^(true|false|1|0|yes|no|evet|hayır)$/i`. -/
def isCoercionLiteral (s : String) : Bool :=
  coercionLiterals.any fun l => s.toList.map asciiLower == l.toList

/-- The test `/^(true|1|yes|evet)$/i`. -/
def isTrueLiteral (s : String) : Bool :=
  ["true", "1", "yes", "evet"].any fun l => s.toList.map asciiLower == l.toList

/-- The block "Tip dönüştürme" for a truthy target type `kind`. -/
def coerceValue (rt : Runtime) (kind value : JSValue) : JSValue :=
  if isString kind "number" then
    if (toNumber rt.toHost value).isNaN then value else .num (toNumber rt.toHost value)
  else if isString kind "boolean" then
    if isCoercionLiteral (toStr rt.toHost value) then .bool (isTrueLiteral (toStr rt.toHost value))
    else value
  else if isString kind "date" then
    if (rt.dateTime value).isNaN then value else .str (rt.toISOString (rt.dateTime value))
  else .str (toStr rt.toHost value)

/-- The test `transformation && transformation.enabled`. -/
def isEnabled (transformation : JSValue) : Bool :=
  truthy transformation && truthy (getProp transformation "enabled")

/-- The value of `targetType && targetType[columnName]`; an absent `targetType` is `none`. -/
def targetOf (targetType : Option Record) (columnName : String) : JSValue :=
  match targetType with
  | none => .undefined
  | some kinds => getField kinds columnName

/-- The body of the `try` block for one column: the value stored in the transformed row, or
the message of the exception.  When the transformation gives an ill-formed string the cell
is outside the value model, and so is what the type conversion makes of it. -/
def transformCell (rt : Runtime) (targetType : Option Record) (originalRow : Record)
    (columnName : String) (transformation : JSValue) : Outcome :=
  match (if isEnabled transformation
      then applyTransformation rt (getField originalRow columnName) transformation
      else .ok (getField originalRow columnName)) with
  | .error message => .error message
  | .illFormed units => .illFormed units
  | .ok value =>
    if truthy (targetOf targetType columnName) then
      .ok (coerceValue rt (targetOf targetType columnName) value)
    else .ok value

/-- An entry of the list `errors` of the transformation step. -/
structure TransformError where
  row : Nat
  column : String
  error : String
  originalValue : JSValue

/-- One iteration of the loop over `Object.entries(transformations)` for row number `i`
(counted from 0), on the pair `(transformedRow, errors)`; `none` when the cell is an
ill-formed string, which a record of the model cannot hold. -/
def transformStep (rt : Runtime) (targetType : Option Record) (i : Nat) (originalRow : Record)
    (acc : Record × List TransformError) (entry : String × JSValue) :
    Option (Record × List TransformError) :=
  match transformCell rt targetType originalRow entry.1 entry.2 with
  | .ok value => some (setField acc.1 entry.1 value, acc.2)
  | .error message =>
    some (acc.1, acc.2 ++ [{ row := i + 1, column := entry.1, error := message,
                             originalValue := getField originalRow entry.1 }])
  | .illFormed _ => none

/-- The row loop of `/transform-data` from row number `i` on, on the pair
`(transformedRows, errors)`; `none` when a cell is an ill-formed string. -/
def transformLoop (rt : Runtime) (transformations : List (String × JSValue))
    (targetType : Option Record) :
    Nat → List Record → List Record × List TransformError →
      Option (List Record × List TransformError)
  | _, [], acc => some acc
  | i, originalRow :: rest, acc =>
    match transformations.foldlM (transformStep rt targetType i originalRow) ([], acc.2) with
    | some out => transformLoop rt transformations targetType (i + 1) rest (acc.1 ++ [out.1], out.2)
    | none => none

/-- The body of a successful answer of `/transform-data`. -/
structure TransformResult where
  transformedRows : List Record
  totalRows : Nat
  errors : List TransformError
  errorCount : Nat

/-- The answer of `/transform-data`. -/
inductive TransformAnswer where
  /-- The answer with status 400 given to an empty dataset. -/
  | badRequest
  /-- The answer `{ok: true, ...}`. -/
  | ok (result : TransformResult)
  /-- The answer holds a cell that is an ill-formed string: it is outside the value model. -/
  | unmodelled

/-- The handler of `/transform-data` on a request body with the rows, the transformations
(`Object.entries(transformations)`) and the target types. -/
def transformData (rt : Runtime) (rows : List Record) (transformations : List (String × JSValue))
    (targetType : Option Record) : TransformAnswer :=
  if rows.length = 0 then .badRequest
  else
    match transformLoop rt transformations targetType 0 rows ([], []) with
    | some out =>
      .ok { transformedRows := out.1, totalRows := out.1.length, errors := out.2,
            errorCount := out.2.length }
    | none => .unmodelled

/-! ## Definitions used by the statements on transformations -/

/-- A host for closed examples: upper and lower case act on ASCII only, and no pattern is
accepted by `RegExp`. -/
def exampleRuntime : Runtime :=
  { toHost := exampleHost
    upperOf := fun c => [asciiUpper c]
    upperOf_ascii := fun _ _ => rfl
    toLowerCase := fun s => String.mk (s.toList.map asciiLower)
    regexReplace := fun _ => none
    regexError := fun pattern => "Invalid regular expression: /" ++ pattern ++ "/"
    toISOString := fun _ => "1970-01-01T00:00:00.000Z"
    getDate := fun _ => 1
    getMonth := fun _ => 0
    getFullYear := fun _ => 1970 }

/-- The transformation `{type: "formula", expression, enabled: true}`. -/
def formulaOf (expression : String) : JSValue :=
  .obj [("type", .str "formula"), ("expression", .str expression), ("enabled", .bool true)]

/-- The transformation `{type: "extract", start, end, enabled: true}`. -/
def extractOf (start stop : Nat) : JSValue :=
  .obj [("type", .str "extract"), ("start", .num (.ofNat start)), ("end", .num (.ofNat stop)),
    ("enabled", .bool true)]

/-- The transformation `{type: "replace_text", search, replace, enabled: true}`. -/
def replaceTextOf (search replace : String) : JSValue :=
  .obj [("type", .str "replace_text"), ("search", .str search), ("replace", .str replace),
    ("enabled", .bool true)]

/-- The expression of Scenario C. -/
def scenarioCExpression : String := "CONCAT(\"A\",\"-\",\"B\")"

/-- The record restricted to the columns of the transformations, in their order. -/
def projectRow (transformations : List (String × JSValue)) (row : Record) : Record :=
  transformations.map fun entry => (entry.1, getField row entry.1)

/-- A one-row dataset whose cell `age` fails two rules. -/
def twoRuleRows : List Record := [[("age", .str "x"), ("name", .str "")]]

/-- A rule set with two rules on `age` and a warning rule on `name`. -/
def twoRuleRules : RuleSet :=
  [("age", [plainRule "min_value" (.num (.ofNat 20)), plainRule "max_value" (.num (.ofNat 90))]),
    ("name", [{ type := .str "required", params := .undefined, message := .undefined,
                severity := .str "warning" }])]

/-- The report of `twoRuleRows` under `twoRuleRules`: the one row gives two errors on `age`
and a warning on `name`. -/
def twoRuleReport : Report :=
  { totalRows := 1
    validRows := 0
    invalidRows := 1
    totalErrors := 2
    totalWarnings := 1
    errors :=
      [{ column := "age", value := .str "x", rule := .str "min_value",
         message := .str "Validation failed for age: min_value", severity := .str "error",
         rowIndex := some 1 },
       { column := "age", value := .str "x", rule := .str "max_value",
         message := .str "Validation failed for age: max_value", severity := .str "error",
         rowIndex := some 1 }]
    warnings :=
      [{ column := "name", value := .str "", rule := .str "required",
         message := .str "Validation failed for name: required", severity := .str "warning",
         rowIndex := some 1 }]
    summary := [("age", ⟨2, 0, 2⟩), ("name", ⟨0, 1, 0⟩)] }

/-- Options without default values, with `fixCommonIssues` on. -/
def trimOptions : CleaningOptions :=
  { removeInvalidRows := true, fixCommonIssues := true, defaultValues := [] }

/-- Options with `removeInvalidRows` and `fixCommonIssues` off. -/
def keepOptions : CleaningOptions :=
  { removeInvalidRows := false, fixCommonIssues := false, defaultValues := [] }

/-- The cells of the transformed row of a record: the columns whose `try` block did not
throw, in the order of the transformations. -/
def transformedCells (rt : Runtime) (targetType : Option Record)
    (transformations : List (String × JSValue)) (row : Record) : Record :=
  transformations.filterMap fun entry =>
    match transformCell rt targetType row entry.1 entry.2 with
    | .ok value => some (entry.1, value)
    | _ => none

/-- The error entries of row number `i` (counted from 0): the columns whose `try` block
threw, in the order of the transformations. -/
def cellErrors (rt : Runtime) (targetType : Option Record)
    (transformations : List (String × JSValue)) (i : Nat) (row : Record) :
    List TransformError :=
  transformations.filterMap fun entry =>
    match transformCell rt targetType row entry.1 entry.2 with
    | .error message =>
      some { row := i + 1, column := entry.1, error := message,
             originalValue := getField row entry.1 }
    | _ => none

/-- The expression `CONCAT(a1,a2,...)` with the given argument texts. -/
def concatExpression (args : List String) : String :=
  String.mk ("CONCAT(".toList ++ List.intercalate [','] (args.map String.toList) ++ [')'])

/-- The text of a literal between double quotes. -/
def quoted (literal : String) : String :=
  String.mk (doubleQuote :: literal.toList ++ [doubleQuote])

/-- The transformation `{type: "trim", enabled: true}`. -/
def trimOf : JSValue := .obj [("type", .str "trim"), ("enabled", .bool true)]

/-- A row with the cells `a` and `b`. -/
def pairRows : List Record := [[("a", .str "x"), ("b", .str " y ")]]

/-! ## Counting rows in `validateDataset` -/

theorem foldl_addError_counts (i : Nat) (errs : List ValidationError) (res : Report) :
    (errs.foldl (addError i) res).validRows = res.validRows ∧
    (errs.foldl (addError i) res).invalidRows = res.invalidRows ∧
    (errs.foldl (addError i) res).totalRows = res.totalRows := by
  induction errs generalizing res with
  | nil => simp
  | cons e rest ih =>
    simp only [List.foldl_cons]
    obtain ⟨h1, h2, h3⟩ := ih (addError i res e)
    exact ⟨h1, h2, h3⟩

theorem foldl_addWarning_counts (i : Nat) (ws : List ValidationError) (res : Report) :
    (ws.foldl (addWarning i) res).validRows = res.validRows ∧
    (ws.foldl (addWarning i) res).invalidRows = res.invalidRows ∧
    (ws.foldl (addWarning i) res).totalRows = res.totalRows := by
  induction ws generalizing res with
  | nil => simp
  | cons e rest ih =>
    simp only [List.foldl_cons]
    obtain ⟨h1, h2, h3⟩ := ih (addWarning i res e)
    exact ⟨h1, h2, h3⟩

theorem recordRow_counts (i : Nat) (res : Report)
    (rv : List ValidationError × List ValidationError) :
    (recordRow i res rv).validRows + (recordRow i res rv).invalidRows
      = res.validRows + res.invalidRows + 1 ∧
    (recordRow i res rv).totalRows = res.totalRows := by
  unfold recordRow
  obtain ⟨w1, w2, w3⟩ := foldl_addWarning_counts i rv.2
    (rv.1.foldl (addError i)
      (if rv.1.length = 0 then { res with validRows := res.validRows + 1 }
       else { res with invalidRows := res.invalidRows + 1 }))
  obtain ⟨e1, e2, e3⟩ := foldl_addError_counts i rv.1
    (if rv.1.length = 0 then { res with validRows := res.validRows + 1 }
     else { res with invalidRows := res.invalidRows + 1 })
  simp only [w1, w2, w3, e1, e2, e3]
  split <;> simp <;> omega

theorem validateLoop_counts (h : Host) (rules : RuleSet) (rows : List Record) :
    ∀ (i : Nat) (res r : Report), validateLoop h rules i rows res = .ok r →
      r.validRows + r.invalidRows = res.validRows + res.invalidRows + rows.length ∧
      r.totalRows = res.totalRows := by
  induction rows with
  | nil =>
    intro i res r hr
    simp only [validateLoop, Except.ok.injEq] at hr
    subst hr
    simp
  | cons row rest ih =>
    intro i res r hr
    simp only [validateLoop] at hr
    split at hr
    · cases hr
    · rename_i rv _
      obtain ⟨h1, h2⟩ := ih (i + 1) (recordRow i res rv) r hr
      obtain ⟨c1, c2⟩ := recordRow_counts i res rv
      refine ⟨?_, by rw [h2, c2]⟩
      rw [h1, c1, List.length_cons]
      omega

/-- C1: whenever `validateDataset(rows, rules)` returns a report, that report satisfies
`validRows + invalidRows = totalRows`, and `totalRows` is the number of rows. -/
theorem validateDataset_counts (h : Host) (rows : List Record) (rules : RuleSet) (r : Report)
    (hr : validateDataset h rows rules = .ok r) :
    r.validRows + r.invalidRows = r.totalRows ∧ r.totalRows = rows.length := by
  obtain ⟨h1, h2⟩ := validateLoop_counts h rules rows 0 _ r hr
  simp only [Nat.add_zero, Nat.zero_add] at h1 h2
  exact ⟨by rw [h1, h2], h2⟩

/-- C1, on the rows and rules of Scenario A: a report is returned and it satisfies the equations. -/
theorem validateDataset_counts_witness :
    ∃ r, validateDataset exampleHost scenarioARows scenarioARules = .ok r ∧
      r.validRows + r.invalidRows = r.totalRows ∧ r.totalRows = scenarioARows.length := by
  have hok : (validateDataset exampleHost scenarioARows scenarioARules).isOk = true := by decide
  cases hv : validateDataset exampleHost scenarioARows scenarioARules with
  | error e => rw [hv] at hok; cases hok
  | ok r => exact ⟨r, rfl, validateDataset_counts exampleHost scenarioARows scenarioARules r hv⟩

/-! ## Independence of the host on string data -/

theorem validateLoop_congr (h h' : Host) (rules : RuleSet) (rows : List Record)
    (hrows : ∀ row ∈ rows, validateRow h row rules = validateRow h' row rules) :
    ∀ (i : Nat) (res : Report),
      validateLoop h rules i rows res = validateLoop h' rules i rows res := by
  induction rows with
  | nil => intro i res; rfl
  | cons row rest ih =>
    intro i res
    have hr := hrows row (List.mem_cons_self _ _)
    have ih' := ih (fun r hmem => hrows r (List.mem_cons_of_mem _ hmem))
    simp only [validateLoop, hr]
    split
    · rfl
    · exact ih' _ _

theorem validateDataset_congr (h h' : Host) (rules : RuleSet) (rows : List Record)
    (hrows : ∀ row ∈ rows, validateRow h row rules = validateRow h' row rules) :
    validateDataset h rows rules = validateDataset h' rows rules :=
  validateLoop_congr h h' rules rows hrows 0 _

theorem callValidator_min_value (h : Host) (v p : JSValue) :
    callValidator h "min_value" v p = some (.ok (validators.min_value h v p)) := rfl

theorem min_value_host_free (h h' : Host) (s : String) (b : JSNum) :
    validators.min_value h (.str s) (.num b) = validators.min_value h' (.str s) (.num b) := rfl

theorem getField_age (s : String) : getField [("age", .str s)] "age" = .str s := rfl

theorem validateRow_scenarioA_host_free (h : Host) (s : String) :
    validateRow h [("age", .str s)] scenarioARules
      = validateRow exampleHost [("age", .str s)] scenarioARules := by
  simp only [validateRow, applyColumn, scenarioARules, List.foldlM, getField_age, applyRule,
    toStr, callValidator_min_value, ruleParams, min_value_host_free h exampleHost, mkError]

theorem validateDataset_scenarioA (h : Host) :
    validateDataset h scenarioARows scenarioARules = .ok scenarioAReport := by
  have hfree : validateDataset h scenarioARows scenarioARules
      = validateDataset exampleHost scenarioARows scenarioARules := by
    apply validateDataset_congr
    intro row hrow
    simp only [scenarioARows, List.mem_cons, List.mem_singleton, List.not_mem_nil,
      or_false] at hrow
    rcases hrow with rfl | rfl | rfl <;> exact validateRow_scenarioA_host_free h _
  exact hfree.trans rfl

/-! ## The validators on empty, falsy and unparseable values -/

theorem not_truthy_of_isNullish (v : JSValue) (hv : isNullish v = true) : truthy v = false := by
  cases v <;> simp_all [isNullish, truthy]

/-- C8 as stated fails: the boolean `false` is neither null, absent nor the empty string and
does not parse as a number, yet `min_value` and `max_value` with bound 20 return `true` on it. -/
theorem min_value_false_counterexample :
    isNullish (.bool false) = false ∧
    (jsParseFloat exampleHost (.bool false)).isNaN = true ∧
    validators.min_value exampleHost (.bool false) (.num (.ofNat 20)) = true ∧
    validators.max_value exampleHost (.bool false) (.num (.ofNat 20)) = true := by
  decide

/-- C8, amended: for every bound, `min_value` and `max_value` return `true` on every falsy
value (so on an empty or absent one) and `false` on every truthy value that does not parse as
a number; on Scenario A `validateDataset` returns a report with `totalErrors = 1`,
`validRows = 2` and a single error, whose `rowIndex` is 2. -/
theorem min_max_value_unparseable (h : Host) (bound : JSValue) :
    (∀ v, isNullish v = true →
      validators.min_value h v bound = true ∧ validators.max_value h v bound = true) ∧
    (∀ v, truthy v = false →
      validators.min_value h v bound = true ∧ validators.max_value h v bound = true) ∧
    (∀ v, truthy v = true → (jsParseFloat h v).isNaN = true →
      validators.min_value h v bound = false ∧ validators.max_value h v bound = false) ∧
    (validateDataset h scenarioARows scenarioARules = .ok scenarioAReport ∧
      scenarioAReport.totalErrors = 1 ∧ scenarioAReport.validRows = 2 ∧
      scenarioAReport.errors.map (fun e => e.rowIndex) = [some 2]) := by
  refine ⟨fun v hv => ?_, fun v hv => ?_, fun v hv hn => ?_, ?_⟩
  · simp [validators.min_value, validators.max_value, not_truthy_of_isNullish v hv]
  · simp [validators.min_value, validators.max_value, hv]
  · simp [validators.min_value, validators.max_value, hv, hn]
  · exact ⟨validateDataset_scenarioA h, rfl, rfl, rfl⟩

/-- Every validator other than `required`, called through `validators[type]`, passes on
`null`, `undefined` and the empty string, provided the parameters of a `date_range` rule are
neither `null` nor `undefined`; `required` fails exactly on those three values. -/
theorem validators_on_empty (h : Host) (kind : String) (params value : JSValue)
    (hk : kind ∈ ["email", "phone", "url", "min_length", "max_length", "min_value", "max_value",
      "regex", "date_range", "enum"])
    (hp : kind = "date_range" → params ≠ .null ∧ params ≠ .undefined)
    (hv : isNullish value = true) :
    callValidator h kind value params = some (.ok true) ∧
    (∀ v, validators.required v = false ↔ isNullish v = true) := by
  have ht := not_truthy_of_isNullish value hv
  refine ⟨?_, fun v => by simp [validators.required]⟩
  simp only [List.mem_cons, List.mem_singleton, List.not_mem_nil, or_false] at hk
  rcases hk with rfl | rfl | rfl | rfl | rfl | rfl | rfl | rfl | rfl | rfl
  · simp [callValidator, validators.email, ht]
  · simp [callValidator, validators.phone, ht]
  · simp [callValidator, validators.url, ht]
  · simp [callValidator, validators.min_length, ht]
  · simp [callValidator, validators.max_length, ht]
  · simp [callValidator, validators.min_value, ht]
  · simp [callValidator, validators.max_value, ht]
  · simp [callValidator, validators.regex, ht]
  · obtain ⟨h1, h2⟩ := hp rfl
    cases params <;> simp_all [callValidator, validators.date_range]
  · cases params <;> simp [callValidator, validators.enum, ht]

/-- C9 fails on the code: `date_range` destructures its parameters before it looks at the
value, so with `params = null` it throws on `null`, `undefined` and the empty string (and on
every other value) instead of returning `true`. -/
theorem date_range_null_params_throws (h : Host) (value : JSValue) :
    validators.date_range h value .null
      = .error (.typeError "Cannot destructure property 'min_date' of null") ∧
    callValidator h "date_range" (.str "") .null
      = some (.error (.typeError "Cannot destructure property 'min_date' of null")) ∧
    callValidator h "date_range" .null .null
      = some (.error (.typeError "Cannot destructure property 'min_date' of null")) ∧
    callValidator h "date_range" .undefined .null
      = some (.error (.typeError "Cannot destructure property 'min_date' of null")) :=
  ⟨rfl, rfl, rfl, rfl⟩

/-! ## Malformed rule parameters -/

/-- C10 fails on the code: `validateDataset` throws a `TypeError` on a one-row dataset for an
`enum` rule without parameters, for an `enum` rule whose parameters are a number, and for a
`date_range` rule whose parameters are `null`. -/
theorem validateDataset_throws_on_malformed_params (h : Host) :
    validateDataset h [[("status", .str "open")]] [("status", [plainRule "enum" .undefined])]
      = .error (.typeError "allowed_values.includes is not a function") ∧
    validateDataset h [[("status", .str "open")]] [("status", [plainRule "enum" (.num (.ofNat 5))])]
      = .error (.typeError "allowed_values.includes is not a function") ∧
    validateDataset h [[("day", .str "2024-01-01")]] [("day", [plainRule "date_range" .null])]
      = .error (.typeError "Cannot destructure property 'min_date' of null") :=
  ⟨rfl, rfl, rfl⟩

/-! ## Binary64 facts used by the column analysis -/

theorem finLt_iff (m1 e1 m2 e2 : Int) :
    finLt m1 e1 m2 e2 = true ↔ (m1 : ℚ) * (2 : ℚ) ^ e1 < (m2 : ℚ) * (2 : ℚ) ^ e2 := by
  unfold finLt
  rw [decide_eq_true_eq]
  have h1 : 0 ≤ e1 - min e1 e2 := by have := min_le_left e1 e2; omega
  have h2 : 0 ≤ e2 - min e1 e2 := by have := min_le_right e1 e2; omega
  have hpos : (0 : ℚ) < (2 : ℚ) ^ (min e1 e2) := zpow_pos (by norm_num) _
  have p1 : ((2 : ℚ) ^ (e1 - min e1 e2).toNat) = (2 : ℚ) ^ e1 / (2 : ℚ) ^ (min e1 e2) := by
    rw [← zpow_natCast, Int.toNat_of_nonneg h1, zpow_sub₀ (by norm_num)]
  have p2 : ((2 : ℚ) ^ (e2 - min e1 e2).toNat) = (2 : ℚ) ^ e2 / (2 : ℚ) ^ (min e1 e2) := by
    rw [← zpow_natCast, Int.toNat_of_nonneg h2, zpow_sub₀ (by norm_num)]
  rw [← Int.cast_lt (R := ℚ)]
  push_cast
  rw [p1, p2, ← mul_div_assoc, ← mul_div_assoc, div_lt_div_iff_of_pos_right hpos]

theorem jsLt_trans (x y z : JSNum) (hxy : jsLt x y = true) (hyz : jsLt y z = true) :
    jsLt x z = true := by
  cases x <;> cases y <;> cases z <;> simp_all [jsLt]
  rename_i m1 e1 m2 e2 m3 e3
  rw [finLt_iff] at hxy hyz ⊢
  exact lt_trans hxy hyz

theorem jsLt_irrefl (x : JSNum) : jsLt x x = false := by
  cases x <;> simp [jsLt]
  rename_i m e
  rw [← Bool.not_eq_true, finLt_iff]
  exact lt_irrefl _

theorem confidenceTable : confidenceTableOk = true := by decide!

theorem shareTable : shareTableOk = true := by decide!

theorem confidenceOf_eq (count total : Nat) (h0 : 0 < total) (h100 : total ≤ 100)
    (hc : count ≤ total) :
    confidenceOf count total = .fin (expectedConfidence count total) 0 := by
  have ht := confidenceTable
  simp only [confidenceTableOk, List.all_eq_true, List.mem_range] at ht
  have hrow := ht (total - 1) (by omega)
  rw [show total - 1 + 1 = total by omega] at hrow
  simp only [confidenceRowOk, List.all_eq_true, List.mem_range, decide_eq_true_eq] at hrow
  exact hrow count (by omega)

theorem shareOf_step (count total : Nat) (h100 : total ≤ 100) (hc : count < total) :
    jsLt (shareOf count total) (shareOf (count + 1) total) = true := by
  have ht := shareTable
  simp only [shareTableOk, List.all_eq_true, List.mem_range] at ht
  have hrow := ht (total - 1) (by omega)
  rw [show total - 1 + 1 = total by omega] at hrow
  simp only [shareRowOk, List.all_eq_true, List.mem_range] at hrow
  exact hrow count hc

theorem shareOf_strictMono (total : Nat) (h100 : total ≤ 100) (a b : Nat) (hab : a < b)
    (hb : b ≤ total) : jsLt (shareOf a total) (shareOf b total) = true := by
  induction b with
  | zero => omega
  | succ k ih =>
    rcases Nat.lt_succ_iff_lt_or_eq.mp hab with hlt | heq
    · exact jsLt_trans _ _ _ (ih hlt (by omega)) (shareOf_step k total h100 (by omega))
    · subst heq
      exact shareOf_step a total h100 (by omega)

theorem jsGt_shareOf (total : Nat) (h100 : total ≤ 100) (a b : Nat) (ha : a ≤ total)
    (hb : b ≤ total) : jsGt (shareOf a total) (shareOf b total) = decide (b < a) := by
  unfold jsGt
  by_cases hlt : b < a
  · rw [shareOf_strictMono total h100 b a hlt ha]
    simp [hlt]
  · rw [decide_eq_false hlt, ← Bool.not_eq_true]
    intro hcon
    rcases Nat.eq_or_lt_of_le (Nat.le_of_not_lt hlt) with heq | hgt
    · subst heq
      rw [jsLt_irrefl] at hcon
      cases hcon
    · have := jsLt_trans _ _ _ (shareOf_strictMono total h100 a b hgt hb) hcon
      rw [jsLt_irrefl] at this
      cases this

/-! ## The sampling loop of `analyzeColumnType` -/

theorem classifyStep_eq (acc : Counts) (s : String) (hs : s ≠ "") :
    classifyStep acc s =
      { stringCount := acc.stringCount + (if classify s = .string then 1 else 0)
        numberCount := acc.numberCount + (if classify s = .number then 1 else 0)
        dateCount := acc.dateCount + (if classify s = .date then 1 else 0)
        booleanCount := acc.booleanCount + (if classify s = .boolean then 1 else 0)
        nullCount := acc.nullCount
        sampleValues := acc.sampleValues } := by
  unfold classifyStep classify
  by_cases hb : isBooleanLiteral s = true
  · simp [hb]
  · by_cases hd : isDateLike s = true
    · simp [hb, hd]
    · by_cases hn : (stringToNumber s).isNaN = true
      · simp [hb, hd, hn]
      · simp [hb, hd, hn, hs]

theorem bucketCount_cons (b : Bucket) (s : String) (rest : List String) :
    bucketCount b (s :: rest) = (if classify s = b then 1 else 0) + bucketCount b rest := by
  unfold bucketCount
  rw [List.countP_cons]
  by_cases hc : classify s = b
  · simp only [hc, decide_True, if_true]
    omega
  · simp only [hc, decide_False, Bool.false_eq_true, if_false]
    omega

theorem foldl_analyzeStep (h : Host) (vs : List JSValue) :
    ∀ acc : Counts, vs.foldl (analyzeStep h) acc =
      { stringCount := acc.stringCount + bucketCount .string (trimmedNonNull h vs)
        numberCount := acc.numberCount + bucketCount .number (trimmedNonNull h vs)
        dateCount := acc.dateCount + bucketCount .date (trimmedNonNull h vs)
        booleanCount := acc.booleanCount + bucketCount .boolean (trimmedNonNull h vs)
        nullCount := acc.nullCount + vs.countP (isNullValue h)
        sampleValues := acc.sampleValues ++ trimmedNonNull h vs } := by
  induction vs with
  | nil => intro acc; simp [trimmedNonNull, bucketCount]
  | cons v rest ih =>
    intro acc
    rw [List.foldl_cons, ih]
    by_cases hn : isNullish v = true
    · have hnull : isNullValue h v = true := by simp [isNullValue, hn]
      simp [analyzeStep, hn, trimmedNonNull, hnull, List.countP_cons]
      omega
    · by_cases ht : jsTrim (toStr h v) = ""
      · have hnull : isNullValue h v = true := by simp [isNullValue, ht]
        simp [analyzeStep, hn, ht, trimmedNonNull, hnull, List.countP_cons]
        omega
      · have hnull : isNullValue h v = false := by simp [isNullValue, hn, ht]
        have htail : trimmedNonNull h (v :: rest)
            = jsTrim (toStr h v) :: trimmedNonNull h rest := by
          simp [trimmedNonNull, hnull]
        rw [htail]
        simp only [analyzeStep, hn, ht, if_false, Bool.false_eq_true, classifyStep_eq _ _ ht,
          bucketCount_cons, List.countP_cons, hnull]
        simp only [Counts.mk.injEq, List.append_assoc, List.singleton_append, and_true]
        refine ⟨?_, ?_, ?_, ?_, ?_⟩ <;> omega

theorem sampleCounts_eq (h : Host) (values : List JSValue) :
    sampleCounts h values =
      { stringCount := bucketCount .string (nonNullSample h values)
        numberCount := bucketCount .number (nonNullSample h values)
        dateCount := bucketCount .date (nonNullSample h values)
        booleanCount := bucketCount .boolean (nonNullSample h values)
        nullCount := (values.take 100).countP (isNullValue h)
        sampleValues := nonNullSample h values } := by
  unfold sampleCounts nonNullSample
  rw [foldl_analyzeStep]
  simp

theorem bucketCount_sum (sample : List String) :
    bucketCount .string sample + bucketCount .number sample + bucketCount .date sample
      + bucketCount .boolean sample = sample.length := by
  induction sample with
  | nil => simp [bucketCount]
  | cons s rest ih =>
    simp only [bucketCount_cons, List.length_cons]
    cases hc : classify s <;> simp <;> omega

theorem nonNullSample_length_le (h : Host) (values : List JSValue) :
    (nonNullSample h values).length ≤ 100 := by
  unfold nonNullSample trimmedNonNull
  rw [List.length_map]
  exact le_trans (List.length_filter_le _ _) (by simp)

/-! ## The selection of the winning bucket -/

theorem betterOf_shareOf (total : Nat) (h100 : total ≤ 100) (name name' : String) (a b : Nat)
    (ha : a ≤ total) (hb : b ≤ total) :
    betterOf (name, shareOf a total) name' (shareOf b total)
      = if a < b then (name', shareOf b total) else (name, shareOf a total) := by
  unfold betterOf
  simp only [jsGt_shareOf total h100 b a hb ha, decide_eq_true_eq]

theorem bestBucket_eq (c : Counts)
    (h100 : c.stringCount + c.numberCount + c.dateCount + c.booleanCount ≤ 100) :
    bestBucket c =
      ((winner c.stringCount c.numberCount c.dateCount c.booleanCount).1.name,
        shareOf (winner c.stringCount c.numberCount c.dateCount c.booleanCount).2
          (c.stringCount + c.numberCount + c.dateCount + c.booleanCount)) := by
  unfold bestBucket
  simp only []
  have e1 : ∀ k, jsDiv (JSNum.ofNat k)
      (JSNum.ofNat (c.stringCount + c.numberCount + c.dateCount + c.booleanCount))
      = shareOf k (c.stringCount + c.numberCount + c.dateCount + c.booleanCount) := fun _ => rfl
  rw [e1, e1, e1, e1]
  rw [betterOf_shareOf _ h100 _ _ _ _ (by omega) (by omega)]
  unfold winner
  by_cases h1 : c.stringCount < c.numberCount
  · simp only [h1, if_true]
    rw [betterOf_shareOf _ h100 _ _ _ _ (by omega) (by omega)]
    by_cases h2 : c.numberCount < c.dateCount
    · simp only [h2, if_true]
      rw [betterOf_shareOf _ h100 _ _ _ _ (by omega) (by omega)]
      by_cases h3 : c.dateCount < c.booleanCount <;> simp [h3, Bucket.name]
    · simp only [h2, if_false]
      rw [betterOf_shareOf _ h100 _ _ _ _ (by omega) (by omega)]
      by_cases h3 : c.numberCount < c.booleanCount <;> simp [h3, Bucket.name]
  · simp only [h1, if_false]
    rw [betterOf_shareOf _ h100 _ _ _ _ (by omega) (by omega)]
    by_cases h2 : c.stringCount < c.dateCount
    · simp only [h2, if_true]
      rw [betterOf_shareOf _ h100 _ _ _ _ (by omega) (by omega)]
      by_cases h3 : c.dateCount < c.booleanCount <;> simp [h3, Bucket.name]
    · simp only [h2, if_false]
      rw [betterOf_shareOf _ h100 _ _ _ _ (by omega) (by omega)]
      by_cases h3 : c.stringCount < c.booleanCount <;> simp [h3, Bucket.name]

theorem winner_le_total (s n d b : Nat) : (winner s n d b).2 ≤ s + n + d + b := by
  unfold winner
  simp only []
  split_ifs <;> simp <;> omega

/-- The winner's count is that of its bucket, no bucket has a larger count, and every bucket
with the same count comes later in the order `string < number < date < boolean`. -/
theorem winner_spec (s n d b : Nat) :
    let count : Bucket → Nat := fun k =>
      match k with
      | .string => s
      | .number => n
      | .date => d
      | .boolean => b
    (winner s n d b).2 = count (winner s n d b).1 ∧
    (∀ k, count k ≤ (winner s n d b).2) ∧
    (∀ k, count k = (winner s n d b).2 → (winner s n d b).1.rank ≤ k.rank) := by
  intro count
  unfold winner
  simp only []
  refine ⟨?_, ?_, ?_⟩
  · split_ifs <;> rfl
  · intro k
    cases k <;> simp only [count] <;> split_ifs <;> simp <;> omega
  · intro k
    cases k <;> simp only [count] <;> split_ifs <;> simp [Bucket.rank] <;> omega

/-- The profile returned for a column with at least one non-null sampled value. -/
theorem analyzeColumnType_eq (h : Host) (values : List JSValue)
    (hpos : 0 < (nonNullSample h values).length) :
    analyzeColumnType h values =
      { type := (sampleWinner (nonNullSample h values)).1.name
        confidence := .fin (expectedConfidence (sampleWinner (nonNullSample h values)).2
          (nonNullSample h values).length) 0
        sampleValues := some ((nonNullSample h values).take 5)
        nullPercentage := some (mathRound (jsMul
          (jsDiv (.ofNat ((values.take 100).countP (isNullValue h))) (.ofNat values.length))
          (.ofNat 100)))
        typeExplanation := some (typeExplanation (sampleWinner (nonNullSample h values)).1.name) } := by
  have hsum := bucketCount_sum (nonNullSample h values)
  have hle := nonNullSample_length_le h values
  have hne : values.length ≠ 0 := by
    intro h0
    have : values = [] := List.length_eq_zero.mp h0
    subst this
    simp [nonNullSample, trimmedNonNull] at hpos
  unfold analyzeColumnType
  rw [if_neg hne]
  simp only []
  rw [sampleCounts_eq]
  simp only []
  rw [if_neg (by omega)]
  rw [bestBucket_eq _ (by simp only []; omega)]
  simp only [hsum]
  have hconf : mathRound (jsMul (shareOf (winner (bucketCount .string (nonNullSample h values))
      (bucketCount .number (nonNullSample h values)) (bucketCount .date (nonNullSample h values))
      (bucketCount .boolean (nonNullSample h values))).2 (nonNullSample h values).length)
      (JSNum.ofNat 100))
      = .fin (expectedConfidence (sampleWinner (nonNullSample h values)).2
          (nonNullSample h values).length) 0 := by
    have hw := winner_le_total (bucketCount .string (nonNullSample h values))
      (bucketCount .number (nonNullSample h values)) (bucketCount .date (nonNullSample h values))
      (bucketCount .boolean (nonNullSample h values))
    exact confidenceOf_eq _ _ hpos hle (by rw [hsum] at hw; exact hw)
  rw [hconf]
  rfl

/-! ## Columns whose values do not consult the host -/

theorem analyzeStep_congr (h h' : Host) (acc : Counts) (v : JSValue)
    (hv : toStr h v = toStr h' v) : analyzeStep h acc v = analyzeStep h' acc v := by
  unfold analyzeStep
  rw [hv]

theorem foldl_analyzeStep_congr (h h' : Host) (vs : List JSValue)
    (hvs : ∀ v ∈ vs, toStr h v = toStr h' v) :
    ∀ acc : Counts, vs.foldl (analyzeStep h) acc = vs.foldl (analyzeStep h') acc := by
  induction vs with
  | nil => intro acc; rfl
  | cons v rest ih =>
    intro acc
    rw [List.foldl_cons, List.foldl_cons,
      analyzeStep_congr h h' acc v (hvs v (List.mem_cons_self _ _))]
    exact ih (fun w hw => hvs w (List.mem_cons_of_mem _ hw)) _

theorem analyzeColumnType_congr (h h' : Host) (values : List JSValue)
    (hvs : ∀ v ∈ values, toStr h v = toStr h' v) :
    analyzeColumnType h values = analyzeColumnType h' values := by
  have hc : sampleCounts h values = sampleCounts h' values :=
    foldl_analyzeStep_congr h h' _ (fun v hv => hvs v (List.mem_of_mem_take hv)) _
  unfold analyzeColumnType
  rw [hc]

theorem toStr_host_free (h h' : Host) (v : JSValue)
    (hv : (∃ s, v = .str s) ∨ v = .null ∨ v = .undefined) : toStr h v = toStr h' v := by
  rcases hv with ⟨s, rfl⟩ | rfl | rfl <;> rfl

/-! ## Entirely empty columns -/

theorem analyzeColumnType_of_no_sample (h : Host) (values : List JSValue)
    (hnone : nonNullSample h values = []) :
    analyzeColumnType h values = ⟨"string", .fin 0 0, none, none, none⟩ := by
  unfold analyzeColumnType
  split
  · rfl
  · simp only []
    rw [sampleCounts_eq, hnone]
    simp [bucketCount]

/-- C3 fails on the code: for an entirely empty column `analyzeColumnType` returns the
object `{ type: "string", confidence: 0 }` of its early return, in which `nullPercentage`
(like `sampleValues`) is absent rather than 100. -/
theorem analyzeColumnType_empty_column (h : Host) (values : List JSValue)
    (hall : ∀ v ∈ values, isNullValue h v = true) :
    analyzeColumnType h values = ⟨"string", .fin 0 0, none, none, none⟩ ∧
    (analyzeColumnType h values).nullPercentage = none := by
  have hnone : nonNullSample h values = [] := by
    unfold nonNullSample trimmedNonNull
    rw [List.map_eq_nil_iff, List.filter_eq_nil_iff]
    intro v hv
    simp [hall v (List.mem_of_mem_take hv)]
  rw [analyzeColumnType_of_no_sample h values hnone]
  exact ⟨rfl, rfl⟩

/-- C3, on a column holding `null`, an absent value, the empty string and a blank string. -/
theorem analyzeColumnType_empty_column_witness :
    (∀ v ∈ [JSValue.null, .undefined, .str "", .str "  "], isNullValue exampleHost v = true) ∧
    analyzeColumnType exampleHost [.null, .undefined, .str "", .str "  "]
      = ⟨"string", .fin 0 0, none, none, none⟩ ∧
    (analyzeColumnType exampleHost [.null, .undefined, .str "", .str "  "]).nullPercentage
      = none :=
  ⟨by decide, analyzeColumnType_empty_column exampleHost _ (by decide)⟩

/-! ## The null percentage -/

/-- C5 fails on the code: `nullCount` is incremented inside the sampling loop only, so the
nulls after the first 100 values are not counted although the count is divided by the full
length.  For 100 non-empty strings followed by 100 `null`s (100 nulls among 200 values, 50
percent) the code returns `nullPercentage = 0`. -/
theorem nullPercentage_ignores_tail (h : Host) :
    halfNullColumn.length = 200 ∧
    halfNullColumn.countP (isNullValue h) = 100 ∧
    (analyzeColumnType h halfNullColumn).nullPercentage = some (.fin 0 0) := by
  have hfree : ∀ v ∈ halfNullColumn, toStr h v = toStr exampleHost v := by
    intro v hv
    apply toStr_host_free
    simp only [halfNullColumn, List.mem_append, List.mem_replicate] at hv
    rcases hv with ⟨_, rfl⟩ | ⟨_, rfl⟩
    · exact Or.inl ⟨_, rfl⟩
    · exact Or.inr (Or.inl rfl)
  have hcount : halfNullColumn.countP (isNullValue h)
      = halfNullColumn.countP (isNullValue exampleHost) := by
    apply List.countP_congr
    intro v hv
    unfold isNullValue
    rw [hfree v hv]
  refine ⟨by decide!, ?_, ?_⟩
  · rw [hcount]
    decide!
  · rw [analyzeColumnType_congr h exampleHost _ hfree]
    decide!

/-! ## Sample values -/

/-- C7: when `sampleValues` is present it has at most 5 elements and consists of the
trimmed string forms of the first `min(5, k)` non-null values among the first 100 values,
in their original order, where `k` is the number of those non-null values. -/
theorem sampleValues_spec (h : Host) (values : List JSValue) (vs : List String)
    (hs : (analyzeColumnType h values).sampleValues = some vs) :
    vs.length ≤ 5 ∧
    vs.length = min 5 (nonNullSample h values).length ∧
    vs = (nonNullSample h values).take (min 5 (nonNullSample h values).length) := by
  by_cases hpos : 0 < (nonNullSample h values).length
  · rw [analyzeColumnType_eq h values hpos] at hs
    simp only [Option.some.injEq] at hs
    subst hs
    refine ⟨by simp, by simp, ?_⟩
    rcases Nat.le_total 5 (nonNullSample h values).length with hle | hle
    · rw [Nat.min_eq_left hle]
    · rw [Nat.min_eq_right hle, List.take_length, List.take_of_length_le hle]
  · have hnone : nonNullSample h values = [] :=
      List.length_eq_zero.mp (Nat.eq_zero_of_not_pos hpos)
    rw [analyzeColumnType_of_no_sample h values hnone] at hs
    cases hs

/-- C7, on a column with nulls and blanks between padded values. -/
theorem sampleValues_spec_witness :
    (analyzeColumnType exampleHost paddedColumn).sampleValues = some ["a", "b", "c", "d", "e"] ∧
    nonNullSample exampleHost paddedColumn = ["a", "b", "c", "d", "e", "f", "g"] ∧
    ["a", "b", "c", "d", "e"].length ≤ 5 ∧
    ["a", "b", "c", "d", "e"].length = min 5 (nonNullSample exampleHost paddedColumn).length ∧
    ["a", "b", "c", "d", "e"] = (nonNullSample exampleHost paddedColumn).take
      (min 5 (nonNullSample exampleHost paddedColumn).length) :=
  ⟨by decide, by decide, sampleValues_spec exampleHost paddedColumn _ (by decide)⟩

/-! ## Decimal strings are classified as numbers -/

theorem isWhiteSpace_of_isDigit (c : Char) (hc : isDigit c = true) : isWhiteSpace c = false := by
  simp only [isDigit, decide_eq_true_eq] at hc
  simp only [isWhiteSpace, decide_eq_false_iff_not]
  omega

theorem takeWhile_dropWhile_digits (fs : List Char) (hfs : fs.all isDigit = true) :
    fs.takeWhile isDigit = fs ∧ fs.dropWhile isDigit = [] := by
  induction fs with
  | nil => simp
  | cons c rest ih =>
    simp only [List.all_cons, Bool.and_eq_true] at hfs
    simp [List.takeWhile_cons, List.dropWhile_cons, hfs.1, ih hfs.2]

theorem dropWhile_eq_self_of_all_false (p : Char → Bool) (cs : List Char)
    (hcs : ∀ c ∈ cs, p c = false) : cs.dropWhile p = cs := by
  cases cs with
  | nil => rfl
  | cons c rest => simp [List.dropWhile_cons, hcs c (List.mem_cons_self _ _)]

theorem trim_eq_self (cs : List Char) (hcs : ∀ c ∈ cs, isWhiteSpace c = false) :
    trimEnd (trimStart cs) = cs := by
  unfold trimEnd trimStart
  rw [dropWhile_eq_self_of_all_false _ cs hcs,
    dropWhile_eq_self_of_all_false _ cs.reverse (fun c hc => hcs c (List.mem_reverse.mp hc)),
    List.reverse_reverse]

/-- The shape of a decimal body: a non-empty run of digits, then nothing or a point and a
non-empty run of digits. -/
theorem isDecimalBody_shape (cs : List Char) (hcs : isDecimalBody cs = true) :
    cs.takeWhile isDigit ≠ [] ∧
    (cs.dropWhile isDigit = [] ∨
      ∃ fs, cs.dropWhile isDigit = '.' :: fs ∧ fs ≠ [] ∧ fs.all isDigit = true) := by
  unfold isDecimalBody at hcs
  simp only [Bool.and_eq_true, Bool.not_eq_true', List.isEmpty_eq_false] at hcs
  obtain ⟨h1, h2⟩ := hcs
  constructor
  · intro h0
    simp [h0] at h1
  · cases hd : cs.dropWhile isDigit with
    | nil => exact Or.inl rfl
    | cons c fs =>
      rw [hd] at h2
      simp only [Bool.and_eq_true, beq_iff_eq, Bool.not_eq_true', List.isEmpty_eq_false] at h2
      obtain ⟨⟨hc, hne⟩, hall⟩ := h2
      subst hc
      refine Or.inr ⟨fs, rfl, ?_, hall⟩
      intro h0
      simp [h0] at hne

theorem isDecimalBody_head (cs : List Char) (hcs : isDecimalBody cs = true) :
    ∃ c rest, cs = c :: rest ∧ isDigit c = true := by
  obtain ⟨h1, _⟩ := isDecimalBody_shape cs hcs
  cases cs with
  | nil => simp at h1
  | cons c rest =>
    refine ⟨c, rest, rfl, ?_⟩
    by_cases hc : isDigit c = true
    · exact hc
    · simp [List.takeWhile_cons, hc] at h1

theorem isDecimalBody_chars (cs : List Char) (hcs : isDecimalBody cs = true) :
    ∀ c ∈ cs, isDigit c = true ∨ c = '.' := by
  intro c hc
  obtain ⟨_, h2⟩ := isDecimalBody_shape cs hcs
  rw [← List.takeWhile_append_dropWhile isDigit cs, List.mem_append] at hc
  rcases hc with hc | hc
  · exact Or.inl (List.mem_takeWhile_imp hc)
  · rcases h2 with h2 | ⟨fs, h2, _, hall⟩
    · rw [h2] at hc
      cases hc
    · rw [h2, List.mem_cons] at hc
      rcases hc with rfl | hc
      · exact Or.inr rfl
      · exact Or.inl (List.all_eq_true.mp hall c hc)

theorem matchDigitGroups_decimal_body (isSep : Char → Bool) (r1 r2 r3 : Nat × Nat)
    (cs : List Char) (hcs : isDecimalBody cs = true) :
    matchDigitGroups isSep r1 r2 r3 cs = false := by
  obtain ⟨_, h2⟩ := isDecimalBody_shape cs hcs
  unfold matchDigitGroups digitRun
  rcases h2 with h2 | ⟨fs, h2, _, hall⟩
  · rw [h2]
    split_ifs <;> rfl
  · obtain ⟨t1, t2⟩ := takeWhile_dropWhile_digits fs hall
    rw [h2]
    split_ifs
    · simp only [t1, t2]
      split_ifs <;> simp
    · rfl

theorem matchDigitGroups_nondigit (isSep : Char → Bool) (r1 r2 r3 : Nat × Nat) (c : Char)
    (cs : List Char) (hc : isDigit c = false) (h1 : 1 ≤ r1.1) :
    matchDigitGroups isSep r1 r2 r3 (c :: cs) = false := by
  unfold matchDigitGroups digitRun
  simp only [List.takeWhile_cons, hc, Bool.false_eq_true, if_false, List.length_nil]
  rw [if_neg (by omega)]

theorem isDateLike_decimal (s : String) (hs : isDecimalString s = true) :
    isDateLike s = false := by
  unfold isDecimalString at hs
  unfold isDateLike
  cases hl : s.toList with
  | nil => rw [hl] at hs; cases hs
  | cons c cs =>
    rw [hl] at hs
    simp only [] at hs
    split_ifs at hs with hsign
    · have hc : isDigit c = false := by
        rcases hsign with rfl | rfl <;> decide
      simp [matchDigitGroups_nondigit _ _ _ _ c cs hc]
    · simp [matchDigitGroups_decimal_body _ _ _ _ (c :: cs) hs]

theorem roundRat_isNaN (neg : Bool) (p q : Nat) : (roundRat neg p q).isNaN = false := by
  unfold roundRat
  split
  · rfl
  · rfl
  · unfold roundPos
    split
    · simp only []
      split_ifs <;> rfl
    · rfl

theorem decValue_isNaN (neg : Bool) (lit : DecLit) : (decValue neg lit).isNaN = false := by
  unfold decValue
  split
  · split_ifs <;> rfl
  · exact roundRat_isNaN _ _ _
  · exact roundRat_isNaN _ _ _

theorem scanUnsigned_decimal_body (cs : List Char) (hcs : isDecimalBody cs = true) :
    ∃ d sc, scanUnsigned cs = some (.dec d sc, []) := by
  obtain ⟨h1, h2⟩ := isDecimalBody_shape cs hcs
  obtain ⟨c, rest, hcons, hc⟩ := isDecimalBody_head cs hcs
  have hinf : "Infinity".toList.isPrefixOf cs = false := by
    subst hcons
    have hne : ('I' == c) = false := by
      rw [beq_eq_false_iff_ne]
      rintro rfl
      revert hc
      decide
    show List.isPrefixOf ('I' :: "nfinity".toList) (c :: rest) = false
    simp [List.isPrefixOf, hne]
  unfold scanUnsigned
  rw [hinf]
  simp only [Bool.false_eq_true, if_false]
  have hip : (cs.takeWhile isDigit).isEmpty = false := by
    cases ht : cs.takeWhile isDigit with
    | nil => exact absurd ht h1
    | cons _ _ => rfl
  rcases h2 with h2 | ⟨fs, h2, _, hall⟩
  · rw [h2]
    simp [scanFraction, hip, scanExponent]
  · obtain ⟨t1, t2⟩ := takeWhile_dropWhile_digits fs hall
    rw [h2]
    simp [scanFraction, hip, scanExponent, t1, t2]

theorem isDecimalString_chars (s : String) (hs : isDecimalString s = true) :
    ∀ c ∈ s.toList, isDigit c = true ∨ c = '.' ∨ c = '+' ∨ c = '-' := by
  unfold isDecimalString at hs
  cases hl : s.toList with
  | nil => rw [hl] at hs; cases hs
  | cons c cs =>
    rw [hl] at hs
    simp only [] at hs
    intro x hx
    split_ifs at hs with hsign
    · rw [List.mem_cons] at hx
      rcases hx with rfl | hx
      · rcases hsign with rfl | rfl
        · exact Or.inr (Or.inr (Or.inl rfl))
        · exact Or.inr (Or.inr (Or.inr rfl))
      · rcases isDecimalBody_chars cs hs x hx with h | h
        · exact Or.inl h
        · exact Or.inr (Or.inl h)
    · rcases isDecimalBody_chars (c :: cs) hs x hx with h | h
      · exact Or.inl h
      · exact Or.inr (Or.inl h)

theorem decimalToNumber_decimal (s : String) (hs : isDecimalString s = true) :
    (decimalToNumber s.toList).isNaN = false := by
  unfold isDecimalString at hs
  unfold decimalToNumber
  cases hl : s.toList with
  | nil => rw [hl] at hs; cases hs
  | cons c cs =>
    rw [hl] at hs
    simp only [] at hs
    split_ifs at hs with hsign
    · obtain ⟨d, sc, hscan⟩ := scanUnsigned_decimal_body cs hs
      rcases hsign with rfl | rfl
      · simp [scanSigned, hscan, decValue_isNaN]
      · simp [scanSigned, hscan, decValue_isNaN]
    · obtain ⟨d, sc, hscan⟩ := scanUnsigned_decimal_body (c :: cs) hs
      have hplus : c ≠ '+' := fun hc => hsign (Or.inl hc)
      have hminus : c ≠ '-' := fun hc => hsign (Or.inr hc)
      have hsgn : scanSigned (c :: cs) = some (false, .dec d sc, []) := by
        unfold scanSigned
        split
        · rename_i heq
          exact absurd (List.cons.inj heq).1 hplus
        · rename_i heq
          exact absurd (List.cons.inj heq).1 hminus
        · simp [hscan]
      rw [hsgn]
      exact decValue_isNaN _ _

theorem stringToNumber_decimal (s : String) (hs : isDecimalString s = true) :
    (stringToNumber s).isNaN = false := by
  have hchars := isDecimalString_chars s hs
  have hws : ∀ c ∈ s.toList, isWhiteSpace c = false := by
    intro c hc
    rcases hchars c hc with h | rfl | rfl | rfl
    · exact isWhiteSpace_of_isDigit c h
    · decide
    · decide
    · decide
  have hdec := decimalToNumber_decimal s hs
  unfold stringToNumber
  rw [trim_eq_self _ hws]
  split
  · rfl
  · rename_i x rest heq
    have hx : x ∈ s.toList := by rw [heq]; simp
    have hxc := hchars x hx
    have hne : ¬ (x = 'x' ∨ x = 'X') ∧ ¬ (x = 'o' ∨ x = 'O') ∧ ¬ (x = 'b' ∨ x = 'B') := by
      refine ⟨?_, ?_, ?_⟩ <;>
      · intro hcon
        rcases hcon with rfl | rfl <;>
        · rcases hxc with h | h | h | h
          · revert h; decide
          · revert h; decide
          · revert h; decide
          · revert h; decide
    rw [if_neg hne.1, if_neg hne.2.1, if_neg hne.2.2, ← heq]
    exact hdec
  · exact hdec

theorem asciiLower_decimal_char (c : Char)
    (hc : isDigit c = true ∨ c = '.' ∨ c = '+' ∨ c = '-') : asciiLower c = c := by
  unfold asciiLower
  rcases hc with h | rfl | rfl | rfl
  · simp only [isDigit, decide_eq_true_eq] at h
    rw [if_neg (by omega)]
  · rfl
  · rfl
  · rfl

theorem isBooleanLiteral_decimal (s : String) (hs : isDecimalString s = true)
    (h0 : s ≠ "0") (h1 : s ≠ "1") : isBooleanLiteral s = false := by
  have hchars := isDecimalString_chars s hs
  have hmap : s.toList.map asciiLower = s.toList := by
    conv_rhs => rw [← List.map_id s.toList]
    apply List.map_congr_left
    intro c hc
    exact asciiLower_decimal_char c (hchars c hc)
  have hlit : ∀ l : String, (∃ x ∈ l.toList, ¬ (isDigit x = true ∨ x = '.' ∨ x = '+' ∨ x = '-')) →
      (s.toList == l.toList) = false := by
    intro l ⟨x, hx, hbad⟩
    rw [beq_eq_false_iff_ne]
    intro heq
    rw [← heq] at hx
    exact hbad (hchars x hx)
  have hstr : ∀ l : String, s ≠ l → (s.toList == l.toList) = false := by
    intro l hne
    rw [beq_eq_false_iff_ne]
    intro heq
    exact hne (String.ext heq)
  unfold isBooleanLiteral booleanLiterals
  simp only [hmap, List.any_cons, List.any_nil, Bool.or_false, Bool.or_eq_false_iff]
  refine ⟨hlit _ ⟨'t', by decide, by decide⟩, hlit _ ⟨'f', by decide, by decide⟩,
    hlit _ ⟨'y', by decide, by decide⟩, hlit _ ⟨'n', by decide, by decide⟩, hstr _ h1, hstr _ h0,
    hlit _ ⟨'e', by decide, by decide⟩, hlit _ ⟨'h', by decide, by decide⟩,
    hlit _ ⟨'t', by decide, by decide⟩, hlit _ ⟨'o', by decide, by decide⟩⟩

theorem classify_decimal (s : String) (hs : isDecimalString s = true)
    (h0 : s ≠ "0") (h1 : s ≠ "1") : classify s = .number := by
  unfold classify
  rw [isBooleanLiteral_decimal s hs h0 h1, isDateLike_decimal s hs, stringToNumber_decimal s hs]
  rfl

/-! ## Columns of decimal strings -/

theorem bucketCount_of_all (b : Bucket) (sample : List String)
    (hall : ∀ s ∈ sample, classify s = b) :
    bucketCount b sample = sample.length ∧ ∀ k, k ≠ b → bucketCount k sample = 0 := by
  unfold bucketCount
  constructor
  · rw [List.countP_eq_length]
    intro s hs
    simp [hall s hs]
  · intro k hk
    rw [List.countP_eq_zero]
    intro s hs
    simp only [decide_eq_true_eq]
    rw [hall s hs]
    exact fun h => hk h.symm

theorem expectedConfidence_self (n : Nat) (hn : 0 < n) : expectedConfidence n n = 100 := by
  unfold expectedConfidence
  rw [if_neg (by omega)]
  exact Nat.div_eq_of_lt_le (by omega) (by omega)

/-- C2 as stated fails: every value of the column `["1", "0"]` is a valid integer string,
yet the column is typed `boolean`, because the boolean test comes first; and the column
`[null, "  "]` has no non-null value at all, so the premise holds of it, yet it is typed
`string` with confidence 0. -/
theorem decimal_column_counterexample :
    (∀ v ∈ [JSValue.str "1", JSValue.str "0"], isNullValue exampleHost v = false →
      isDecimalString (jsTrim (toStr exampleHost v)) = true) ∧
    (analyzeColumnType exampleHost [.str "1", .str "0"]).type = "boolean" ∧
    (analyzeColumnType exampleHost [.str "1", .str "0"]).type ≠ "number" ∧
    (∀ v ∈ [JSValue.null, JSValue.str "  "], isNullValue exampleHost v = false →
      isDecimalString (jsTrim (toStr exampleHost v)) = true) ∧
    (analyzeColumnType exampleHost [.null, .str "  "]).type = "string" ∧
    (analyzeColumnType exampleHost [.null, .str "  "]).confidence = .fin 0 0 := by
  decide

/-- C2, amended: when the first 100 values of a column hold at least one non-null value and
the trimmed string form of each non-null one is a valid integer or decimal string other than
`"0"` and `"1"`, `analyzeColumnType` returns type `"number"` with confidence 100. -/
theorem analyzeColumnType_decimal_column (h : Host) (values : List JSValue)
    (hsome : nonNullSample h values ≠ [])
    (hdec : ∀ s ∈ nonNullSample h values, isDecimalString s = true ∧ s ≠ "0" ∧ s ≠ "1") :
    (analyzeColumnType h values).type = "number" ∧
    (analyzeColumnType h values).confidence = .fin 100 0 := by
  have hpos : 0 < (nonNullSample h values).length := List.length_pos.mpr hsome
  obtain ⟨hn, hz⟩ := bucketCount_of_all .number (nonNullSample h values)
    (fun s hs => classify_decimal s (hdec s hs).1 (hdec s hs).2.1 (hdec s hs).2.2)
  have hw : sampleWinner (nonNullSample h values)
      = (.number, (nonNullSample h values).length) := by
    unfold sampleWinner winner
    rw [hn, hz .string (by decide), hz .date (by decide), hz .boolean (by decide)]
    simp [hpos]
  rw [analyzeColumnType_eq h values hpos, hw]
  simp only []
  rw [expectedConfidence_self _ hpos]
  exact ⟨rfl, rfl⟩

/-- C2, amended, on a column of padded decimal strings with a null between them. -/
theorem analyzeColumnType_decimal_column_witness :
    nonNullSample exampleHost decimalColumn ≠ [] ∧
    (∀ s ∈ nonNullSample exampleHost decimalColumn,
      isDecimalString s = true ∧ s ≠ "0" ∧ s ≠ "1") ∧
    (analyzeColumnType exampleHost decimalColumn).type = "number" ∧
    (analyzeColumnType exampleHost decimalColumn).confidence = .fin 100 0 :=
  ⟨by decide, by decide,
    analyzeColumnType_decimal_column exampleHost decimalColumn (by decide) (by decide)⟩

/-! ## Ties between buckets -/

theorem sampleWinner_spec (sample : List String) :
    (sampleWinner sample).2 = bucketCount (sampleWinner sample).1 sample ∧
    (∀ k, bucketCount k sample ≤ bucketCount (sampleWinner sample).1 sample) ∧
    (∀ k, bucketCount k sample = bucketCount (sampleWinner sample).1 sample →
      (sampleWinner sample).1.rank ≤ k.rank) := by
  obtain ⟨h1, h2, h3⟩ := winner_spec (bucketCount .string sample) (bucketCount .number sample)
    (bucketCount .date sample) (bucketCount .boolean sample)
  have hcount : ∀ k : Bucket,
      (match k with
        | .string => bucketCount .string sample
        | .number => bucketCount .number sample
        | .date => bucketCount .date sample
        | .boolean => bucketCount .boolean sample) = bucketCount k sample := by
    intro k
    cases k <;> rfl
  simp only [hcount] at h1 h2 h3
  unfold sampleWinner
  refine ⟨h1, ?_, ?_⟩
  · intro k
    rw [← h1]
    exact h2 k
  · intro k hk
    rw [← h1] at hk
    exact h3 k hk

/-- C4 as stated fails: in the column `["true", "abc"]` the buckets boolean and string tie
with one value each, and the returned type is `string`, not `boolean`. -/
theorem tie_counterexample :
    bucketCount .boolean (nonNullSample exampleHost tieColumn) = 1 ∧
    bucketCount .string (nonNullSample exampleHost tieColumn) = 1 ∧
    bucketCount .number (nonNullSample exampleHost tieColumn) = 0 ∧
    bucketCount .date (nonNullSample exampleHost tieColumn) = 0 ∧
    (analyzeColumnType exampleHost tieColumn).type = "string" ∧
    (analyzeColumnType exampleHost tieColumn).type ≠ "boolean" := by
  decide

/-- C4, amended: for a column with at least one non-null sampled value the returned type is
that of a bucket with the highest count, and among the buckets sharing that count it is the
earliest in the order `string < number < date < boolean`; in particular `string` is returned
whenever no bucket has more values than the string bucket. -/
theorem analyzeColumnType_tie_break (h : Host) (values : List JSValue)
    (hpos : 0 < (nonNullSample h values).length) :
    ∃ w : Bucket,
      (analyzeColumnType h values).type = w.name ∧
      (∀ k, bucketCount k (nonNullSample h values) ≤ bucketCount w (nonNullSample h values)) ∧
      (∀ k, bucketCount k (nonNullSample h values) = bucketCount w (nonNullSample h values) →
        w.rank ≤ k.rank) ∧
      ((∀ k, bucketCount k (nonNullSample h values)
          ≤ bucketCount .string (nonNullSample h values)) →
        (analyzeColumnType h values).type = "string") := by
  obtain ⟨_, h2, h3⟩ := sampleWinner_spec (nonNullSample h values)
  refine ⟨(sampleWinner (nonNullSample h values)).1, ?_, h2, h3, ?_⟩
  · rw [analyzeColumnType_eq h values hpos]
  · intro hmax
    have hrank := h3 .string (Nat.le_antisymm (h2 .string) (hmax _))
    rw [analyzeColumnType_eq h values hpos]
    simp only []
    cases hw : (sampleWinner (nonNullSample h values)).1 with
    | string => rfl
    | number => rw [hw] at hrank; simp [Bucket.rank] at hrank
    | date => rw [hw] at hrank; simp [Bucket.rank] at hrank
    | boolean => rw [hw] at hrank; simp [Bucket.rank] at hrank

/-- C4, amended, on the column `["true", "abc"]`: the tie goes to `string`. -/
theorem analyzeColumnType_tie_break_witness :
    0 < (nonNullSample exampleHost tieColumn).length ∧
    ∃ w : Bucket,
      (analyzeColumnType exampleHost tieColumn).type = w.name ∧
      (∀ k, bucketCount k (nonNullSample exampleHost tieColumn)
        ≤ bucketCount w (nonNullSample exampleHost tieColumn)) ∧
      (∀ k, bucketCount k (nonNullSample exampleHost tieColumn)
          = bucketCount w (nonNullSample exampleHost tieColumn) → w.rank ≤ k.rank) ∧
      ((∀ k, bucketCount k (nonNullSample exampleHost tieColumn)
          ≤ bucketCount .string (nonNullSample exampleHost tieColumn)) →
        (analyzeColumnType exampleHost tieColumn).type = "string") :=
  ⟨by decide, analyzeColumnType_tie_break exampleHost tieColumn (by decide)⟩

/-! ## Confidence -/

/-- C6 as stated fails: with 23 numeric strings among 40 non-null values the type is
`number` and `round(100 * 23 / 40) = round(57.5) = 58`, but the code returns 57, because
the binary64 product `(23 / 40) * 100` is `57.49999999999999`. -/
theorem confidence_counterexample :
    (nonNullSample exampleHost ratio2340Column).length = 40 ∧
    bucketCount .number (nonNullSample exampleHost ratio2340Column) = 23 ∧
    (analyzeColumnType exampleHost ratio2340Column).type = "number" ∧
    (200 * 23 + 40) / (2 * 40) = 58 ∧
    (analyzeColumnType exampleHost ratio2340Column).confidence = .fin 57 0 := by
  decide!

/-- C6, amended: for a column with at least one non-null sampled value, every non-null
sampled value is counted in exactly one bucket (boolean literal first, else date pattern,
else numeric, else string), the returned type is that of a bucket `w` with maximal count,
and the confidence is `Math.round((count w / total) * 100)` in binary64 arithmetic, which is
`round(100 * count w / total)` with halves rounded up except when `count w / total = 23 / 40`,
where it is 57; Scenario B gives type `date`, confidence 67 and three sample values. -/
theorem analyzeColumnType_confidence (h : Host) (values : List JSValue)
    (hpos : 0 < (nonNullSample h values).length) :
    ((sampleCounts h values).stringCount = bucketCount .string (nonNullSample h values) ∧
      (sampleCounts h values).numberCount = bucketCount .number (nonNullSample h values) ∧
      (sampleCounts h values).dateCount = bucketCount .date (nonNullSample h values) ∧
      (sampleCounts h values).booleanCount = bucketCount .boolean (nonNullSample h values) ∧
      bucketCount .string (nonNullSample h values) + bucketCount .number (nonNullSample h values)
        + bucketCount .date (nonNullSample h values)
        + bucketCount .boolean (nonNullSample h values) = (nonNullSample h values).length) ∧
    (∃ w : Bucket,
      (analyzeColumnType h values).type = w.name ∧
      (∀ k, bucketCount k (nonNullSample h values) ≤ bucketCount w (nonNullSample h values)) ∧
      (analyzeColumnType h values).confidence
        = .fin (if 40 * bucketCount w (nonNullSample h values)
              = 23 * (nonNullSample h values).length then 57
            else (200 * bucketCount w (nonNullSample h values) + (nonNullSample h values).length)
              / (2 * (nonNullSample h values).length) : Nat) 0) ∧
    analyzeColumnType h scenarioBColumn =
      { type := "date"
        confidence := .fin 67 0
        sampleValues := some ["2023-01-05", "2023-02-10", "not-a-date"]
        nullPercentage := some (.fin 0 0)
        typeExplanation := some "Tarih formatı tespit edildi" } := by
  refine ⟨?_, ?_, ?_⟩
  · rw [sampleCounts_eq]
    exact ⟨rfl, rfl, rfl, rfl, bucketCount_sum _⟩
  · obtain ⟨h1, h2, _⟩ := sampleWinner_spec (nonNullSample h values)
    refine ⟨(sampleWinner (nonNullSample h values)).1, ?_, h2, ?_⟩
    · rw [analyzeColumnType_eq h values hpos]
    · rw [analyzeColumnType_eq h values hpos]
      simp only []
      rw [h1]
      rfl
  · have hfree : ∀ v ∈ scenarioBColumn, toStr h v = toStr exampleHost v := by
      intro v hv
      apply toStr_host_free
      simp only [scenarioBColumn, List.mem_cons, List.mem_singleton, List.not_mem_nil,
        or_false] at hv
      rcases hv with rfl | rfl | rfl <;> exact Or.inl ⟨_, rfl⟩
    rw [analyzeColumnType_congr h exampleHost _ hfree]
    decide

/-- C6, amended, on the column of Scenario B. -/
theorem analyzeColumnType_confidence_witness :
    0 < (nonNullSample exampleHost scenarioBColumn).length ∧
    (analyzeColumnType exampleHost scenarioBColumn).type = "date" ∧
    (analyzeColumnType exampleHost scenarioBColumn).confidence = .fin 67 0 ∧
    (analyzeColumnType exampleHost scenarioBColumn).sampleValues
      = some ["2023-01-05", "2023-02-10", "not-a-date"] :=
  ⟨by decide, by
    have hmain := (analyzeColumnType_confidence exampleHost scenarioBColumn (by decide)).2.2
    rw [hmain]
    exact ⟨rfl, rfl, rfl⟩⟩

/-! ## The report as a function of the rows -/

theorem columnCount_cons (column : String) (e : ValidationError) (rest : List ValidationError) :
    columnCount column (e :: rest)
      = columnCount column rest + (if e.column = column then 1 else 0) := by
  unfold columnCount
  rw [List.countP_cons]
  simp

theorem columnCount_append (column : String) (l1 l2 : List ValidationError) :
    columnCount column (l1 ++ l2) = columnCount column l1 + columnCount column l2 := by
  unfold columnCount
  rw [List.countP_append]

theorem columnCount_setRowIndex (column : String) (i : Nat) (l : List ValidationError) :
    columnCount column (l.map (setRowIndex i)) = columnCount column l := by
  unfold columnCount
  rw [List.countP_map]
  rfl

theorem addToSummary_nil (summary : List (String × ColumnSummary)) :
    addToSummary summary [] [] = summary := by
  unfold addToSummary
  simp [columnCount]

theorem foldl_addError_eq (i : Nat) (errs : List ValidationError) :
    ∀ res : Report, errs.foldl (addError i) res =
      { res with
        errors := res.errors ++ errs.map (setRowIndex i)
        totalErrors := res.totalErrors + errs.length
        summary := addToSummary res.summary errs [] } := by
  induction errs with
  | nil => intro res; simp [addToSummary_nil]
  | cons e rest ih =>
    intro res
    rw [List.foldl_cons, ih]
    simp only [addError, List.map_cons, List.length_cons, List.append_assoc,
      List.singleton_append, Report.mk.injEq, true_and]
    refine ⟨by omega, rfl, ?_⟩
    unfold addToSummary bumpSummary
    rw [List.map_map]
    apply List.map_congr_left
    intro kv _
    simp only [Function.comp, columnCount_cons]
    by_cases hk : kv.1 = e.column
    · simp [hk, columnCount]
      omega
    · have hk' : ¬ e.column = kv.1 := fun hc => hk hc.symm
      simp [hk, hk', columnCount]

theorem foldl_addWarning_eq (i : Nat) (warns : List ValidationError) :
    ∀ res : Report, warns.foldl (addWarning i) res =
      { res with
        warnings := res.warnings ++ warns.map (setRowIndex i)
        totalWarnings := res.totalWarnings + warns.length
        summary := addToSummary res.summary [] warns } := by
  induction warns with
  | nil => intro res; simp [addToSummary_nil]
  | cons e rest ih =>
    intro res
    rw [List.foldl_cons, ih]
    simp only [addWarning, List.map_cons, List.length_cons, List.append_assoc,
      List.singleton_append, Report.mk.injEq, true_and]
    refine ⟨by omega, rfl, ?_⟩
    unfold addToSummary bumpSummary
    rw [List.map_map]
    apply List.map_congr_left
    intro kv _
    simp only [Function.comp, columnCount_cons]
    by_cases hk : kv.1 = e.column
    · simp [hk, columnCount]
      omega
    · have hk' : ¬ e.column = kv.1 := fun hc => hk hc.symm
      simp [hk, hk', columnCount]

theorem addToSummary_addToSummary (summary : List (String × ColumnSummary))
    (e1 w1 e2 w2 : List ValidationError) :
    addToSummary (addToSummary summary e1 w1) e2 w2 = addToSummary summary (e1 ++ e2) (w1 ++ w2) := by
  unfold addToSummary
  rw [List.map_map]
  apply List.map_congr_left
  intro kv _
  simp only [Function.comp, columnCount_append, Prod.mk.injEq, ColumnSummary.mk.injEq, true_and]
  omega

theorem recordRow_eq (i : Nat) (res : Report)
    (rv : List ValidationError × List ValidationError) :
    recordRow i res rv =
      { totalRows := res.totalRows
        validRows := res.validRows + (if rv.1.length = 0 then 1 else 0)
        invalidRows := res.invalidRows + (if rv.1.length = 0 then 0 else 1)
        totalErrors := res.totalErrors + rv.1.length
        totalWarnings := res.totalWarnings + rv.2.length
        errors := res.errors ++ rv.1.map (setRowIndex i)
        warnings := res.warnings ++ rv.2.map (setRowIndex i)
        summary := addToSummary res.summary (rv.1.map (setRowIndex i)) (rv.2.map (setRowIndex i)) } := by
  unfold recordRow
  simp only []
  rw [foldl_addWarning_eq, foldl_addError_eq]
  simp only [addToSummary_addToSummary, List.append_nil, List.nil_append]
  have hsum : addToSummary res.summary rv.1 rv.2
      = addToSummary res.summary (rv.1.map (setRowIndex i)) (rv.2.map (setRowIndex i)) := by
    unfold addToSummary
    simp only [columnCount_setRowIndex]
  by_cases h0 : rv.1.length = 0
  · simp [h0, hsum]
  · simp [h0, hsum]

/-- The report built by the row loop, written out field by field. -/
theorem validateLoop_eq (h : Host) (rules : RuleSet) (rows : List Record) :
    ∀ (i : Nat) (res r : Report), validateLoop h rules i rows res = .ok r →
      (∀ row ∈ rows, validateRow h row rules = .ok (rowResult h rules row)) ∧
      r = { totalRows := res.totalRows
            validRows := res.validRows
              + rows.countP (fun row => decide ((rowResult h rules row).1.length = 0))
            invalidRows := res.invalidRows
              + rows.countP (fun row => !decide ((rowResult h rules row).1.length = 0))
            totalErrors := res.totalErrors + (loopErrors h rules i rows).length
            totalWarnings := res.totalWarnings + (loopWarnings h rules i rows).length
            errors := res.errors ++ loopErrors h rules i rows
            warnings := res.warnings ++ loopWarnings h rules i rows
            summary := addToSummary res.summary (loopErrors h rules i rows)
              (loopWarnings h rules i rows) } := by
  induction rows with
  | nil =>
    intro i res r hr
    simp only [validateLoop, Except.ok.injEq] at hr
    subst hr
    simp [loopErrors, loopWarnings, addToSummary_nil]
  | cons row rest ih =>
    intro i res r hr
    simp only [validateLoop] at hr
    split at hr
    · cases hr
    · rename_i rv hrv
      have hrow : rowResult h rules row = rv := by
        unfold rowResult
        rw [hrv]
      obtain ⟨hall, heq⟩ := ih (i + 1) (recordRow i res rv) r hr
      refine ⟨?_, ?_⟩
      · intro x hx
        rcases List.mem_cons.mp hx with rfl | hx
        · rw [hrow]; exact hrv
        · exact hall x hx
      · rw [heq, recordRow_eq]
        simp only [loopErrors, loopWarnings, List.countP_cons, hrow, List.length_append,
          List.length_map, addToSummary_addToSummary, List.append_assoc, Report.mk.injEq,
          true_and, and_true]
        by_cases h0 : rv.1.length = 0
        · simp [h0]
          omega
        · simp [h0]
          omega

theorem validateLoop_returns (h : Host) (rules : RuleSet) (rows : List Record)
    (hrows : ∀ row ∈ rows, ∃ rv, validateRow h row rules = .ok rv) :
    ∀ (i : Nat) (res : Report), ∃ r, validateLoop h rules i rows res = .ok r := by
  induction rows with
  | nil => intro i res; exact ⟨res, rfl⟩
  | cons row rest ih =>
    intro i res
    obtain ⟨rv, hrv⟩ := hrows row (List.mem_cons_self _ _)
    obtain ⟨r, hr⟩ := ih (fun x hx => hrows x (List.mem_cons_of_mem _ hx)) (i + 1)
      (recordRow i res rv)
    exact ⟨r, by simp only [validateLoop, hrv]; exact hr⟩

theorem applyRule_count (h : Host) (row : Record) (column : String) (rule : Rule)
    (acc acc' : List ValidationError × List ValidationError)
    (hok : applyRule h column (getField row column) acc rule = .ok acc') :
    acc'.1.length + acc'.2.length
      = acc.1.length + acc.2.length + (if ruleFails h row column rule = true then 1 else 0) := by
  unfold applyRule at hok
  unfold ruleFails
  split at hok
  · rename_i hcall
    rw [hcall]
    cases hok
    simp
  · cases hok
  · rename_i hcall
    rw [hcall]
    cases hok
    simp
  · rename_i hcall
    rw [hcall]
    split at hok <;> cases hok <;> simp <;> omega

theorem foldlM_applyRule_count (h : Host) (row : Record) (column : String) (rs : List Rule) :
    ∀ (acc acc' : List ValidationError × List ValidationError),
      rs.foldlM (applyRule h column (getField row column)) acc = .ok acc' →
      acc'.1.length + acc'.2.length
        = acc.1.length + acc.2.length + rs.countP (ruleFails h row column) := by
  induction rs with
  | nil =>
    intro acc acc' hok
    simp only [List.foldlM, pure, Except.pure, Except.ok.injEq] at hok
    subst hok
    simp
  | cons rule rest ih =>
    intro acc acc' hok
    rw [List.foldlM_cons] at hok
    cases hstep : applyRule h column (getField row column) acc rule with
    | error e =>
      rw [hstep] at hok
      cases hok
    | ok mid =>
      rw [hstep] at hok
      have h1 := applyRule_count h row column rule acc mid hstep
      have h2 := ih mid acc' hok
      rw [h2, h1, List.countP_cons]
      omega

theorem validateRow_count_aux (h : Host) (row : Record) (rules : RuleSet) :
    ∀ (acc acc' : List ValidationError × List ValidationError),
      rules.foldlM (applyColumn h row) acc = .ok acc' →
      acc'.1.length + acc'.2.length
        = acc.1.length + acc.2.length + failingPairs h rules row := by
  induction rules with
  | nil =>
    intro acc acc' hok
    simp only [List.foldlM, pure, Except.pure, Except.ok.injEq] at hok
    subst hok
    simp [failingPairs]
  | cons entry rest ih =>
    intro acc acc' hok
    rw [List.foldlM_cons] at hok
    cases hstep : applyColumn h row acc entry with
    | error e =>
      rw [hstep] at hok
      cases hok
    | ok mid =>
      rw [hstep] at hok
      have h1 := foldlM_applyRule_count h row entry.1 entry.2 acc mid hstep
      have h2 := ih mid acc' hok
      rw [h2, h1]
      simp only [failingPairs, List.map_cons, List.sum_cons]
      omega

theorem validateRow_count (h : Host) (row : Record) (rules : RuleSet)
    (rv : List ValidationError × List ValidationError) (hok : validateRow h row rules = .ok rv) :
    rv.1.length + rv.2.length = failingPairs h rules row := by
  have := validateRow_count_aux h row rules ([], []) rv hok
  simpa using this

theorem loop_lengths (h : Host) (rules : RuleSet) (rows : List Record)
    (hrows : ∀ row ∈ rows, validateRow h row rules = .ok (rowResult h rules row)) :
    ∀ i, (loopErrors h rules i rows).length + (loopWarnings h rules i rows).length
      = failingTriples h rules rows := by
  induction rows with
  | nil => intro i; simp [loopErrors, loopWarnings, failingTriples]
  | cons row rest ih =>
    intro i
    have h1 := validateRow_count h row rules _ (hrows row (List.mem_cons_self _ _))
    have h2 := ih (fun x hx => hrows x (List.mem_cons_of_mem _ hx)) (i + 1)
    simp only [loopErrors, loopWarnings, List.length_append, List.length_map, failingTriples,
      List.map_cons, List.sum_cons]
    simp only [failingTriples] at h2
    omega

theorem loopErrors_index (h : Host) (rules : RuleSet) (rows : List Record) :
    ∀ i, ∀ e ∈ loopErrors h rules i rows,
      ∃ n, e.rowIndex = some n ∧ i + 1 ≤ n ∧ n ≤ i + rows.length := by
  induction rows with
  | nil => intro i e he; simp [loopErrors] at he
  | cons row rest ih =>
    intro i e he
    simp only [loopErrors, List.mem_append, List.mem_map] at he
    rcases he with ⟨e0, _, rfl⟩ | he
    · exact ⟨i + 1, rfl, by omega, by simp⟩
    · obtain ⟨n, hn, h1, h2⟩ := ih (i + 1) e he
      exact ⟨n, hn, by omega, by simp only [List.length_cons]; omega⟩

theorem loopWarnings_index (h : Host) (rules : RuleSet) (rows : List Record) :
    ∀ i, ∀ e ∈ loopWarnings h rules i rows,
      ∃ n, e.rowIndex = some n ∧ i + 1 ≤ n ∧ n ≤ i + rows.length := by
  induction rows with
  | nil => intro i e he; simp [loopWarnings] at he
  | cons row rest ih =>
    intro i e he
    simp only [loopWarnings, List.mem_append, List.mem_map] at he
    rcases he with ⟨e0, _, rfl⟩ | he
    · exact ⟨i + 1, rfl, by omega, by simp⟩
    · obtain ⟨n, hn, h1, h2⟩ := ih (i + 1) e he
      exact ⟨n, hn, by omega, by simp only [List.length_cons]; omega⟩

theorem loopErrors_sorted (h : Host) (rules : RuleSet) (rows : List Record) :
    ∀ i, (loopErrors h rules i rows).Pairwise
      (fun a b => a.rowIndex.getD 0 ≤ b.rowIndex.getD 0) := by
  induction rows with
  | nil => intro i; simp [loopErrors]
  | cons row rest ih =>
    intro i
    simp only [loopErrors]
    rw [List.pairwise_append]
    refine ⟨?_, ih (i + 1), ?_⟩
    · rw [List.pairwise_map]
      exact List.pairwise_of_forall (fun _ _ => by simp [setRowIndex])
    · intro a ha b hb
      obtain ⟨a0, _, rfl⟩ := List.mem_map.mp ha
      obtain ⟨n, hn, h1, _⟩ := loopErrors_index h rules rest (i + 1) b hb
      simp only [setRowIndex, hn, Option.getD_some]
      omega

theorem loopWarnings_sorted (h : Host) (rules : RuleSet) (rows : List Record) :
    ∀ i, (loopWarnings h rules i rows).Pairwise
      (fun a b => a.rowIndex.getD 0 ≤ b.rowIndex.getD 0) := by
  induction rows with
  | nil => intro i; simp [loopWarnings]
  | cons row rest ih =>
    intro i
    simp only [loopWarnings]
    rw [List.pairwise_append]
    refine ⟨?_, ih (i + 1), ?_⟩
    · rw [List.pairwise_map]
      exact List.pairwise_of_forall (fun _ _ => by simp [setRowIndex])
    · intro a ha b hb
      obtain ⟨a0, _, rfl⟩ := List.mem_map.mp ha
      obtain ⟨n, hn, h1, _⟩ := loopWarnings_index h rules rest (i + 1) b hb
      simp only [setRowIndex, hn, Option.getD_some]
      omega

/-- C12: in a report returned by `validateDataset` the errors and the warnings are the
entries of the rows in row order, each stamped with the 1-based index of its row; together
they are as many as the (row, column, rule) triples whose validator returns false, so no
rule is short-circuited; `totalErrors` and `totalWarnings` are the lengths of the two lists;
and the row indices lie in `1..rows.length` and never decrease along either list. -/
theorem validateDataset_entries (h : Host) (rows : List Record) (rules : RuleSet) (r : Report)
    (hr : validateDataset h rows rules = .ok r) :
    r.errors = loopErrors h rules 0 rows ∧
    r.warnings = loopWarnings h rules 0 rows ∧
    r.errors.length + r.warnings.length = failingTriples h rules rows ∧
    r.totalErrors = r.errors.length ∧
    r.totalWarnings = r.warnings.length ∧
    (∀ e ∈ r.errors ++ r.warnings, ∃ n, e.rowIndex = some n ∧ 1 ≤ n ∧ n ≤ rows.length) ∧
    r.errors.Pairwise (fun a b => a.rowIndex.getD 0 ≤ b.rowIndex.getD 0) ∧
    r.warnings.Pairwise (fun a b => a.rowIndex.getD 0 ≤ b.rowIndex.getD 0) := by
  obtain ⟨hrows, heq⟩ := validateLoop_eq h rules rows 0 _ r hr
  subst heq
  simp only [List.nil_append, Nat.zero_add]
  refine ⟨trivial, trivial, loop_lengths h rules rows hrows 0, trivial, trivial, ?_,
    loopErrors_sorted h rules rows 0, loopWarnings_sorted h rules rows 0⟩
  intro e he
  rcases List.mem_append.mp he with he | he
  · obtain ⟨n, hn, h1, h2⟩ := loopErrors_index h rules rows 0 e he
    exact ⟨n, hn, by omega, by omega⟩
  · obtain ⟨n, hn, h1, h2⟩ := loopWarnings_index h rules rows 0 e he
    exact ⟨n, hn, by omega, by omega⟩

/-- C12, on the rows and rules of Scenario A. -/
theorem validateDataset_entries_witness :
    scenarioAReport.errors = loopErrors exampleHost scenarioARules 0 scenarioARows ∧
    scenarioAReport.warnings = loopWarnings exampleHost scenarioARules 0 scenarioARows ∧
    scenarioAReport.errors.length + scenarioAReport.warnings.length
      = failingTriples exampleHost scenarioARules scenarioARows ∧
    scenarioAReport.totalErrors = scenarioAReport.errors.length ∧
    scenarioAReport.totalWarnings = scenarioAReport.warnings.length ∧
    (∀ e ∈ scenarioAReport.errors ++ scenarioAReport.warnings,
      ∃ n, e.rowIndex = some n ∧ 1 ≤ n ∧ n ≤ scenarioARows.length) ∧
    scenarioAReport.errors.Pairwise (fun a b => a.rowIndex.getD 0 ≤ b.rowIndex.getD 0) ∧
    scenarioAReport.warnings.Pairwise (fun a b => a.rowIndex.getD 0 ≤ b.rowIndex.getD 0) :=
  validateDataset_entries exampleHost scenarioARows scenarioARules scenarioAReport
    (validateDataset_scenarioA exampleHost)

/-! ## Validation in batches -/

theorem loopErrors_append (h : Host) (rules : RuleSet) (a b : List Record) :
    ∀ i, loopErrors h rules i (a ++ b)
      = loopErrors h rules i a ++ loopErrors h rules (i + a.length) b := by
  induction a with
  | nil => intro i; simp [loopErrors]
  | cons row rest ih =>
    intro i
    show loopErrors h rules i (row :: (rest ++ b)) = _
    rw [loopErrors, loopErrors, ih, List.append_assoc, List.length_cons,
      show i + 1 + rest.length = i + (rest.length + 1) by omega]

theorem loopWarnings_append (h : Host) (rules : RuleSet) (a b : List Record) :
    ∀ i, loopWarnings h rules i (a ++ b)
      = loopWarnings h rules i a ++ loopWarnings h rules (i + a.length) b := by
  induction a with
  | nil => intro i; simp [loopWarnings]
  | cons row rest ih =>
    intro i
    show loopWarnings h rules i (row :: (rest ++ b)) = _
    rw [loopWarnings, loopWarnings, ih, List.append_assoc, List.length_cons,
      show i + 1 + rest.length = i + (rest.length + 1) by omega]

theorem loopErrors_shift (h : Host) (rules : RuleSet) (rows : List Record) :
    ∀ i j, (loopErrors h rules i rows).length = (loopErrors h rules j rows).length ∧
      ∀ column, columnCount column (loopErrors h rules i rows)
        = columnCount column (loopErrors h rules j rows) := by
  induction rows with
  | nil => intro i j; simp [loopErrors]
  | cons row rest ih =>
    intro i j
    obtain ⟨h1, h2⟩ := ih (i + 1) (j + 1)
    simp only [loopErrors, List.length_append, List.length_map, columnCount_append,
      columnCount_setRowIndex, h1]
    exact ⟨trivial, fun column => by rw [h2 column]⟩

theorem loopWarnings_shift (h : Host) (rules : RuleSet) (rows : List Record) :
    ∀ i j, (loopWarnings h rules i rows).length = (loopWarnings h rules j rows).length ∧
      ∀ column, columnCount column (loopWarnings h rules i rows)
        = columnCount column (loopWarnings h rules j rows) := by
  induction rows with
  | nil => intro i j; simp [loopWarnings]
  | cons row rest ih =>
    intro i j
    obtain ⟨h1, h2⟩ := ih (i + 1) (j + 1)
    simp only [loopWarnings, List.length_append, List.length_map, columnCount_append,
      columnCount_setRowIndex, h1]
    exact ⟨trivial, fun column => by rw [h2 column]⟩

theorem addSummaries_addToSummary (init : List (String × ColumnSummary))
    (e1 w1 e2 w2 e w : List ValidationError)
    (hinit : ∀ kv ∈ init, kv.2 = ⟨0, 0, 0⟩)
    (he : ∀ column, columnCount column e = columnCount column e1 + columnCount column e2)
    (hw : ∀ column, columnCount column w = columnCount column w1 + columnCount column w2) :
    addToSummary init e w = addSummaries (addToSummary init e1 w1) (addToSummary init e2 w2) := by
  unfold addSummaries addToSummary
  induction init with
  | nil => rfl
  | cons kv rest ih =>
    have h0 := hinit kv (List.mem_cons_self _ _)
    simp only [List.map_cons, List.zipWith_cons_cons, List.cons.injEq, Prod.mk.injEq,
      ColumnSummary.mk.injEq, true_and]
    refine ⟨?_, ih (fun x hx => hinit x (List.mem_cons_of_mem _ hx))⟩
    rw [he, hw, h0]
    simp

/-- C13: when `validateDataset` returns a report for `a` and for `b`, it returns one for
`a ++ b`, whose `totalRows`, `validRows`, `invalidRows`, `totalErrors`, `totalWarnings` and
per-column summary counts are the sums of those of the two reports. -/
theorem validateDataset_append (h : Host) (rules : RuleSet) (a b : List Record)
    (ra rb : Report) (ha : validateDataset h a rules = .ok ra)
    (hb : validateDataset h b rules = .ok rb) :
    ∃ rab, validateDataset h (a ++ b) rules = .ok rab ∧
      rab.totalRows = ra.totalRows + rb.totalRows ∧
      rab.validRows = ra.validRows + rb.validRows ∧
      rab.invalidRows = ra.invalidRows + rb.invalidRows ∧
      rab.totalErrors = ra.totalErrors + rb.totalErrors ∧
      rab.totalWarnings = ra.totalWarnings + rb.totalWarnings ∧
      rab.summary = addSummaries ra.summary rb.summary := by
  obtain ⟨hra, hea⟩ := validateLoop_eq h rules a 0 _ ra ha
  obtain ⟨hrb, heb⟩ := validateLoop_eq h rules b 0 _ rb hb
  have hall : ∀ row ∈ a ++ b, ∃ rv, validateRow h row rules = .ok rv := by
    intro row hrow
    rcases List.mem_append.mp hrow with hrow | hrow
    · exact ⟨_, hra row hrow⟩
    · exact ⟨_, hrb row hrow⟩
  obtain ⟨rab, hab⟩ := validateLoop_returns h rules (a ++ b) hall 0
    { totalRows := (a ++ b).length, validRows := 0, invalidRows := 0, totalErrors := 0,
      totalWarnings := 0, errors := [], warnings := [],
      summary := rules.map fun kv => (kv.1, ⟨0, 0, 0⟩) }
  obtain ⟨_, heab⟩ := validateLoop_eq h rules (a ++ b) 0 _ rab hab
  refine ⟨rab, hab, ?_⟩
  subst hea heb heab
  obtain ⟨l1, c1⟩ := loopErrors_shift h rules b (0 + a.length) 0
  obtain ⟨l2, c2⟩ := loopWarnings_shift h rules b (0 + a.length) 0
  simp only [loopErrors_append, loopWarnings_append, List.length_append, List.countP_append,
    l1, l2]
  refine ⟨trivial, by omega, by omega, by omega, by omega, ?_⟩
  apply addSummaries_addToSummary
  · intro kv hkv
    obtain ⟨x, _, rfl⟩ := List.mem_map.mp hkv
    rfl
  · intro column
    rw [columnCount_append, c1]
  · intro column
    rw [columnCount_append, c2]

/-- C13, on the rows of Scenario A split after the first row. -/
theorem validateDataset_append_witness :
    ∃ ra rb rab,
      validateDataset exampleHost [[("age", .str "30")]] scenarioARules = .ok ra ∧
      validateDataset exampleHost [[("age", .str "forty")], [("age", .str "")]] scenarioARules
        = .ok rb ∧
      validateDataset exampleHost ([[("age", .str "30")]]
        ++ [[("age", .str "forty")], [("age", .str "")]]) scenarioARules = .ok rab ∧
      rab.totalRows = ra.totalRows + rb.totalRows ∧
      rab.validRows = ra.validRows + rb.validRows ∧
      rab.invalidRows = ra.invalidRows + rb.invalidRows ∧
      rab.totalErrors = ra.totalErrors + rb.totalErrors ∧
      rab.totalWarnings = ra.totalWarnings + rb.totalWarnings ∧
      rab.summary = addSummaries ra.summary rb.summary := by
  have hoka : (validateDataset exampleHost [[("age", .str "30")]] scenarioARules).isOk = true := by
    decide
  have hokb : (validateDataset exampleHost [[("age", .str "forty")], [("age", .str "")]]
      scenarioARules).isOk = true := by
    decide
  cases ha : validateDataset exampleHost [[("age", .str "30")]] scenarioARules with
  | error e => rw [ha] at hoka; cases hoka
  | ok ra =>
    cases hb : validateDataset exampleHost [[("age", .str "forty")], [("age", .str "")]]
        scenarioARules with
    | error e => rw [hb] at hokb; cases hokb
    | ok rb =>
      obtain ⟨rab, hab, hrest⟩ := validateDataset_append exampleHost scenarioARules _ _ ra rb ha hb
      exact ⟨ra, rb, rab, rfl, rfl, hab, hrest⟩

/-! ## Rules of unknown kind -/

theorem callValidator_unknown (h : Host) (rule : Rule) (value params : JSValue)
    (hu : isUnknownKind h rule = true) :
    callValidator h (toStr h rule.type) value params = none := by
  unfold isUnknownKind at hu
  simp only [Bool.and_eq_true, Bool.not_eq_true', validatorKeys, inheritedKeys,
    List.contains_eq_any_beq, List.any_cons, List.any_nil, Bool.or_false, Bool.or_eq_false_iff,
    beq_eq_false_iff_ne, ne_eq] at hu
  obtain ⟨⟨a1, a2, a3, a4, a5, a6, a7, a8, a9, a10, a11⟩,
    b1, b2, b3, b4, b5, b6, b7, b8, b9, b10, b11, b12⟩ := hu
  unfold callValidator
  simp only [a1, a2, a3, a4, a5, a6, a7, a8, a9, a10, a11, b1, b2, b3, b4, b5, b6, b7, b8, b9,
    b10, b11, b12, if_false, or_self]

theorem applyRule_unknown (h : Host) (column : String) (value : JSValue)
    (acc : List ValidationError × List ValidationError) (rule : Rule)
    (hu : isUnknownKind h rule = true) : applyRule h column value acc rule = .ok acc := by
  unfold applyRule
  rw [callValidator_unknown h rule value _ hu]

theorem foldlM_applyRule_filter (h : Host) (column : String) (value : JSValue) (rs : List Rule) :
    ∀ acc : List ValidationError × List ValidationError,
      (rs.filter fun rule => !isUnknownKind h rule).foldlM (applyRule h column value) acc
        = rs.foldlM (applyRule h column value) acc := by
  induction rs with
  | nil => intro acc; rfl
  | cons rule rest ih =>
    intro acc
    by_cases hu : isUnknownKind h rule = true
    · rw [List.filter_cons_of_neg (by simp [hu]), List.foldlM_cons,
        applyRule_unknown h column value acc rule hu]
      exact ih acc
    · rw [List.filter_cons_of_pos (by simp [hu]), List.foldlM_cons, List.foldlM_cons]
      cases applyRule h column value acc rule with
      | error e => rfl
      | ok mid => exact ih mid

theorem validateRow_dropUnknown (h : Host) (row : Record) (rules : RuleSet) :
    validateRow h row (dropUnknown h rules) = validateRow h row rules := by
  unfold validateRow
  generalize (([], []) : List ValidationError × List ValidationError) = acc
  induction rules generalizing acc with
  | nil => rfl
  | cons entry rest ih =>
    simp only [dropUnknown, List.map_cons, List.foldlM_cons]
    have hcol : applyColumn h row acc (entry.1, entry.2.filter fun rule => !isUnknownKind h rule)
        = applyColumn h row acc entry := by
      unfold applyColumn
      exact foldlM_applyRule_filter h entry.1 _ entry.2 acc
    rw [hcol]
    cases applyColumn h row acc entry with
    | error e => rfl
    | ok mid => exact ih mid

theorem validateLoop_congr_rules (h : Host) (rules rules' : RuleSet) (rows : List Record)
    (hrows : ∀ row, validateRow h row rules = validateRow h row rules') :
    ∀ (i : Nat) (res : Report),
      validateLoop h rules i rows res = validateLoop h rules' i rows res := by
  induction rows with
  | nil => intro i res; rfl
  | cons row rest ih =>
    intro i res
    simp only [validateLoop, hrows row]
    split
    · rfl
    · exact ih _ _

/-- Rules whose kind is neither a key of `validators` nor a member inherited from
`Object.prototype` are skipped: removing them from the lists of their columns changes
neither the report nor the exception of `validateDataset`. -/
theorem validateDataset_dropUnknown (h : Host) (rows : List Record) (rules : RuleSet) :
    validateDataset h rows (dropUnknown h rules) = validateDataset h rows rules := by
  unfold validateDataset
  rw [validateLoop_congr_rules h (dropUnknown h rules) rules rows
    (fun row => validateRow_dropUnknown h row rules)]
  have hkeys : (dropUnknown h rules).map (fun kv => (kv.1, (⟨0, 0, 0⟩ : ColumnSummary)))
      = rules.map (fun kv => (kv.1, (⟨0, 0, 0⟩ : ColumnSummary))) := by
    unfold dropUnknown
    rw [List.map_map]
    rfl
  rw [hkeys]

/-- C11 fails on the code: `hasOwnProperty` is not a built-in validator kind, yet a rule of
that kind is not skipped, because `validators[type]` finds the member inherited from
`Object.prototype`: it records an error, so the report differs from the one obtained with
the rule removed; and a rule of kind `__proto__` makes `validateDataset` throw. -/
theorem validateDataset_inherited_kind (h : Host) :
    validatorKeys.contains "hasOwnProperty" = false ∧
    validatorKeys.contains "__proto__" = false ∧
    validateDataset h statusRows [("status", [plainRule "hasOwnProperty" .undefined])]
      = .ok inheritedKindReport ∧
    validateDataset h statusRows [("status", [])] = .ok noRuleReport ∧
    inheritedKindReport.totalErrors = 1 ∧
    noRuleReport.totalErrors = 0 ∧
    validateDataset h statusRows [("status", [plainRule "__proto__" .undefined])]
      = .error (.typeError "validators[type] is not a function") :=
  ⟨by decide, by decide, rfl, rfl, rfl, rfl, rfl⟩

/-! ## The order of the numbers -/

theorem jsLt_iff_toExt (x y : JSNum) (hx : x.isNaN = false) (hy : y.isNaN = false) :
    jsLt x y = true ↔ x.toExt < y.toExt := by
  cases x with
  | nan => cases hx
  | negInf =>
    cases y with
    | nan => cases hy
    | negInf => simp [jsLt, JSNum.toExt]
    | posInf => simp [jsLt, JSNum.toExt]
    | fin m e =>
      simp only [jsLt, JSNum.toExt]
      exact iff_of_true trivial (WithBot.bot_lt_coe _)
  | posInf =>
    cases y with
    | nan => cases hy
    | negInf => simp [jsLt, JSNum.toExt]
    | posInf => simp [jsLt, JSNum.toExt]
    | fin m e =>
      simp only [jsLt, JSNum.toExt]
      refine iff_of_false (by simp) ?_
      rw [WithBot.coe_lt_coe]
      exact not_top_lt
  | fin m e =>
    cases y with
    | nan => cases hy
    | negInf =>
      simp only [jsLt, JSNum.toExt]
      exact iff_of_false (by simp) (not_lt_bot)
    | posInf =>
      simp only [jsLt, JSNum.toExt]
      exact iff_of_true trivial (WithBot.coe_lt_coe.mpr (WithTop.coe_lt_top _))
    | fin m2 e2 =>
      simp only [jsLt, JSNum.toExt]
      rw [finLt_iff, WithBot.coe_lt_coe, WithTop.coe_lt_coe]

theorem jsEq_iff_toExt (x y : JSNum) (hx : x.isNaN = false) (hy : y.isNaN = false) :
    jsEq x y = true ↔ x.toExt = y.toExt := by
  cases x with
  | nan => cases hx
  | negInf =>
    cases y with
    | nan => cases hy
    | negInf => simp [jsEq, JSNum.toExt]
    | posInf => simp [jsEq, JSNum.toExt]
    | fin m e =>
      simp only [jsEq, JSNum.toExt]
      exact iff_of_false (by simp) WithBot.bot_ne_coe
  | posInf =>
    cases y with
    | nan => cases hy
    | negInf => simp [jsEq, JSNum.toExt]
    | posInf => simp [jsEq, JSNum.toExt]
    | fin m e =>
      simp only [jsEq, JSNum.toExt]
      refine iff_of_false (by simp) ?_
      rw [WithBot.coe_inj]
      exact WithTop.top_ne_coe
  | fin m e =>
    cases y with
    | nan => cases hy
    | negInf =>
      simp only [jsEq, JSNum.toExt]
      exact iff_of_false (by simp) WithBot.coe_ne_bot
    | posInf =>
      simp only [jsEq, JSNum.toExt]
      refine iff_of_false (by simp) ?_
      rw [WithBot.coe_inj]
      exact WithTop.coe_ne_top
    | fin m2 e2 =>
      simp only [jsEq, JSNum.toExt, Bool.and_eq_true, Bool.not_eq_true']
      rw [← Bool.not_eq_true, ← Bool.not_eq_true, finLt_iff, finLt_iff, WithBot.coe_inj,
        WithTop.coe_inj]
      constructor
      · intro ⟨h1, h2⟩
        exact le_antisymm (not_lt.mp h2) (not_lt.mp h1)
      · intro heq
        rw [heq]
        exact ⟨lt_irrefl _, lt_irrefl _⟩

theorem jsLe_iff_toExt (x y : JSNum) (hx : x.isNaN = false) (hy : y.isNaN = false) :
    jsLe x y = true ↔ x.toExt ≤ y.toExt := by
  unfold jsLe
  rw [Bool.or_eq_true, jsLt_iff_toExt x y hx hy, jsEq_iff_toExt x y hx hy, le_iff_lt_or_eq]

theorem toExt_eq_top (x : JSNum) (hx : x.isNaN = false)
    (htop : x.toExt = ((⊤ : WithTop ℚ) : WithBot (WithTop ℚ))) : x = .posInf := by
  cases x with
  | nan => cases hx
  | negInf => exact absurd htop WithBot.bot_ne_coe
  | posInf => rfl
  | fin m e =>
    simp only [JSNum.toExt] at htop
    rw [WithBot.coe_inj] at htop
    exact absurd htop WithTop.coe_ne_top

theorem toExt_eq_bot (x : JSNum) (hx : x.isNaN = false) (hbot : x.toExt = ⊥) : x = .negInf := by
  cases x with
  | nan => cases hx
  | negInf => rfl
  | posInf => exact absurd hbot WithBot.coe_ne_bot
  | fin m e => exact absurd hbot WithBot.coe_ne_bot

theorem foldl_min_spec (xs : List JSNum) (hxs : ∀ x ∈ xs, x.isNaN = false) :
    ∀ acc : JSNum, acc.isNaN = false →
      (xs.foldl (fun acc x =>
          if acc.isNaN || x.isNaN then JSNum.nan else if jsLt x acc then x else acc) acc).isNaN
        = false ∧
      ((xs.foldl (fun acc x =>
          if acc.isNaN || x.isNaN then JSNum.nan else if jsLt x acc then x else acc) acc) = acc ∨
        (xs.foldl (fun acc x =>
          if acc.isNaN || x.isNaN then JSNum.nan else if jsLt x acc then x else acc) acc) ∈ xs) ∧
      (xs.foldl (fun acc x =>
          if acc.isNaN || x.isNaN then JSNum.nan else if jsLt x acc then x else acc) acc).toExt
        ≤ acc.toExt ∧
      ∀ x ∈ xs, (xs.foldl (fun acc x =>
          if acc.isNaN || x.isNaN then JSNum.nan else if jsLt x acc then x else acc) acc).toExt
        ≤ x.toExt := by
  induction xs with
  | nil => intro acc hacc; simp [hacc]
  | cons a rest ih =>
    intro acc hacc
    have ha := hxs a (List.mem_cons_self _ _)
    have hrest : ∀ x ∈ rest, x.isNaN = false := fun x hx => hxs x (List.mem_cons_of_mem _ hx)
    simp only [List.foldl_cons, hacc, ha, Bool.or_self, Bool.false_eq_true, if_false]
    by_cases hlt : jsLt a acc = true
    · simp only [hlt, if_true]
      obtain ⟨h1, h2, h3, h4⟩ := ih hrest a ha
      have hlt' := (jsLt_iff_toExt a acc ha hacc).mp hlt
      refine ⟨h1, ?_, le_trans h3 (le_of_lt hlt'), ?_⟩
      · rcases h2 with h2 | h2
        · exact Or.inr (by rw [h2]; exact List.mem_cons_self _ _)
        · exact Or.inr (List.mem_cons_of_mem _ h2)
      · intro x hx
        rcases List.mem_cons.mp hx with rfl | hx
        · exact h3
        · exact h4 x hx
    · simp only [hlt, Bool.false_eq_true, if_false]
      obtain ⟨h1, h2, h3, h4⟩ := ih hrest acc hacc
      have hge : acc.toExt ≤ a.toExt := by
        rw [← not_lt, ← jsLt_iff_toExt a acc ha hacc]
        exact hlt
      refine ⟨h1, ?_, h3, ?_⟩
      · rcases h2 with h2 | h2
        · exact Or.inl h2
        · exact Or.inr (List.mem_cons_of_mem _ h2)
      · intro x hx
        rcases List.mem_cons.mp hx with rfl | hx
        · exact le_trans h3 hge
        · exact h4 x hx

theorem foldl_max_spec (xs : List JSNum) (hxs : ∀ x ∈ xs, x.isNaN = false) :
    ∀ acc : JSNum, acc.isNaN = false →
      (xs.foldl (fun acc x =>
          if acc.isNaN || x.isNaN then JSNum.nan else if jsLt acc x then x else acc) acc).isNaN
        = false ∧
      ((xs.foldl (fun acc x =>
          if acc.isNaN || x.isNaN then JSNum.nan else if jsLt acc x then x else acc) acc) = acc ∨
        (xs.foldl (fun acc x =>
          if acc.isNaN || x.isNaN then JSNum.nan else if jsLt acc x then x else acc) acc) ∈ xs) ∧
      acc.toExt ≤ (xs.foldl (fun acc x =>
          if acc.isNaN || x.isNaN then JSNum.nan else if jsLt acc x then x else acc) acc).toExt ∧
      ∀ x ∈ xs, x.toExt ≤ (xs.foldl (fun acc x =>
          if acc.isNaN || x.isNaN then JSNum.nan else if jsLt acc x then x else acc) acc).toExt := by
  induction xs with
  | nil => intro acc hacc; simp [hacc]
  | cons a rest ih =>
    intro acc hacc
    have ha := hxs a (List.mem_cons_self _ _)
    have hrest : ∀ x ∈ rest, x.isNaN = false := fun x hx => hxs x (List.mem_cons_of_mem _ hx)
    simp only [List.foldl_cons, hacc, ha, Bool.or_self, Bool.false_eq_true, if_false]
    by_cases hlt : jsLt acc a = true
    · simp only [hlt, if_true]
      obtain ⟨h1, h2, h3, h4⟩ := ih hrest a ha
      have hlt' := (jsLt_iff_toExt acc a hacc ha).mp hlt
      refine ⟨h1, ?_, le_trans (le_of_lt hlt') h3, ?_⟩
      · rcases h2 with h2 | h2
        · exact Or.inr (by rw [h2]; exact List.mem_cons_self _ _)
        · exact Or.inr (List.mem_cons_of_mem _ h2)
      · intro x hx
        rcases List.mem_cons.mp hx with rfl | hx
        · exact h3
        · exact h4 x hx
    · simp only [hlt, Bool.false_eq_true, if_false]
      obtain ⟨h1, h2, h3, h4⟩ := ih hrest acc hacc
      have hge : a.toExt ≤ acc.toExt := by
        rw [← not_lt, ← jsLt_iff_toExt acc a hacc ha]
        exact hlt
      refine ⟨h1, ?_, h3, ?_⟩
      · rcases h2 with h2 | h2
        · exact Or.inl h2
        · exact Or.inr (List.mem_cons_of_mem _ h2)
      · intro x hx
        rcases List.mem_cons.mp hx with rfl | hx
        · exact le_trans hge h3
        · exact h4 x hx

/-- The result of `Math.min` on a non-empty list without `NaN` is an element of the list
that is at most every element. -/
theorem mathMin_spec (xs : List JSNum) (hxs : ∀ x ∈ xs, x.isNaN = false) (hne : xs ≠ []) :
    (mathMin xs).isNaN = false ∧ mathMin xs ∈ xs ∧ ∀ x ∈ xs, (mathMin xs).toExt ≤ x.toExt := by
  obtain ⟨h1, h2, _, h4⟩ := foldl_min_spec xs hxs .posInf rfl
  refine ⟨h1, ?_, h4⟩
  rcases h2 with h2 | h2
  · obtain ⟨a, rest, rfl⟩ := List.exists_cons_of_ne_nil hne
    have hle := h4 a (List.mem_cons_self _ _)
    have ha := hxs a (List.mem_cons_self _ _)
    have htop : a.toExt = ((⊤ : WithTop ℚ) : WithBot (WithTop ℚ)) := by
      rw [h2] at hle
      refine le_antisymm ?_ hle
      cases a with
      | nan => cases ha
      | negInf => exact bot_le
      | posInf => exact le_refl _
      | fin m e => exact WithBot.coe_le_coe.mpr le_top
    have hpos := toExt_eq_top a ha htop
    have hm : mathMin (a :: rest) = JSNum.posInf := h2
    rw [hm, ← hpos]
    exact List.mem_cons_self _ _
  · exact h2

/-- The result of `Math.max` on a non-empty list without `NaN` is an element of the list
that is at least every element. -/
theorem mathMax_spec (xs : List JSNum) (hxs : ∀ x ∈ xs, x.isNaN = false) (hne : xs ≠ []) :
    (mathMax xs).isNaN = false ∧ mathMax xs ∈ xs ∧ ∀ x ∈ xs, x.toExt ≤ (mathMax xs).toExt := by
  obtain ⟨h1, h2, _, h4⟩ := foldl_max_spec xs hxs .negInf rfl
  refine ⟨h1, ?_, h4⟩
  rcases h2 with h2 | h2
  · obtain ⟨a, rest, rfl⟩ := List.exists_cons_of_ne_nil hne
    have hle := h4 a (List.mem_cons_self _ _)
    have ha := hxs a (List.mem_cons_self _ _)
    have hbot : a.toExt = ⊥ := by
      rw [h2] at hle
      exact le_antisymm hle bot_le
    have hneg := toExt_eq_bot a ha hbot
    have hm : mathMax (a :: rest) = JSNum.negInf := h2
    rw [hm, ← hneg]
    exact List.mem_cons_self _ _
  · exact h2

/-! ## The rule set built by `generateValidationRules` -/

theorem generate_foldlM (h : Host) (analysis : List (String × ColumnProfile)) :
    ∀ (acc rules : RuleSet), analysis.foldlM (generateStep h) acc = .ok rules →
      (∀ entry ∈ analysis, columnRulesOf h entry.1 entry.2 = .ok (columnRulesOr h entry)) ∧
      rules = acc ++ (analysis.map fun entry => (entry.1, columnRulesOr h entry)).filter
        (fun kv => decide (0 < kv.2.length)) := by
  induction analysis with
  | nil =>
    intro acc rules hok
    simp only [List.foldlM, pure, Except.pure, Except.ok.injEq] at hok
    subst hok
    simp
  | cons entry rest ih =>
    intro acc rules hok
    rw [List.foldlM_cons] at hok
    cases hstep : generateStep h acc entry with
    | error e =>
      rw [hstep] at hok
      cases hok
    | ok mid =>
      rw [hstep] at hok
      obtain ⟨hall, heq⟩ := ih mid rules hok
      unfold generateStep at hstep
      cases hcol : columnRulesOf h entry.1 entry.2 with
      | error e =>
        rw [hcol] at hstep
        cases hstep
      | ok columnRules =>
        rw [hcol] at hstep
        simp only [Except.ok.injEq] at hstep
        have hor : columnRulesOr h entry = columnRules := by
          unfold columnRulesOr
          rw [hcol]
        refine ⟨?_, ?_⟩
        · intro x hx
          rcases List.mem_cons.mp hx with rfl | hx
          · rw [hor]
            exact hcol
          · exact hall x hx
        · rw [heq, ← hstep, List.map_cons, hor]
          by_cases hlen : 0 < columnRules.length
          · rw [if_pos hlen, List.filter_cons_of_pos (by simpa using hlen)]
            simp
          · rw [if_neg hlen, List.filter_cons_of_neg (by simpa using hlen)]

theorem rulesFor_filter (l : List (String × List Rule)) (hkeys : (l.map Prod.fst).Nodup)
    (key : String) (rs : List Rule) (hmem : (key, rs) ∈ l) :
    rulesFor (l.filter fun kv => decide (0 < kv.2.length)) key = rs := by
  induction l with
  | nil => cases hmem
  | cons kv rest ih =>
    rw [List.map_cons, List.nodup_cons] at hkeys
    obtain ⟨hnot, hnodup⟩ := hkeys
    rcases List.mem_cons.mp hmem with heq | hin
    · subst heq
      by_cases hlen : 0 < rs.length
      · rw [List.filter_cons_of_pos (by simpa using hlen)]
        simp [rulesFor]
      · rw [List.filter_cons_of_neg (by simpa using hlen)]
        have hnone : (rest.filter fun kv => decide (0 < kv.2.length)).find?
            (fun kv => kv.1 == key) = none := by
          rw [List.find?_eq_none]
          intro x hx
          have hx' := (List.mem_filter.mp hx).1
          simp only [beq_iff_eq]
          intro hk
          exact hnot (List.mem_map.mpr ⟨x, hx', hk⟩)
        unfold rulesFor
        rw [hnone]
        have : rs.length = 0 := by omega
        exact (List.length_eq_zero.mp this).symm
    · have hne : kv.1 ≠ key := by
        intro hk
        exact hnot (List.mem_map.mpr ⟨(key, rs), hin, hk.symm⟩)
      have hih := ih hnodup hin
      by_cases hlen : 0 < kv.2.length
      · rw [List.filter_cons_of_pos (by simpa using hlen)]
        unfold rulesFor at hih ⊢
        rw [List.find?_cons_of_neg _ (by simpa using hne)]
        exact hih
      · rw [List.filter_cons_of_neg (by simpa using hlen)]
        exact hih

/-- The rule list of a column in the generated rule set is the list built for that column
(the column is omitted exactly when that list is empty). -/
theorem rulesFor_generate (h : Host) (analysis : List (String × ColumnProfile)) (rules : RuleSet)
    (hgen : generateValidationRules h analysis = .ok rules)
    (hkeys : (analysis.map Prod.fst).Nodup) (column : String) (p : ColumnProfile)
    (hmem : (column, p) ∈ analysis) :
    columnRulesOf h column p = .ok (rulesFor rules column) := by
  obtain ⟨hall, heq⟩ := generate_foldlM h analysis [] rules hgen
  have hcol := hall (column, p) hmem
  rw [heq, List.nil_append]
  have hk : ((analysis.map fun entry => (entry.1, columnRulesOr h entry)).map Prod.fst).Nodup := by
    rw [List.map_map]
    exact hkeys
  rw [rulesFor_filter _ hk column (columnRulesOr h (column, p))
    (List.mem_map.mpr ⟨(column, p), hmem, rfl⟩)]
  exact hcol

theorem generate_nonempty (h : Host) (analysis : List (String × ColumnProfile)) (rules : RuleSet)
    (hgen : generateValidationRules h analysis = .ok rules) :
    ∀ kv ∈ rules, kv.2 ≠ [] := by
  obtain ⟨_, heq⟩ := generate_foldlM h analysis [] rules hgen
  intro kv hkv
  rw [heq, List.nil_append] at hkv
  have := (List.mem_filter.mp hkv).2
  simp only [decide_eq_true_eq] at this
  exact List.length_pos.mp this

theorem generate_returns (h : Host) (analysis : List (String × ColumnProfile))
    (hall : ∀ entry ∈ analysis, ∃ rs, columnRulesOf h entry.1 entry.2 = .ok rs) :
    ∀ acc : RuleSet, ∃ rules, analysis.foldlM (generateStep h) acc = .ok rules := by
  induction analysis with
  | nil => intro acc; exact ⟨acc, rfl⟩
  | cons entry rest ih =>
    intro acc
    obtain ⟨rs, hrs⟩ := hall entry (List.mem_cons_self _ _)
    rw [List.foldlM_cons]
    unfold generateStep
    rw [hrs]
    exact ih (fun x hx => hall x (List.mem_cons_of_mem _ hx)) _

/-! ## The `required` rule -/

theorem typeRules_kinds (h : Host) (columnName : String) (p : ColumnProfile) (typed : List Rule)
    (hok : typeRules h columnName p = .ok typed) :
    ∀ rule ∈ typed, isString rule.type "required" = false ∧
      isString rule.type "max_length" = false := by
  unfold typeRules at hok
  split_ifs at hok
  · cases hok
    intro rule hrule
    simp only [List.mem_singleton] at hrule
    subst hrule
    exact ⟨rfl, rfl⟩
  · split at hok
    · cases hok
    · cases hok
      intro rule hrule
      unfold numberRules at hrule
      split_ifs at hrule
      · simp only [List.mem_cons, List.mem_singleton, List.not_mem_nil, or_false] at hrule
        rcases hrule with rfl | rfl <;> exact ⟨rfl, rfl⟩
      · cases hrule
      · cases hrule
  · cases hok
    intro rule hrule
    simp only [List.mem_singleton] at hrule
    subst hrule
    exact ⟨rfl, rfl⟩
  · cases hok
    intro rule hrule
    cases hrule

theorem lengthRules_kinds (h : Host) (columnName : String) (p : ColumnProfile)
    (lengths : List Rule) (hok : lengthRules h columnName p = .ok lengths) :
    ∀ rule ∈ lengths, isString rule.type "required" = false ∧
      isString rule.type "min_value" = false ∧ isString rule.type "max_value" = false := by
  unfold lengthRules at hok
  split_ifs at hok
  · split at hok
    · cases hok
    · cases hok
      intro rule hrule
      split_ifs at hrule
      · simp only [List.mem_singleton] at hrule
        subst hrule
        exact ⟨rfl, rfl, rfl⟩
      · cases hrule
  · cases hok
    intro rule hrule
    cases hrule

theorem columnRulesOf_parts (h : Host) (columnName : String) (p : ColumnProfile)
    (rs : List Rule) (hok : columnRulesOf h columnName p = .ok rs) :
    ∃ typed lengths, typeRules h columnName p = .ok typed ∧
      lengthRules h columnName p = .ok lengths ∧
      rs = (if belowTwenty p.nullPercentage then [requiredRule columnName] else [])
        ++ typed ++ lengths := by
  unfold columnRulesOf at hok
  cases ht : typeRules h columnName p with
  | error e => rw [ht] at hok; cases hok
  | ok typed =>
    cases hl : lengthRules h columnName p with
    | error e => rw [ht, hl] at hok; cases hok
    | ok lengths =>
      rw [ht, hl] at hok
      cases hok
      exact ⟨typed, lengths, rfl, rfl, rfl⟩

/-- C14: in the rule set returned by `generateValidationRules`, the rule list of a column
(empty when the column is omitted) contains a `required` rule if and only if the
`nullPercentage` of the column is less than 20, and then that rule is the first of the list. -/
theorem generateValidationRules_required (h : Host) (analysis : List (String × ColumnProfile))
    (rules : RuleSet) (hgen : generateValidationRules h analysis = .ok rules)
    (hkeys : (analysis.map Prod.fst).Nodup) (column : String) (p : ColumnProfile)
    (hmem : (column, p) ∈ analysis) :
    ((∃ rule ∈ rulesFor rules column, isString rule.type "required" = true)
      ↔ belowTwenty p.nullPercentage = true) ∧
    (belowTwenty p.nullPercentage = true →
      (rulesFor rules column).head? = some (requiredRule column)) := by
  have hcol := rulesFor_generate h analysis rules hgen hkeys column p hmem
  obtain ⟨typed, lengths, ht, hl, heq⟩ := columnRulesOf_parts h column p _ hcol
  have hk1 := typeRules_kinds h column p typed ht
  have hk2 := lengthRules_kinds h column p lengths hl
  rw [heq]
  by_cases hb : belowTwenty p.nullPercentage = true
  · simp only [hb, if_true]
    refine ⟨⟨fun _ => trivial, fun _ => ⟨requiredRule column, by simp, rfl⟩⟩, fun _ => rfl⟩
  · simp only [hb, Bool.false_eq_true, if_false, List.nil_append, iff_false, not_exists, not_and,
      false_implies, and_true]
    intro rule hrule
    rcases List.mem_append.mp hrule with hr | hr
    · rw [(hk1 rule hr).1]
      simp
    · rw [(hk2 rule hr).1]
      simp

/-! ## The `min_value` and `max_value` rules -/

theorem sampleNumbers_not_nan (svs : List String) : ∀ x ∈ sampleNumbers svs, x.isNaN = false := by
  intro x hx
  have := (List.mem_filter.mp hx).2
  simpa using this

theorem allEqual_iff (xs : List JSNum) (hxs : ∀ x ∈ xs, x.isNaN = false) (hne : xs ≠ []) :
    allEqual xs = true ↔ jsEq (mathMin xs) (mathMax xs) = true := by
  obtain ⟨hn1, hm1, hle1⟩ := mathMin_spec xs hxs hne
  obtain ⟨hn2, hm2, hle2⟩ := mathMax_spec xs hxs hne
  constructor
  · intro hall
    unfold allEqual at hall
    rw [List.all_eq_true] at hall
    have := hall _ hm1
    rw [List.all_eq_true] at this
    exact this _ hm2
  · intro heq
    rw [jsEq_iff_toExt _ _ hn1 hn2] at heq
    unfold allEqual
    rw [List.all_eq_true]
    intro x hx
    rw [List.all_eq_true]
    intro y hy
    rw [jsEq_iff_toExt _ _ (hxs x hx) (hxs y hy)]
    have hx1 := hle1 x hx
    have hx2 := hle2 x hx
    have hy1 := hle1 y hy
    have hy2 := hle2 y hy
    rw [← heq] at hx2 hy2
    exact (le_antisymm hx2 hx1).trans (le_antisymm hy1 hy2)

theorem filter_bound_numberRules (h : Host) (column : String) (svs : List String) :
    (numberRules h column svs).filter isBoundRule = numberRules h column svs := by
  unfold numberRules
  split_ifs <;> rfl

theorem filter_bound_lengthRules (h : Host) (column : String) (p : ColumnProfile)
    (lengths : List Rule) (hok : lengthRules h column p = .ok lengths) :
    lengths.filter isBoundRule = [] := by
  rw [List.filter_eq_nil_iff]
  intro rule hrule
  have := lengthRules_kinds h column p lengths hok rule hrule
  unfold isBoundRule
  rw [this.2.1, this.2.2]
  simp

theorem filter_bound_required (column : String) (b : Bool) :
    (if b then [requiredRule column] else []).filter isBoundRule = [] := by
  cases b <;> rfl

/-- C15: for a profile of type `number` in the analysis, the `min_value` and `max_value` rules
of the column in the rule set returned by `generateValidationRules` are: none when the
parseable sample values are all equal (a constant sample, or no parseable value); otherwise
exactly one `min_value` rule followed by one `max_value` rule, whose params are the least
and the greatest of the parseable sample values, the former less than the latter. -/
theorem generateValidationRules_bounds (h : Host) (analysis : List (String × ColumnProfile))
    (rules : RuleSet) (hgen : generateValidationRules h analysis = .ok rules)
    (hkeys : (analysis.map Prod.fst).Nodup) (column : String) (p : ColumnProfile)
    (hmem : (column, p) ∈ analysis) (htype : p.type = "number") :
    ∃ svs, p.sampleValues = some svs ∧
      (allEqual (sampleNumbers svs) = true →
        (rulesFor rules column).filter isBoundRule = []) ∧
      (allEqual (sampleNumbers svs) = false →
        ∃ mn ∈ sampleNumbers svs, ∃ mx ∈ sampleNumbers svs,
          (∀ x ∈ sampleNumbers svs, jsLe mn x = true ∧ jsLe x mx = true) ∧
          jsLt mn mx = true ∧
          (rulesFor rules column).filter isBoundRule
            = [minValueRule h column mn, maxValueRule h column mx] ∧
          (minValueRule h column mn).params = .num mn ∧
          (maxValueRule h column mx).params = .num mx) := by
  have hcol := rulesFor_generate h analysis rules hgen hkeys column p hmem
  obtain ⟨typed, lengths, ht, hl, heq⟩ := columnRulesOf_parts h column p _ hcol
  unfold typeRules at ht
  rw [if_neg (by rw [htype]; decide), if_pos htype] at ht
  cases hs : p.sampleValues with
  | none =>
    rw [hs] at ht
    cases ht
  | some svs =>
    rw [hs] at ht
    simp only [Except.ok.injEq] at ht
    refine ⟨svs, rfl, ?_⟩
    have hfilter : (rulesFor rules column).filter isBoundRule = numberRules h column svs := by
      rw [heq, List.filter_append, List.filter_append, filter_bound_required,
        filter_bound_lengthRules h column p lengths hl, ← ht, filter_bound_numberRules]
      simp
    rw [hfilter]
    have hnan := sampleNumbers_not_nan svs
    by_cases hne : sampleNumbers svs = []
    · constructor
      · intro _
        unfold numberRules
        rw [hne]
        rfl
      · intro hall
        rw [hne] at hall
        cases hall
    · have hiff := allEqual_iff (sampleNumbers svs) hnan hne
      have hpos : 0 < (sampleNumbers svs).length := List.length_pos.mpr hne
      obtain ⟨hn1, hm1, hle1⟩ := mathMin_spec (sampleNumbers svs) hnan hne
      obtain ⟨hn2, hm2, hle2⟩ := mathMax_spec (sampleNumbers svs) hnan hne
      constructor
      · intro hall
        unfold numberRules
        rw [if_pos hpos, hiff.mp hall]
        rfl
      · intro hall
        have hneq : jsEq (mathMin (sampleNumbers svs)) (mathMax (sampleNumbers svs)) = false := by
          cases hj : jsEq (mathMin (sampleNumbers svs)) (mathMax (sampleNumbers svs)) with
          | false => rfl
          | true =>
            rw [hiff.mpr hj] at hall
            cases hall
        refine ⟨_, hm1, _, hm2, ?_, ?_, ?_, rfl, rfl⟩
        · intro x hx
          exact ⟨(jsLe_iff_toExt _ _ hn1 (hnan x hx)).mpr (hle1 x hx),
            (jsLe_iff_toExt _ _ (hnan x hx) hn2).mpr (hle2 x hx)⟩
        · rw [jsLt_iff_toExt _ _ hn1 hn2]
          refine lt_of_le_of_ne (hle1 _ hm2) ?_
          intro he
          rw [(jsEq_iff_toExt _ _ hn1 hn2).mpr he] at hneq
          cases hneq
        · unfold numberRules
          rw [if_pos hpos, hneq]
          rfl

/-! ## The `max_length` rule -/

theorem foldl_max_spec_nat (xs : List Nat) : ∀ acc : Nat,
    (∀ x ∈ xs, x ≤ xs.foldl max acc) ∧ acc ≤ xs.foldl max acc ∧
      (xs.foldl max acc = acc ∨ xs.foldl max acc ∈ xs) := by
  induction xs with
  | nil =>
    intro acc
    exact ⟨fun x hx => absurd hx (List.not_mem_nil x), le_refl _, Or.inl rfl⟩
  | cons a rest ih =>
    intro acc
    obtain ⟨h1, h2, h3⟩ := ih (max acc a)
    rw [List.foldl_cons]
    refine ⟨?_, le_trans (le_max_left _ _) h2, ?_⟩
    · intro x hx
      rcases List.mem_cons.mp hx with rfl | hx
      · exact le_trans (le_max_right _ _) h2
      · exact h1 x hx
    · rcases h3 with h3 | h3
      · rw [h3]
        rcases max_choice acc a with hc | hc
        · exact Or.inl hc
        · rw [hc]
          exact Or.inr (List.mem_cons_self _ _)
      · exact Or.inr (List.mem_cons_of_mem _ h3)

/-- The number `longestSample` is an upper bound of the lengths of the sample values, and the
length of one of them unless it is 0. -/
theorem longestSample_spec (svs : List String) :
    (∀ s ∈ svs, utf16Length s ≤ longestSample svs) ∧
    (0 < longestSample svs → ∃ s ∈ svs, utf16Length s = longestSample svs) := by
  obtain ⟨h1, _, h3⟩ := foldl_max_spec_nat (svs.map utf16Length) 0
  refine ⟨fun s hs => h1 _ (List.mem_map_of_mem _ hs), ?_⟩
  intro hpos
  unfold longestSample at hpos ⊢
  rcases h3 with h3 | h3
  · omega
  · obtain ⟨s, hs, hlen⟩ := List.mem_map.mp h3
    exact ⟨s, hs, hlen⟩

theorem filter_maxLength_typeRules (h : Host) (column : String) (p : ColumnProfile)
    (typed : List Rule) (hok : typeRules h column p = .ok typed) :
    typed.filter isMaxLengthRule = [] := by
  rw [List.filter_eq_nil_iff]
  intro rule hrule
  have := typeRules_kinds h column p typed hok rule hrule
  unfold isMaxLengthRule
  rw [this.2]
  simp

theorem filter_maxLength_required (column : String) (b : Bool) :
    (if b then [requiredRule column] else []).filter isMaxLengthRule = [] := by
  cases b <;> rfl

/-- A profile of type `string` whose only sample value is empty gets no `max_length` rule:
the column is omitted from the rule set. -/
theorem max_length_counterexample :
    emptySampleProfile.type = "string" ∧
    emptySampleProfile.sampleValues = some [""] ∧
    generateValidationRules exampleHost [("c", emptySampleProfile)] = .ok [] ∧
    (rulesFor [] "c").filter isMaxLengthRule = [] := by
  exact ⟨rfl, rfl, rfl, rfl⟩

/-- C16 (amended): for a profile of type `string` in the analysis, the `max_length` rules of
the column in the rule set returned by `generateValidationRules` are: exactly one, whose
params is 2 × the length of the longest sample value, when some sample value is not empty;
none when every sample value is empty. A profile of another type gets no `max_length`
rule. -/
theorem generateValidationRules_max_length (h : Host)
    (analysis : List (String × ColumnProfile))
    (rules : RuleSet) (hgen : generateValidationRules h analysis = .ok rules)
    (hkeys : (analysis.map Prod.fst).Nodup) (column : String) (p : ColumnProfile)
    (hmem : (column, p) ∈ analysis) :
    (p.type = "string" → ∃ svs, p.sampleValues = some svs ∧
      (∀ s ∈ svs, utf16Length s ≤ longestSample svs) ∧
      ((∃ s ∈ svs, 0 < utf16Length s) →
        (∃ s ∈ svs, utf16Length s = longestSample svs) ∧
        (rulesFor rules column).filter isMaxLengthRule
          = [maxLengthRule h column (longestSample svs)] ∧
        (maxLengthRule h column (longestSample svs)).params
          = .num (.ofNat (longestSample svs * 2))) ∧
      ((∀ s ∈ svs, utf16Length s = 0) →
        (rulesFor rules column).filter isMaxLengthRule = [])) ∧
    (p.type ≠ "string" → (rulesFor rules column).filter isMaxLengthRule = []) := by
  have hcol := rulesFor_generate h analysis rules hgen hkeys column p hmem
  obtain ⟨typed, lengths, ht, hl, heq⟩ := columnRulesOf_parts h column p _ hcol
  have hfilter : (rulesFor rules column).filter isMaxLengthRule
      = lengths.filter isMaxLengthRule := by
    rw [heq, List.filter_append, List.filter_append, filter_maxLength_required,
      filter_maxLength_typeRules h column p typed ht]
    simp
  rw [hfilter]
  unfold lengthRules at hl
  constructor
  · intro htype
    rw [if_pos htype] at hl
    cases hs : p.sampleValues with
    | none =>
      rw [hs] at hl
      cases hl
    | some svs =>
      rw [hs] at hl
      simp only [Except.ok.injEq] at hl
      obtain ⟨hle, hatt⟩ := longestSample_spec svs
      refine ⟨svs, rfl, hle, ?_, ?_⟩
      · rintro ⟨s, hs, hpos⟩
        have hlong : 0 < longestSample svs := lt_of_lt_of_le hpos (hle s hs)
        rw [if_pos hlong] at hl
        rw [← hl]
        exact ⟨hatt hlong, rfl, rfl⟩
      · intro hzero
        have hlong : ¬ 0 < longestSample svs := by
          intro hpos
          obtain ⟨s, hs, hlen⟩ := hatt hpos
          rw [hzero s hs] at hlen
          omega
        rw [if_neg hlong] at hl
        rw [← hl]
        rfl
  · intro htype
    rw [if_neg htype] at hl
    cases hl
    rfl

/-! ## Rule generation on the profile of an empty column -/

/-- C17: on the profile that `analyzeColumnType` returns for a column whose only value is
`null`, and on the one it returns for an empty value list, `generateValidationRules` throws
a `TypeError` instead of returning a rule set: the profile has type `string` and no
`sampleValues`. -/
theorem generateValidationRules_throws_on_empty_column (h : Host) :
    (analyzeColumnType h [.null]).type = "string" ∧
    (analyzeColumnType h [.null]).sampleValues = none ∧
    generateValidationRules h [("c", analyzeColumnType h [.null])]
      = .error (.typeError "Cannot read properties of undefined (reading 'map')") ∧
    generateValidationRules h [("c", analyzeColumnType h [])]
      = .error (.typeError "Cannot read properties of undefined (reading 'map')") :=
  ⟨rfl, rfl, rfl, rfl⟩

theorem mixedNumberRules_eq :
    generateValidationRules exampleHost [("n", mixedNumberProfile)] = .ok mixedNumberRules := by
  rfl

theorem cityRules_eq :
    generateValidationRules exampleHost [("city", cityProfile)] = .ok cityRules := by
  rfl

/-- C14, on a column with null percentage 0. -/
theorem generateValidationRules_required_witness :
    generateValidationRules exampleHost [("n", mixedNumberProfile)] = .ok mixedNumberRules ∧
    ([("n", mixedNumberProfile)].map Prod.fst).Nodup ∧
    ("n", mixedNumberProfile) ∈ [("n", mixedNumberProfile)] ∧
    ((∃ rule ∈ rulesFor mixedNumberRules "n", isString rule.type "required" = true)
      ↔ belowTwenty mixedNumberProfile.nullPercentage = true) ∧
    (belowTwenty mixedNumberProfile.nullPercentage = true →
      (rulesFor mixedNumberRules "n").head? = some (requiredRule "n")) :=
  ⟨mixedNumberRules_eq, by simp, by simp,
    generateValidationRules_required exampleHost [("n", mixedNumberProfile)] mixedNumberRules
      mixedNumberRules_eq (by simp) "n" mixedNumberProfile (by simp)⟩

/-- C15, on the sample values `7`, `n/a`, `3`. -/
theorem generateValidationRules_bounds_witness :
    generateValidationRules exampleHost [("n", mixedNumberProfile)] = .ok mixedNumberRules ∧
    ([("n", mixedNumberProfile)].map Prod.fst).Nodup ∧
    ("n", mixedNumberProfile) ∈ [("n", mixedNumberProfile)] ∧
    mixedNumberProfile.type = "number" ∧
    sampleNumbers ["7", "n/a", "3"] = [parseFloatStr "7", parseFloatStr "3"] ∧
    jsEq (parseFloatStr "7") (.ofNat 7) = true ∧
    jsEq (parseFloatStr "3") (.ofNat 3) = true ∧
    allEqual (sampleNumbers ["7", "n/a", "3"]) = false ∧
    (rulesFor mixedNumberRules "n").filter isBoundRule
      = [minValueRule exampleHost "n" (parseFloatStr "3"),
        maxValueRule exampleHost "n" (parseFloatStr "7")] ∧
    ∃ svs, mixedNumberProfile.sampleValues = some svs ∧
      (allEqual (sampleNumbers svs) = true →
        (rulesFor mixedNumberRules "n").filter isBoundRule = []) ∧
      (allEqual (sampleNumbers svs) = false →
        ∃ mn ∈ sampleNumbers svs, ∃ mx ∈ sampleNumbers svs,
          (∀ x ∈ sampleNumbers svs, jsLe mn x = true ∧ jsLe x mx = true) ∧
          jsLt mn mx = true ∧
          (rulesFor mixedNumberRules "n").filter isBoundRule
            = [minValueRule exampleHost "n" mn, maxValueRule exampleHost "n" mx] ∧
          (minValueRule exampleHost "n" mn).params = .num mn ∧
          (maxValueRule exampleHost "n" mx).params = .num mx) :=
  ⟨mixedNumberRules_eq, by simp, by simp, rfl, by decide, by decide, by decide, by decide, rfl,
    generateValidationRules_bounds exampleHost [("n", mixedNumberProfile)] mixedNumberRules
      mixedNumberRules_eq (by simp) "n" mixedNumberProfile (by simp) rfl⟩

/-- C16, on the sample values `Izmir` and `Ankara`. -/
theorem generateValidationRules_max_length_witness :
    generateValidationRules exampleHost [("city", cityProfile)] = .ok cityRules ∧
    ([("city", cityProfile)].map Prod.fst).Nodup ∧
    ("city", cityProfile) ∈ [("city", cityProfile)] ∧
    longestSample ["Izmir", "Ankara"] = 6 ∧
    (rulesFor cityRules "city").filter isMaxLengthRule = [maxLengthRule exampleHost "city" 6] ∧
    (maxLengthRule exampleHost "city" 6).params = .num (.ofNat 12) ∧
    (cityProfile.type = "string" → ∃ svs, cityProfile.sampleValues = some svs ∧
      (∀ s ∈ svs, utf16Length s ≤ longestSample svs) ∧
      ((∃ s ∈ svs, 0 < utf16Length s) →
        (∃ s ∈ svs, utf16Length s = longestSample svs) ∧
        (rulesFor cityRules "city").filter isMaxLengthRule
          = [maxLengthRule exampleHost "city" (longestSample svs)] ∧
        (maxLengthRule exampleHost "city" (longestSample svs)).params
          = .num (.ofNat (longestSample svs * 2))) ∧
      ((∀ s ∈ svs, utf16Length s = 0) →
        (rulesFor cityRules "city").filter isMaxLengthRule = [])) ∧
    (cityProfile.type ≠ "string" → (rulesFor cityRules "city").filter isMaxLengthRule = []) :=
  ⟨cityRules_eq, by simp, by simp, by decide, rfl, rfl,
    generateValidationRules_max_length exampleHost [("city", cityProfile)] cityRules
      cityRules_eq (by simp) "city" cityProfile (by simp)⟩

/-! ## The result of `cleanData` as a function of the rows -/

theorem foldl_fixStep (defaultValues : Record) (i : Nat) :
    ∀ (entries r : Record) (log : List LogEntry),
      entries.foldl (fixStep defaultValues i) (r, log)
        = (entries.foldl (fun r kv => setField r kv.1 (fixCell defaultValues i kv.1 kv.2).1) r,
          log ++ entries.flatMap fun kv => (fixCell defaultValues i kv.1 kv.2).2) := by
  intro entries
  induction entries with
  | nil => intro r log; simp
  | cons kv rest ih =>
    intro r log
    rw [List.foldl_cons, List.foldl_cons, List.flatMap_cons, ← List.append_assoc]
    exact ih _ _

theorem setField_skip (pre : Record) (kv : String × JSValue) (rest : Record) (v : JSValue)
    (hpre : kv.1 ∉ pre.map Prod.fst) :
    setField (pre ++ kv :: rest) kv.1 v = pre ++ (kv.1, v) :: rest := by
  induction pre with
  | nil => simp [setField]
  | cons x pre ih =>
    rw [List.map_cons, List.mem_cons, not_or] at hpre
    have hne : (x.1 == kv.1) = false := by
      rw [beq_eq_false_iff_ne]
      exact fun he => hpre.1 he.symm
    rw [List.cons_append, setField, hne, ih hpre.2]
    rfl

theorem foldl_setField (f : String × JSValue → JSValue) :
    ∀ (suf pre : Record), (suf.map Prod.fst).Nodup →
      (∀ kv ∈ suf, kv.1 ∉ pre.map Prod.fst) →
      suf.foldl (fun r kv => setField r kv.1 (f kv)) (pre ++ suf)
        = pre ++ suf.map fun kv => (kv.1, f kv) := by
  intro suf
  induction suf with
  | nil => intro pre _ _; simp
  | cons kv rest ih =>
    intro pre hnodup hdisj
    rw [List.map_cons, List.nodup_cons] at hnodup
    rw [List.foldl_cons, setField_skip pre kv rest (f kv) (hdisj kv (List.mem_cons_self _ _))]
    have := ih (pre ++ [(kv.1, f kv)]) hnodup.2 (by
      intro x hx
      rw [List.map_append, List.mem_append, not_or]
      refine ⟨hdisj x (List.mem_cons_of_mem _ hx), ?_⟩
      simp only [List.map_cons, List.map_nil, List.mem_singleton]
      intro he
      exact hnodup.1 (he ▸ List.mem_map_of_mem Prod.fst hx))
    rw [List.append_assoc, List.singleton_append] at this
    rw [this, List.map_cons, List.append_assoc, List.singleton_append]

/-- The log entries pushed for a row are those of its cells, in the order of the cells. -/
theorem fixRow_log (defaultValues : Record) (i : Nat) (row : Record) (log : List LogEntry) :
    (fixRow defaultValues i row log).2
      = log ++ row.flatMap fun kv => (fixCell defaultValues i kv.1 kv.2).2 := by
  unfold fixRow
  rw [foldl_fixStep]

theorem fixRow_fst (defaultValues : Record) (i : Nat) (row : Record) (log : List LogEntry) :
    (fixRow defaultValues i row log).1 = (fixRow defaultValues i row []).1 := by
  unfold fixRow
  rw [foldl_fixStep, foldl_fixStep]

/-- The cleaned row has the cells of the row, each with its new value. -/
theorem fixRow_cells (defaultValues : Record) (i : Nat) (row : Record) (log : List LogEntry)
    (hkeys : (row.map Prod.fst).Nodup) :
    (fixRow defaultValues i row log).1
      = row.map fun kv => (kv.1, (fixCell defaultValues i kv.1 kv.2).1) := by
  unfold fixRow
  rw [foldl_fixStep]
  have := foldl_setField (fun kv => (fixCell defaultValues i kv.1 kv.2).1) row [] hkeys
    (fun _ _ hmem => nomatch hmem)
  simpa using this

theorem rowErrors_pos (validationResults : Report) (i : Nat) :
    decide (0 < (rowErrors validationResults i).length) = hasRowError validationResults i := by
  unfold rowErrors hasRowError
  induction validationResults.errors with
  | nil => rfl
  | cons e rest ih =>
    rw [List.any_cons]
    by_cases he : (e.rowIndex == some (i + 1)) = true
    · simp only [List.filter_cons, he, if_true, List.length_cons, Bool.true_or]
      simp
    · simp only [List.filter_cons, he, Bool.false_eq_true, if_false, Bool.false_or]
      exact ih

theorem cleanStep_eq (h : Host) (validationResults : Report) (options : CleaningOptions)
    (i : Nat) (acc : List Record × List LogEntry) (row : Record) :
    cleanStep h validationResults options i acc row
      = (acc.1 ++ (if isDropped validationResults options i then []
            else [cleanedRowOf options i row]),
          acc.2 ++ rowLogOf h validationResults options i row) := by
  unfold cleanStep rowLogOf cleanedRowOf isDropped
  rw [rowErrors_pos]
  by_cases hd : (options.removeInvalidRows && hasRowError validationResults i) = true
  · rw [if_pos hd, if_pos hd, if_pos hd, List.append_nil]
  · rw [if_neg hd, if_neg hd, if_neg hd]
    by_cases hf : options.fixCommonIssues = true
    · rw [if_pos hf, if_pos hf, if_pos hf, fixRow_log, fixRow_log, fixRow_fst, List.nil_append]
    · rw [if_neg hf, if_neg hf, if_neg hf, List.append_nil]

theorem cleanLoop_eq (h : Host) (validationResults : Report) (options : CleaningOptions) :
    ∀ (rows : List Record) (i : Nat) (acc : List Record × List LogEntry),
      cleanLoop h validationResults options i rows acc
        = (acc.1 ++ ((rows.enumFrom i).filter
              fun ir => !isDropped validationResults options ir.1).map
              (fun ir => cleanedRowOf options ir.1 ir.2),
            acc.2 ++ (rows.enumFrom i).flatMap
              fun ir => rowLogOf h validationResults options ir.1 ir.2) := by
  intro rows
  induction rows with
  | nil => intro i acc; simp [cleanLoop]
  | cons row rest ih =>
    intro i acc
    rw [cleanLoop, ih, cleanStep_eq, List.enumFrom_cons, List.flatMap_cons]
    by_cases hd : isDropped validationResults options i = true
    · rw [if_pos hd, List.filter_cons_of_neg (by simp [hd])]
      simp
    · rw [if_neg hd, List.filter_cons_of_pos (by simpa using hd)]
      simp

/-- The cleaned rows are the cleaned forms of the kept rows, and the log is the
concatenation of the logs of the rows, both in the order of the rows. -/
theorem cleanData_eq (h : Host) (rows : List Record) (validationResults : Report)
    (options : CleaningOptions) :
    (cleanData h rows validationResults options).cleanedRows
      = (keptRows validationResults options rows).map
          (fun ir => cleanedRowOf options ir.1 ir.2) ∧
    (cleanData h rows validationResults options).cleaningLog
      = rows.enum.flatMap fun ir => rowLogOf h validationResults options ir.1 ir.2 := by
  unfold cleanData keptRows List.enum
  rw [cleanLoop_eq]
  exact ⟨by simp, by simp⟩

theorem kept_add_dropped (validationResults : Report) (options : CleaningOptions)
    (rows : List Record) :
    (keptRows validationResults options rows).length
      + (droppedRows validationResults options rows).length = rows.length := by
  unfold keptRows droppedRows
  have := List.length_eq_countP_add_countP
    (fun ir : Nat × Record => isDropped validationResults options ir.1) rows.enum
  rw [List.countP_eq_length_filter, List.countP_eq_length_filter, List.enum_length] at this
  have hfun : (fun a : Nat × Record =>
      decide ¬isDropped validationResults options a.1 = true)
      = fun ir => !isDropped validationResults options ir.1 := by
    funext a
    cases isDropped validationResults options a.1 <;> rfl
  rw [hfun] at this
  omega

theorem fixCell_actions (defaultValues : Record) (i : Nat) (columnName : String)
    (value : JSValue) :
    ∀ e ∈ (fixCell defaultValues i columnName value).2,
      e.rowIndex = i + 1 ∧ e.column = some columnName ∧ e.oldValue = some value ∧
      ((e.action = "trimmed" ∧ ∃ s, value = .str s ∧ jsTrim s ≠ s ∧
          e.newValue = some (.str (jsTrim s))) ∨
        (e.action = "default_value" ∧
          isNullish (trimStep i columnName value).1 = true ∧
          truthy (getField defaultValues columnName) = true ∧
          e.newValue = some (getField defaultValues columnName))) := by
  intro e he
  unfold fixCell at he
  rcases List.mem_append.mp he with ht | hd
  · unfold trimStep at ht
    split at ht
    · rename_i s
      split_ifs at ht with hc
      · simp only [List.mem_singleton] at ht
        subst ht
        refine ⟨rfl, rfl, rfl, Or.inl ⟨rfl, s, rfl, ?_, rfl⟩⟩
        simpa using hc
      · cases ht
    · cases ht
  · unfold defaultStep at hd
    split_ifs at hd with hc
    · simp only [List.mem_singleton] at hd
      subst hd
      rw [Bool.and_eq_true] at hc
      exact ⟨rfl, rfl, rfl, Or.inr ⟨rfl, hc.1, hc.2, rfl⟩⟩
    · cases hd

theorem rowLogOf_removed (h : Host) (validationResults : Report) (options : CleaningOptions)
    (i : Nat) (row : Record) :
    (rowLogOf h validationResults options i row).filter (fun e => e.action == "removed")
      = if isDropped validationResults options i then
          [removedEntry h i (rowErrors validationResults i).length]
        else [] := by
  unfold rowLogOf
  by_cases hd : isDropped validationResults options i = true
  · rw [if_pos hd, if_pos hd]
    rfl
  · rw [if_neg hd, if_neg hd]
    by_cases hf : options.fixCommonIssues = true
    · rw [if_pos hf, fixRow_log, List.nil_append, List.filter_eq_nil_iff]
      intro e he
      obtain ⟨kv, _, hkv⟩ := List.mem_flatMap.mp he
      obtain ⟨_, _, _, hact⟩ := fixCell_actions options.defaultValues i kv.1 kv.2 e hkv
      rcases hact with ⟨ha, _⟩ | ⟨ha, _⟩ <;> rw [ha] <;> decide
    · rw [if_neg hf]
      rfl

theorem removed_entries (h : Host) (validationResults : Report) (options : CleaningOptions)
    (l : List (Nat × Record)) :
    (l.flatMap fun ir => rowLogOf h validationResults options ir.1 ir.2).filter
        (fun e => e.action == "removed")
      = (l.filter fun ir => isDropped validationResults options ir.1).map
          fun ir => removedEntry h ir.1 (rowErrors validationResults ir.1).length := by
  induction l with
  | nil => rfl
  | cons ir rest ih =>
    rw [List.flatMap_cons, List.filter_append, ih, rowLogOf_removed]
    by_cases hd : isDropped validationResults options ir.1 = true
    · simp only [hd, if_true, List.filter_cons, List.map_cons, List.singleton_append]
    · simp only [hd, Bool.false_eq_true, if_false, List.filter_cons, List.nil_append]

/-- C18: with `removeInvalidRows = true`, the cleaned rows are the cleaned forms of the rows
that have no error entry with their 1-based index, in their original order (the rows
themselves when `fixCommonIssues` is off); `removedCount` is the number of rows with such
an entry; and the `removed` entries of the log are one per dropped row, in row order, each
with the 1-based index of its row. -/
theorem cleanData_removes_invalid_rows (h : Host) (rows : List Record)
    (validationResults : Report) (options : CleaningOptions)
    (hremove : options.removeInvalidRows = true) :
    (cleanData h rows validationResults options).cleanedRows
      = (rows.enum.filter fun ir => !hasRowError validationResults ir.1).map
          (fun ir => cleanedRowOf options ir.1 ir.2) ∧
    (options.fixCommonIssues = false →
      (cleanData h rows validationResults options).cleanedRows
        = (rows.enum.filter fun ir => !hasRowError validationResults ir.1).map Prod.snd) ∧
    (cleanData h rows validationResults options).removedCount
      = (rows.enum.filter fun ir => hasRowError validationResults ir.1).length ∧
    (cleanData h rows validationResults options).cleanedCount
      = (rows.enum.filter fun ir => !hasRowError validationResults ir.1).length ∧
    (cleanData h rows validationResults options).originalCount = rows.length ∧
    (cleanData h rows validationResults options).cleaningLog.filter
        (fun e => e.action == "removed")
      = (rows.enum.filter fun ir => hasRowError validationResults ir.1).map
          (fun ir => removedEntry h ir.1 (rowErrors validationResults ir.1).length) ∧
    ((cleanData h rows validationResults options).cleaningLog.filter
        (fun e => e.action == "removed")).map (fun e => e.rowIndex)
      = (rows.enum.filter fun ir => hasRowError validationResults ir.1).map
          (fun ir => ir.1 + 1) := by
  obtain ⟨hrows, hlog⟩ := cleanData_eq h rows validationResults options
  have hdrop : (fun i => isDropped validationResults options i)
      = fun i => hasRowError validationResults i := by
    funext i
    unfold isDropped
    rw [hremove, Bool.true_and]
  have hkept : keptRows validationResults options rows
      = rows.enum.filter fun ir => !hasRowError validationResults ir.1 := by
    unfold keptRows
    congr 1
    funext ir
    rw [congrFun hdrop ir.1]
  have hdropped : droppedRows validationResults options rows
      = rows.enum.filter fun ir => hasRowError validationResults ir.1 := by
    unfold droppedRows
    congr 1
    funext ir
    rw [congrFun hdrop ir.1]
  have hsum := kept_add_dropped validationResults options rows
  rw [hkept, hdropped] at hsum
  have hremoved := removed_entries h validationResults options rows.enum
  rw [← hlog] at hremoved
  have hd2 : (rows.enum.filter fun ir => isDropped validationResults options ir.1)
      = rows.enum.filter fun ir => hasRowError validationResults ir.1 := hdropped
  rw [hd2] at hremoved
  rw [hkept] at hrows
  have hcount : (cleanData h rows validationResults options).cleanedCount
      = (cleanData h rows validationResults options).cleanedRows.length := rfl
  have hrem : (cleanData h rows validationResults options).removedCount
      = rows.length - (cleanData h rows validationResults options).cleanedRows.length := rfl
  refine ⟨hrows, ?_, ?_, ?_, rfl, hremoved, ?_⟩
  · intro hfix
    rw [hrows]
    apply List.map_congr_left
    intro ir _
    unfold cleanedRowOf
    rw [hfix]
    rfl
  · rw [hrem, hrows, List.length_map]
    omega
  · rw [hcount, hrows, List.length_map]
  · rw [hremoved, List.map_map]
    rfl

/-- C18, on Scenario D: four rows, two errors on row 3. -/
theorem cleanData_removes_invalid_rows_witness :
    scenarioDOptions.removeInvalidRows = true ∧
    scenarioDRows.length = 4 ∧
    (cleanData exampleHost scenarioDRows scenarioDReport scenarioDOptions).cleanedRows
      = [[("name", .str "Ada"), ("city", .str "Izmir")],
          [("name", .str "Bora"), ("city", .str "Bursa")],
          [("name", .str "Cem"), ("city", .str "Adana")]] ∧
    (cleanData exampleHost scenarioDRows scenarioDReport scenarioDOptions).removedCount = 1 ∧
    ((cleanData exampleHost scenarioDRows scenarioDReport scenarioDOptions).cleaningLog.filter
        (fun e => e.action == "removed")).map (fun e => e.rowIndex) = [3] ∧
    (cleanData exampleHost scenarioDRows scenarioDReport scenarioDOptions).removedCount
      = (scenarioDRows.enum.filter fun ir => hasRowError scenarioDReport ir.1).length :=
  ⟨rfl, rfl, rfl, rfl, rfl,
    (cleanData_removes_invalid_rows exampleHost scenarioDRows scenarioDReport scenarioDOptions
      rfl).2.2.1⟩

/-! ## Trimming and default values -/

theorem getField_of_mem (r : Record) (hkeys : (r.map Prod.fst).Nodup) (c : String)
    (v : JSValue) (hmem : (c, v) ∈ r) : getField r c = v := by
  induction r with
  | nil => cases hmem
  | cons kv rest ih =>
    rw [List.map_cons, List.nodup_cons] at hkeys
    unfold getField
    rcases List.mem_cons.mp hmem with heq | hin
    · subst heq
      simp
    · have hne : kv.1 ≠ c := by
        intro he
        exact hkeys.1 (he ▸ List.mem_map_of_mem Prod.fst hin)
      rw [List.find?_cons_of_neg _ (by simpa using hne)]
      exact ih hkeys.2 hin

theorem value_unique (r : Record) (hkeys : (r.map Prod.fst).Nodup) (c : String)
    (v w : JSValue) (hv : (c, v) ∈ r) (hw : (c, w) ∈ r) : v = w := by
  rw [← getField_of_mem r hkeys c v hv, getField_of_mem r hkeys c w hw]

/-- The new value of a cell of a cleaned row. -/
theorem cleanedRowOf_cell (options : CleaningOptions) (hfix : options.fixCommonIssues = true)
    (i : Nat) (row : Record) (hkeys : (row.map Prod.fst).Nodup) (c : String) (v : JSValue)
    (hcell : (c, v) ∈ row) :
    getField (cleanedRowOf options i row) c = (fixCell options.defaultValues i c v).1 := by
  unfold cleanedRowOf
  rw [if_pos hfix, fixRow_cells _ _ _ _ hkeys]
  apply getField_of_mem
  · rw [List.map_map]
    exact hkeys
  · exact List.mem_map.mpr ⟨(c, v), hcell, rfl⟩

theorem cleanedRowOf_mem (h : Host) (rows : List Record) (validationResults : Report)
    (options : CleaningOptions) (i : Nat) (row : Record) (hrow : rows[i]? = some row)
    (hkept : isDropped validationResults options i = false) :
    cleanedRowOf options i row ∈ (cleanData h rows validationResults options).cleanedRows := by
  rw [(cleanData_eq h rows validationResults options).1]
  refine List.mem_map.mpr ⟨(i, row), ?_, rfl⟩
  unfold keptRows
  rw [List.mem_filter]
  refine ⟨List.mk_mem_enum_iff_getElem?.mpr hrow, ?_⟩
  simp only [hkept, Bool.not_false]

theorem cellLog_mem (h : Host) (rows : List Record) (validationResults : Report)
    (options : CleaningOptions) (hfix : options.fixCommonIssues = true) (i : Nat) (row : Record)
    (hrow : rows[i]? = some row) (hkept : isDropped validationResults options i = false)
    (c : String) (v : JSValue) (hcell : (c, v) ∈ row) (e : LogEntry)
    (he : e ∈ (fixCell options.defaultValues i c v).2) :
    e ∈ (cleanData h rows validationResults options).cleaningLog := by
  rw [(cleanData_eq h rows validationResults options).2]
  refine List.mem_flatMap.mpr ⟨(i, row), List.mk_mem_enum_iff_getElem?.mpr hrow, ?_⟩
  unfold rowLogOf
  simp only [hkept, Bool.false_eq_true, if_false, hfix, if_true]
  rw [fixRow_log, List.nil_append]
  exact List.mem_flatMap.mpr ⟨(c, v), hcell, he⟩

/-- Every entry of the log other than a `removed` entry is an entry of a cell of a kept
row. -/
theorem cleaningLog_mem (h : Host) (rows : List Record) (validationResults : Report)
    (options : CleaningOptions) (e : LogEntry)
    (he : e ∈ (cleanData h rows validationResults options).cleaningLog)
    (hact : e.action ≠ "removed") :
    ∃ j r kv, rows[j]? = some r ∧ kv ∈ r ∧ e ∈ (fixCell options.defaultValues j kv.1 kv.2).2 := by
  rw [(cleanData_eq h rows validationResults options).2] at he
  obtain ⟨ir, hir, hmem⟩ := List.mem_flatMap.mp he
  unfold rowLogOf at hmem
  split_ifs at hmem
  · simp only [List.mem_singleton] at hmem
    subst hmem
    exact absurd rfl hact
  · rw [fixRow_log, List.nil_append] at hmem
    obtain ⟨kv, hkv, hkve⟩ := List.mem_flatMap.mp hmem
    exact ⟨ir.1, ir.2, kv, List.mem_enum_iff_getElem?.mp hir, hkv, hkve⟩
  · cases hmem

theorem trimStep_str (i : Nat) (c s : String) :
    (trimStep i c (.str s)).1 = .str (jsTrim s) := by
  unfold trimStep
  by_cases hc : (jsTrim s != s) = true
  · simp only [hc, if_true]
  · simp only [hc, Bool.false_eq_true, if_false]
    have : jsTrim s = s := by simpa using hc
    rw [this]

theorem fixCell_str (defaultValues : Record) (i : Nat) (c s : String) :
    (fixCell defaultValues i c (.str s)).1
      = if jsTrim s = "" ∧ truthy (getField defaultValues c) = true
          then getField defaultValues c else .str (jsTrim s) := by
  have htrim := trimStep_str i c s
  unfold fixCell defaultStep
  simp only [htrim, isNullish, Bool.and_eq_true, beq_iff_eq]
  split_ifs <;> rfl

theorem trimmedEntry_mem (defaultValues : Record) (i : Nat) (c s : String)
    (hne : jsTrim s ≠ s) :
    trimmedEntry i c (.str s) (.str (jsTrim s)) ∈ (fixCell defaultValues i c (.str s)).2 := by
  unfold fixCell
  apply List.mem_append_left
  unfold trimStep
  have hc : (jsTrim s != s) = true := by simpa using hne
  simp only [hc, if_true, List.mem_singleton]

/-- A blank cell of a column with a default value is replaced by the default value, not by
its trimmed form. -/
theorem trim_counterexample :
    fillOptions.fixCommonIssues = true ∧
    jsTrim "  " = "" ∧
    (cleanData exampleHost [[("c", .str "  ")]] emptyReport fillOptions).cleanedRows
      = [[("c", .str "N/A")]] :=
  ⟨rfl, by decide, rfl⟩

/-- C19 (amended): with `fixCommonIssues = true`, a string cell of a kept row is replaced by
its trimmed form, unless the trimmed form is empty and the column has a truthy default value,
which then replaces it; the log has a `trimmed` entry for the cell if and only if trimming
changed the value; and every `trimmed` entry of the log has a string `oldValue`, the trimmed
form of it as `newValue`, and the two differ. -/
theorem cleanData_trims_strings (h : Host) (rows : List Record) (validationResults : Report)
    (options : CleaningOptions) (hfix : options.fixCommonIssues = true) (i : Nat)
    (row : Record) (hrow : rows[i]? = some row)
    (hkept : isDropped validationResults options i = false)
    (hkeys : (row.map Prod.fst).Nodup) (c s : String) (hcell : (c, JSValue.str s) ∈ row) :
    cleanedRowOf options i row ∈ (cleanData h rows validationResults options).cleanedRows ∧
    getField (cleanedRowOf options i row) c
      = (if jsTrim s = "" ∧ truthy (getField options.defaultValues c) = true
          then getField options.defaultValues c else .str (jsTrim s)) ∧
    ((∃ e ∈ (cleanData h rows validationResults options).cleaningLog,
        e.action = "trimmed" ∧ e.rowIndex = i + 1 ∧ e.column = some c) ↔ jsTrim s ≠ s) ∧
    (jsTrim s ≠ s → trimmedEntry i c (.str s) (.str (jsTrim s))
      ∈ (cleanData h rows validationResults options).cleaningLog) ∧
    (∀ e ∈ (cleanData h rows validationResults options).cleaningLog, e.action = "trimmed" →
      ∃ t, e.oldValue = some (.str t) ∧ e.newValue = some (.str (jsTrim t)) ∧
        jsTrim t ≠ t) := by
  have hin : jsTrim s ≠ s → trimmedEntry i c (.str s) (.str (jsTrim s))
      ∈ (cleanData h rows validationResults options).cleaningLog := fun hne =>
    cellLog_mem h rows validationResults options hfix i row hrow hkept c (.str s) hcell _
      (trimmedEntry_mem options.defaultValues i c s hne)
  refine ⟨cleanedRowOf_mem h rows validationResults options i row hrow hkept, ?_, ⟨?_, ?_⟩,
    hin, ?_⟩
  · rw [cleanedRowOf_cell options hfix i row hkeys c (.str s) hcell, fixCell_str]
  · rintro ⟨e, he, hact, hidx, hcol⟩
    obtain ⟨j, r, kv, hr, hkv, hmem⟩ := cleaningLog_mem h rows validationResults options e he
      (by rw [hact]; decide)
    obtain ⟨hj, hc, _, hkind⟩ := fixCell_actions options.defaultValues j kv.1 kv.2 e hmem
    have hji : j = i := by omega
    subst hji
    rw [hrow] at hr
    cases hr
    rw [hcol] at hc
    cases hc
    rcases hkind with ⟨_, t, ht, hne, _⟩ | ⟨hd, _⟩
    · have hval := value_unique row hkeys kv.1 (.str s) kv.2 hcell hkv
      rw [ht] at hval
      cases hval
      exact hne
    · rw [hact] at hd
      exact absurd hd (by decide)
  · intro hne
    exact ⟨_, hin hne, rfl, rfl, rfl⟩
  · intro e he hact
    obtain ⟨j, r, kv, _, _, hmem⟩ := cleaningLog_mem h rows validationResults options e he
      (by rw [hact]; decide)
    obtain ⟨_, _, hold, hkind⟩ := fixCell_actions options.defaultValues j kv.1 kv.2 e hmem
    rcases hkind with ⟨_, t, ht, hne, hnew⟩ | ⟨hd, _⟩
    · exact ⟨t, by rw [hold, ht], hnew, hne⟩
    · rw [hact] at hd
      exact absurd hd (by decide)

/-- C19, on the padded cell `d` of a row whose blank cell `c` has a default value. -/
theorem cleanData_trims_strings_witness :
    fillOptions.fixCommonIssues = true ∧
    paddedRows[0]? = some [("c", .str "  "), ("d", .str " x ")] ∧
    isDropped emptyReport fillOptions 0 = false ∧
    jsTrim " x " = "x" ∧
    (cleanData exampleHost paddedRows emptyReport fillOptions).cleanedRows
      = [[("c", .str "N/A"), ("d", .str "x")]] ∧
    getField (cleanedRowOf fillOptions 0 [("c", .str "  "), ("d", .str " x ")]) "d"
      = (if jsTrim " x " = "" ∧ truthy (getField fillOptions.defaultValues "d") = true
          then getField fillOptions.defaultValues "d" else .str (jsTrim " x ")) ∧
    ((∃ e ∈ (cleanData exampleHost paddedRows emptyReport fillOptions).cleaningLog,
        e.action = "trimmed" ∧ e.rowIndex = 0 + 1 ∧ e.column = some "d")
      ↔ jsTrim " x " ≠ " x ") :=
  ⟨rfl, rfl, rfl, by decide, rfl,
    (cleanData_trims_strings exampleHost paddedRows emptyReport fillOptions rfl 0
      [("c", .str "  "), ("d", .str " x ")] rfl rfl (by decide) "d" " x " (by simp)).2.1,
    (cleanData_trims_strings exampleHost paddedRows emptyReport fillOptions rfl 0
      [("c", .str "  "), ("d", .str " x ")] rfl rfl (by decide) "d" " x " (by simp)).2.2.1⟩

/-- A column that the row does not have gets no default value, and neither does a column
whose default value is 0. -/
theorem default_counterexample :
    fillOptions.fixCommonIssues = true ∧
    truthy (getField fillOptions.defaultValues "c") = true ∧
    ([("a", JSValue.str "x")].map Prod.fst).contains "c" = false ∧
    (cleanData exampleHost [[("a", .str "x")]] emptyReport fillOptions).cleanedRows
      = [[("a", .str "x")]] ∧
    (cleanData exampleHost [[("a", .str "x")]] emptyReport fillOptions).cleaningLog = [] ∧
    zeroFillOptions.defaultValues = [("c", .num (.ofNat 0))] ∧
    (cleanData exampleHost [[("c", .str "")]] emptyReport zeroFillOptions).cleanedRows
      = [[("c", .str "")]] ∧
    (cleanData exampleHost [[("c", .str "")]] emptyReport zeroFillOptions).cleaningLog = [] :=
  ⟨rfl, rfl, by decide, rfl, rfl, rfl, rfl, rfl⟩

/-- C20 (amended): with `fixCommonIssues = true`, for a kept row and a column that the row
has and whose default value is truthy, if the cell is `null`, `undefined` or a string that is
empty after trimming, then the cleaned row has the default value in that column and the log
has a `default_value` entry for that row and column, with the cell as `oldValue` and the
default value as `newValue`. -/
theorem cleanData_applies_defaults (h : Host) (rows : List Record)
    (validationResults : Report) (options : CleaningOptions)
    (hfix : options.fixCommonIssues = true) (i : Nat) (row : Record)
    (hrow : rows[i]? = some row) (hkept : isDropped validationResults options i = false)
    (hkeys : (row.map Prod.fst).Nodup) (c : String) (v : JSValue) (hcell : (c, v) ∈ row)
    (hempty : v = .null ∨ v = .undefined ∨ ∃ s, v = .str s ∧ jsTrim s = "")
    (hdefault : truthy (getField options.defaultValues c) = true) :
    cleanedRowOf options i row ∈ (cleanData h rows validationResults options).cleanedRows ∧
    getField (cleanedRowOf options i row) c = getField options.defaultValues c ∧
    (∃ e ∈ (cleanData h rows validationResults options).cleaningLog,
      e.action = "default_value" ∧ e.rowIndex = i + 1 ∧ e.column = some c ∧
      e.oldValue = some v ∧ e.newValue = some (getField options.defaultValues c)) := by
  have hnull : isNullish (trimStep i c v).1 = true := by
    rcases hempty with rfl | rfl | ⟨s, rfl, hs⟩
    · rfl
    · rfl
    · rw [trimStep_str, hs]
      rfl
  have hstep : defaultStep options.defaultValues i c v (trimStep i c v).1
      = (getField options.defaultValues c,
        [defaultEntry i c v (getField options.defaultValues c)]) := by
    unfold defaultStep
    rw [hnull, hdefault]
    rfl
  refine ⟨cleanedRowOf_mem h rows validationResults options i row hrow hkept, ?_, ?_⟩
  · rw [cleanedRowOf_cell options hfix i row hkeys c v hcell]
    unfold fixCell
    rw [hstep]
  · refine ⟨defaultEntry i c v (getField options.defaultValues c), ?_, rfl, rfl, rfl, rfl, rfl⟩
    apply cellLog_mem h rows validationResults options hfix i row hrow hkept c v hcell
    unfold fixCell
    rw [hstep]
    exact List.mem_append_right _ (List.mem_singleton.mpr rfl)

/-- C20, on the blank cell `c` of a row, with the default value `N/A`. -/
theorem cleanData_applies_defaults_witness :
    fillOptions.fixCommonIssues = true ∧
    paddedRows[0]? = some [("c", .str "  "), ("d", .str " x ")] ∧
    isDropped emptyReport fillOptions 0 = false ∧
    getField fillOptions.defaultValues "c" = .str "N/A" ∧
    cleanedRowOf fillOptions 0 [("c", .str "  "), ("d", .str " x ")]
      = [("c", .str "N/A"), ("d", .str "x")] ∧
    getField (cleanedRowOf fillOptions 0 [("c", .str "  "), ("d", .str " x ")]) "c"
      = getField fillOptions.defaultValues "c" ∧
    (∃ e ∈ (cleanData exampleHost paddedRows emptyReport fillOptions).cleaningLog,
      e.action = "default_value" ∧ e.rowIndex = 0 + 1 ∧ e.column = some "c" ∧
      e.oldValue = some (.str "  ") ∧ e.newValue = some (getField fillOptions.defaultValues "c")) :=
  ⟨rfl, rfl, rfl, rfl, rfl,
    (cleanData_applies_defaults exampleHost paddedRows emptyReport fillOptions rfl 0
      [("c", .str "  "), ("d", .str " x ")] rfl rfl (by decide) "c" (.str "  ") (by simp)
      (Or.inr (Or.inr ⟨"  ", rfl, by decide⟩)) rfl).2.1,
    (cleanData_applies_defaults exampleHost paddedRows emptyReport fillOptions rfl 0
      [("c", .str "  "), ("d", .str " x ")] rfl rfl (by decide) "c" (.str "  ") (by simp)
      (Or.inr (Or.inr ⟨"  ", rfl, by decide⟩)) rfl).2.2⟩

/-! ## The range of the confidence -/

/-- C26: for a column with at least one non-null sampled value, the four bucket counts sum
to the number of non-null sampled values, four times the count of the winning bucket is at
least that number, and the confidence is an integer between 25 and 100. -/
theorem analyzeColumnType_confidence_range (h : Host) (values : List JSValue)
    (hpos : 0 < (nonNullSample h values).length) :
    bucketCount .string (nonNullSample h values) + bucketCount .number (nonNullSample h values)
      + bucketCount .date (nonNullSample h values)
      + bucketCount .boolean (nonNullSample h values) = (nonNullSample h values).length ∧
    (nonNullSample h values).length ≤ 4 * (sampleWinner (nonNullSample h values)).2 ∧
    ∃ n : Nat, (analyzeColumnType h values).confidence = .fin n 0 ∧ 25 ≤ n ∧ n ≤ 100 := by
  have hsum := bucketCount_sum (nonNullSample h values)
  obtain ⟨h1, h2, _⟩ := sampleWinner_spec (nonNullSample h values)
  have hs := h2 .string
  have hn := h2 .number
  have hd := h2 .date
  have hb := h2 .boolean
  rw [← h1] at hs hn hd hb
  have hle : (sampleWinner (nonNullSample h values)).2 ≤ (nonNullSample h values).length := by
    rw [h1, ← hsum]
    cases (sampleWinner (nonNullSample h values)).1 <;> omega
  have hfour : (nonNullSample h values).length
      ≤ 4 * (sampleWinner (nonNullSample h values)).2 := by omega
  refine ⟨hsum, hfour, expectedConfidence (sampleWinner (nonNullSample h values)).2
    (nonNullSample h values).length, ?_, ?_, ?_⟩
  · rw [analyzeColumnType_eq h values hpos]
  · unfold expectedConfidence
    split_ifs
    · omega
    · rw [Nat.le_div_iff_mul_le (by omega)]
      omega
  · unfold expectedConfidence
    split_ifs
    · omega
    · apply Nat.le_of_lt_succ
      rw [Nat.div_lt_iff_lt_mul (by omega)]
      omega

/-- C26, on the column of Scenario B. -/
theorem analyzeColumnType_confidence_range_witness :
    0 < (nonNullSample exampleHost scenarioBColumn).length ∧
    (analyzeColumnType exampleHost scenarioBColumn).confidence = .fin 67 0 ∧
    ∃ n : Nat, (analyzeColumnType exampleHost scenarioBColumn).confidence = .fin n 0 ∧
      25 ≤ n ∧ n ≤ 100 :=
  ⟨by decide, by decide,
    (analyzeColumnType_confidence_range exampleHost scenarioBColumn (by decide)).2.2⟩

/-! ## The summary of a report -/

theorem applyRule_columns (h : Host) (column : String) (value : JSValue) (rule : Rule)
    (acc acc' : List ValidationError × List ValidationError)
    (hok : applyRule h column value acc rule = .ok acc') :
    ∀ e ∈ acc'.1 ++ acc'.2, e.column = column ∨ e ∈ acc.1 ++ acc.2 := by
  unfold applyRule at hok
  split at hok
  · cases hok
    exact fun e he => Or.inr he
  · cases hok
  · cases hok
    exact fun e he => Or.inr he
  · split at hok <;> cases hok <;> intro e he <;>
      simp only [List.mem_append, List.mem_singleton] at he ⊢
    · rcases he with (he | he) | he
      · exact Or.inr (Or.inl he)
      · exact Or.inl (by rw [he]; rfl)
      · exact Or.inr (Or.inr he)
    · rcases he with he | he | he
      · exact Or.inr (Or.inl he)
      · exact Or.inr (Or.inr he)
      · exact Or.inl (by rw [he]; rfl)

theorem foldlM_applyRule_columns (h : Host) (column : String) (value : JSValue)
    (rs : List Rule) :
    ∀ (acc acc' : List ValidationError × List ValidationError),
      rs.foldlM (applyRule h column value) acc = .ok acc' →
      ∀ e ∈ acc'.1 ++ acc'.2, e.column = column ∨ e ∈ acc.1 ++ acc.2 := by
  induction rs with
  | nil =>
    intro acc acc' hok
    simp only [List.foldlM, pure, Except.pure, Except.ok.injEq] at hok
    subst hok
    exact fun e he => Or.inr he
  | cons rule rest ih =>
    intro acc acc' hok
    rw [List.foldlM_cons] at hok
    cases hstep : applyRule h column value acc rule with
    | error e =>
      rw [hstep] at hok
      cases hok
    | ok mid =>
      rw [hstep] at hok
      intro e he
      rcases ih mid acc' hok e he with hc | hm
      · exact Or.inl hc
      · exact applyRule_columns h column value rule acc mid hstep e hm

theorem validateRow_columns_aux (h : Host) (row : Record) (rules : RuleSet) :
    ∀ (acc acc' : List ValidationError × List ValidationError),
      rules.foldlM (applyColumn h row) acc = .ok acc' →
      ∀ e ∈ acc'.1 ++ acc'.2, e.column ∈ rules.map Prod.fst ∨ e ∈ acc.1 ++ acc.2 := by
  induction rules with
  | nil =>
    intro acc acc' hok
    simp only [List.foldlM, pure, Except.pure, Except.ok.injEq] at hok
    subst hok
    exact fun e he => Or.inr he
  | cons entry rest ih =>
    intro acc acc' hok
    rw [List.foldlM_cons] at hok
    cases hstep : applyColumn h row acc entry with
    | error e =>
      rw [hstep] at hok
      cases hok
    | ok mid =>
      rw [hstep] at hok
      intro e he
      rcases ih mid acc' hok e he with hc | hm
      · exact Or.inl (List.mem_cons_of_mem _ hc)
      · rcases foldlM_applyRule_columns h entry.1 (getField row entry.1) entry.2 acc mid hstep
          e hm with hc | ha
        · exact Or.inl (by rw [hc]; exact List.mem_cons_self _ _)
        · exact Or.inr ha

/-- Every entry that `validateRow` returns belongs to a column of the rule set. -/
theorem rowResult_columns (h : Host) (rules : RuleSet) (row : Record) :
    ∀ e ∈ (rowResult h rules row).1 ++ (rowResult h rules row).2,
      e.column ∈ rules.map Prod.fst := by
  intro e he
  unfold rowResult at he
  cases hv : validateRow h row rules with
  | error err =>
    rw [hv] at he
    cases he
  | ok rv =>
    rw [hv] at he
    rcases validateRow_columns_aux h row rules ([], []) rv hv e he with hc | hn
    · exact hc
    · cases hn

theorem loopErrors_columns (h : Host) (rules : RuleSet) (rows : List Record) :
    ∀ i, ∀ e ∈ loopErrors h rules i rows, e.column ∈ rules.map Prod.fst := by
  induction rows with
  | nil => intro i e he; simp [loopErrors] at he
  | cons row rest ih =>
    intro i e he
    simp only [loopErrors, List.mem_append, List.mem_map] at he
    rcases he with ⟨e0, he0, rfl⟩ | he
    · exact rowResult_columns h rules row e0 (List.mem_append_left _ he0)
    · exact ih (i + 1) e he

theorem loopWarnings_columns (h : Host) (rules : RuleSet) (rows : List Record) :
    ∀ i, ∀ e ∈ loopWarnings h rules i rows, e.column ∈ rules.map Prod.fst := by
  induction rows with
  | nil => intro i e he; simp [loopWarnings] at he
  | cons row rest ih =>
    intro i e he
    simp only [loopWarnings, List.mem_append, List.mem_map] at he
    rcases he with ⟨e0, he0, rfl⟩ | he
    · exact rowResult_columns h rules row e0 (List.mem_append_right _ he0)
    · exact ih (i + 1) e he

/-- Over distinct columns that cover the entries, the per-column counts add up to the
number of entries. -/
theorem columnCount_sum (keys : List String) (hkeys : keys.Nodup)
    (entries : List ValidationError) (hcover : ∀ e ∈ entries, e.column ∈ keys) :
    (keys.map fun k => columnCount k entries).sum = entries.length := by
  induction entries with
  | nil => simp [columnCount]
  | cons e rest ih =>
    have hone : ∀ (ks : List String), ks.Nodup → e.column ∈ ks →
        (ks.map fun k => columnCount k (e :: rest)).sum
          = (ks.map fun k => columnCount k rest).sum + 1 := by
      intro ks
      induction ks with
      | nil => intro _ hmem; cases hmem
      | cons k ks ihk =>
        intro hnodup hmem
        rw [List.nodup_cons] at hnodup
        simp only [List.map_cons, List.sum_cons]
        by_cases hk : e.column = k
        · have hnot : ∀ ks' : List String, e.column ∉ ks' →
              (ks'.map fun k => columnCount k (e :: rest))
                = ks'.map fun k => columnCount k rest := by
            intro ks' hnin
            apply List.map_congr_left
            intro k' hk'
            have hne : ¬ e.column = k' := fun he => hnin (he ▸ hk')
            simp [columnCount, List.countP_cons, hne]
          rw [hnot ks (hk ▸ hnodup.1)]
          simp [columnCount, List.countP_cons, hk]
          omega
        · have hmem' : e.column ∈ ks := by
            rcases List.mem_cons.mp hmem with he | he
            · exact absurd he hk
            · exact he
          rw [ihk hnodup.2 hmem']
          simp [columnCount, List.countP_cons, hk]
          omega
    rw [hone keys hkeys (hcover e (List.mem_cons_self _ _)),
      ih (fun x hx => hcover x (List.mem_cons_of_mem _ hx)), List.length_cons]

/-- C27: in a report returned by `validateDataset` the summary has the columns of the rule
set; in each of its entries `invalidRows` equals `errors`; and the `errors` of the entries
add up to `totalErrors`, the `warnings` to `totalWarnings`. -/
theorem validateDataset_summary (h : Host) (rows : List Record) (rules : RuleSet) (r : Report)
    (hr : validateDataset h rows rules = .ok r) (hkeys : (rules.map Prod.fst).Nodup) :
    r.summary.map Prod.fst = rules.map Prod.fst ∧
    (∀ kv ∈ r.summary, kv.2.invalidRows = kv.2.errors) ∧
    (∀ kv ∈ r.summary, kv.2.errors = columnCount kv.1 r.errors) ∧
    (r.summary.map fun kv => kv.2.errors).sum = r.totalErrors ∧
    (r.summary.map fun kv => kv.2.warnings).sum = r.totalWarnings := by
  unfold validateDataset at hr
  obtain ⟨_, hreport⟩ := validateLoop_eq h rules rows 0 _ r hr
  have hsummary : r.summary = rules.map fun kv =>
      (kv.1, ({ errors := columnCount kv.1 (loopErrors h rules 0 rows)
                warnings := columnCount kv.1 (loopWarnings h rules 0 rows)
                invalidRows := columnCount kv.1 (loopErrors h rules 0 rows) } : ColumnSummary)) := by
    rw [hreport]
    simp only [addToSummary, List.map_map]
    apply List.map_congr_left
    intro kv _
    simp
  have herrors : r.errors = loopErrors h rules 0 rows := by
    rw [hreport]
    rfl
  have htotalE : r.totalErrors = (loopErrors h rules 0 rows).length := by
    rw [hreport]
    simp
  have htotalW : r.totalWarnings = (loopWarnings h rules 0 rows).length := by
    rw [hreport]
    simp
  refine ⟨?_, ?_, ?_, ?_, ?_⟩
  · rw [hsummary, List.map_map]
    rfl
  · intro kv hkv
    rw [hsummary] at hkv
    obtain ⟨x, _, rfl⟩ := List.mem_map.mp hkv
    rfl
  · intro kv hkv
    rw [hsummary] at hkv
    obtain ⟨x, _, rfl⟩ := List.mem_map.mp hkv
    rw [herrors]
  · rw [hsummary, List.map_map, htotalE,
      ← columnCount_sum (rules.map Prod.fst) hkeys (loopErrors h rules 0 rows)
        (loopErrors_columns h rules rows 0), List.map_map]
    rfl
  · rw [hsummary, List.map_map, htotalW,
      ← columnCount_sum (rules.map Prod.fst) hkeys (loopWarnings h rules 0 rows)
        (loopWarnings_columns h rules rows 0), List.map_map]
    rfl

theorem validateDataset_twoRule :
    validateDataset exampleHost twoRuleRows twoRuleRules = .ok twoRuleReport := by
  rfl

/-- C27, on a row whose cell `age` fails two rules: `invalidRows` of the column is 2 although
the dataset has one row. -/
theorem validateDataset_summary_witness :
    validateDataset exampleHost twoRuleRows twoRuleRules = .ok twoRuleReport ∧
    (twoRuleRules.map Prod.fst).Nodup ∧
    twoRuleReport.totalRows = 1 ∧
    twoRuleReport.summary = [("age", ⟨2, 0, 2⟩), ("name", ⟨0, 1, 0⟩)] ∧
    (∀ kv ∈ twoRuleReport.summary, kv.2.invalidRows = kv.2.errors) ∧
    (twoRuleReport.summary.map fun kv => kv.2.errors).sum = twoRuleReport.totalErrors ∧
    (twoRuleReport.summary.map fun kv => kv.2.warnings).sum = twoRuleReport.totalWarnings :=
  ⟨validateDataset_twoRule, by decide, rfl, rfl,
    (validateDataset_summary exampleHost twoRuleRows twoRuleRules twoRuleReport
      validateDataset_twoRule (by decide)).2.1,
    (validateDataset_summary exampleHost twoRuleRows twoRuleRules twoRuleReport
      validateDataset_twoRule (by decide)).2.2.2.1,
    (validateDataset_summary exampleHost twoRuleRows twoRuleRules twoRuleReport
      validateDataset_twoRule (by decide)).2.2.2.2⟩

/-! ## The validators on falsy values -/

/-- Every validator other than `required`, called through `validators[type]`, passes on
every falsy value, provided the parameters of a `date_range` rule are neither `null` nor
`undefined`. -/
theorem validators_on_falsy (h : Host) (kind : String) (params value : JSValue)
    (hk : kind ∈ ["email", "phone", "url", "min_length", "max_length", "min_value", "max_value",
      "regex", "date_range", "enum"])
    (hp : kind = "date_range" → params ≠ .null ∧ params ≠ .undefined)
    (hv : truthy value = false) :
    callValidator h kind value params = some (.ok true) := by
  simp only [List.mem_cons, List.mem_singleton, List.not_mem_nil, or_false] at hk
  rcases hk with rfl | rfl | rfl | rfl | rfl | rfl | rfl | rfl | rfl | rfl
  · simp [callValidator, validators.email, hv]
  · simp [callValidator, validators.phone, hv]
  · simp [callValidator, validators.url, hv]
  · simp [callValidator, validators.min_length, hv]
  · simp [callValidator, validators.max_length, hv]
  · simp [callValidator, validators.min_value, hv]
  · simp [callValidator, validators.max_value, hv]
  · simp [callValidator, validators.regex, hv]
  · have := hp rfl
    cases params <;> simp_all [callValidator, validators.date_range]
  · cases params <;> simp [callValidator, validators.enum, hv]

/-- C28 fails on the code for the kind `date_range` with `params = null`: the parameters are
destructured before the value is looked at, so the call throws on the number 0 and on the
boolean `false` instead of passing.  With a bound of 5, `min_value` passes on the number 0 and
on `false`, and fails on the string `0`. -/
theorem date_range_throws_on_falsy (h : Host) :
    truthy (.num (.ofNat 0)) = false ∧
    truthy (.bool false) = false ∧
    callValidator h "date_range" (.num (.ofNat 0)) .null
      = some (.error (.typeError "Cannot destructure property 'min_date' of null")) ∧
    callValidator h "date_range" (.bool false) .null
      = some (.error (.typeError "Cannot destructure property 'min_date' of null")) ∧
    callValidator h "min_value" (.num (.ofNat 0)) (.num (.ofNat 5)) = some (.ok true) ∧
    callValidator h "min_value" (.bool false) (.num (.ofNat 5)) = some (.ok true) ∧
    callValidator h "min_value" (.str "0") (.num (.ofNat 5)) = some (.ok false) := by
  refine ⟨rfl, rfl, rfl, rfl, rfl, rfl, ?_⟩
  rw [callValidator_min_value, min_value_host_free h exampleHost]
  rfl

/-! ## Cleaning twice -/

theorem trimEnd_trimEnd (cs : List Char) : trimEnd (trimEnd cs) = trimEnd cs := by
  unfold trimEnd
  rw [List.reverse_reverse, List.dropWhile_idempotent]

theorem trimStart_trimEnd_trimStart (cs : List Char) :
    trimStart (trimEnd (trimStart cs)) = trimEnd (trimStart cs) := by
  have hpre : trimEnd (trimStart cs) <+: trimStart cs := by
    unfold trimEnd
    have hsuf := List.dropWhile_suffix isWhiteSpace (l := (trimStart cs).reverse)
    have := List.reverse_prefix.mpr hsuf
    rwa [List.reverse_reverse] at this
  cases hm : trimEnd (trimStart cs) with
  | nil => rfl
  | cons a m =>
    rw [hm] at hpre
    obtain ⟨t, ht⟩ := hpre
    have hhead := List.head?_dropWhile_not isWhiteSpace cs
    have hstart : trimStart cs = cs.dropWhile isWhiteSpace := rfl
    rw [← hstart, ← ht] at hhead
    simp only [List.cons_append, List.head?_cons] at hhead
    show (a :: m).dropWhile isWhiteSpace = a :: m
    rw [List.dropWhile_cons_of_neg (by simpa using hhead)]

/-- Trimming is idempotent. -/
theorem jsTrim_jsTrim (s : String) : jsTrim (jsTrim s) = jsTrim s := by
  unfold jsTrim
  show String.mk (trimEnd (trimStart (trimEnd (trimStart s.toList))))
    = String.mk (trimEnd (trimStart s.toList))
  rw [trimStart_trimEnd_trimStart, trimEnd_trimEnd]

theorem fixCell_no_defaults (i : Nat) (c : String) (v : JSValue) :
    fixCell [] i c v = trimStep i c v := by
  unfold fixCell defaultStep
  simp [getField, truthy]

theorem trimStep_trimStep (i j : Nat) (c : String) (v : JSValue) :
    trimStep j c (trimStep i c v).1 = ((trimStep i c v).1, []) := by
  cases v with
  | str s =>
    rw [trimStep_str]
    unfold trimStep
    simp [jsTrim_jsTrim]
  | _ => rfl

theorem cleanedRowOf_no_defaults (options : CleaningOptions)
    (hfix : options.fixCommonIssues = true) (hdef : options.defaultValues = [])
    (i : Nat) (row : Record) (hkeys : (row.map Prod.fst).Nodup) :
    cleanedRowOf options i row = row.map fun kv => (kv.1, (trimStep i kv.1 kv.2).1) := by
  unfold cleanedRowOf
  rw [if_pos hfix, fixRow_cells _ _ _ _ hkeys, hdef]
  apply List.map_congr_left
  intro kv _
  rw [fixCell_no_defaults]

/-- A row whose string cells are all trimmed stays as it is and gives no log entry. -/
theorem clean_row_fixed (options : CleaningOptions) (hdef : options.defaultValues = [])
    (j : Nat) (row : Record) (hkeys : (row.map Prod.fst).Nodup)
    (hclean : ∀ kv ∈ row, trimStep j kv.1 kv.2 = (kv.2, [])) :
    cleanedRowOf options j row = row ∧
    (fixRow options.defaultValues j row []).2 = [] := by
  constructor
  · by_cases hfix : options.fixCommonIssues = true
    · rw [cleanedRowOf_no_defaults options hfix hdef j row hkeys]
      conv_rhs => rw [← List.map_id row]
      apply List.map_congr_left
      intro kv hkv
      rw [hclean kv hkv]
      rfl
    · unfold cleanedRowOf
      rw [if_neg hfix]
  · rw [fixRow_log, List.nil_append, hdef]
    rw [List.flatMap_eq_nil_iff]
    intro kv hkv
    rw [fixCell_no_defaults, hclean kv hkv]

theorem hasRowError_of_no_errors (validationResults : Report)
    (herr : validationResults.errors = []) (i : Nat) :
    hasRowError validationResults i = false := by
  unfold hasRowError
  rw [herr]
  rfl

/-- When no row is dropped and every row is its own cleaned form, `cleanData` returns the
rows. -/
theorem cleanData_fixed (h : Host) (rows : List Record) (validationResults : Report)
    (options : CleaningOptions)
    (hkept : ∀ i, isDropped validationResults options i = false)
    (hrows : ∀ ir ∈ rows.enum, cleanedRowOf options ir.1 ir.2 = ir.2)
    (hlog : ∀ ir ∈ rows.enum, rowLogOf h validationResults options ir.1 ir.2 = []) :
    (cleanData h rows validationResults options).cleanedRows = rows ∧
    (cleanData h rows validationResults options).cleaningLog = [] ∧
    (cleanData h rows validationResults options).removedCount = 0 := by
  obtain ⟨h1, h2⟩ := cleanData_eq h rows validationResults options
  have hall : keptRows validationResults options rows = rows.enum := by
    unfold keptRows
    rw [List.filter_eq_self]
    intro ir _
    rw [hkept]
    rfl
  have hcleaned : (cleanData h rows validationResults options).cleanedRows = rows := by
    rw [h1, hall]
    conv_rhs => rw [← List.enum_map_snd rows]
    exact List.map_congr_left hrows
  refine ⟨hcleaned, ?_, ?_⟩
  · rw [h2, List.flatMap_eq_nil_iff]
    exact hlog
  · show rows.length - (cleanData h rows validationResults options).cleanedRows.length = 0
    rw [hcleaned]
    omega

/-- C30: with `fixCommonIssues = true` and no default values, cleaning the cleaned rows of a
first call again, with a report without errors and no default values, returns the same rows,
an empty log and `removedCount = 0`; and with `removeInvalidRows = false` and
`fixCommonIssues = false`, `cleanData` returns the rows it was given and an empty log. -/
theorem cleanData_idempotent (h : Host) (rows : List Record)
    (validationResults second : Report) (options options2 : CleaningOptions)
    (hfix : options.fixCommonIssues = true) (hdef : options.defaultValues = [])
    (hdef2 : options2.defaultValues = []) (herr : second.errors = [])
    (hkeys : ∀ row ∈ rows, (row.map Prod.fst).Nodup) :
    (cleanData h (cleanData h rows validationResults options).cleanedRows second
        options2).cleanedRows
      = (cleanData h rows validationResults options).cleanedRows ∧
    (cleanData h (cleanData h rows validationResults options).cleanedRows second
        options2).cleaningLog = [] ∧
    (cleanData h (cleanData h rows validationResults options).cleanedRows second
        options2).removedCount = 0 ∧
    (∀ (plain : CleaningOptions) (report : Report) (input : List Record),
      plain.removeInvalidRows = false → plain.fixCommonIssues = false →
      (cleanData h input report plain).cleanedRows = input ∧
      (cleanData h input report plain).cleaningLog = [] ∧
      (cleanData h input report plain).removedCount = 0) := by
  have hfirst : ∀ row' ∈ (cleanData h rows validationResults options).cleanedRows,
      (row'.map Prod.fst).Nodup ∧ ∀ j, ∀ kv ∈ row', trimStep j kv.1 kv.2 = (kv.2, []) := by
    intro row' hrow'
    rw [(cleanData_eq h rows validationResults options).1] at hrow'
    obtain ⟨ir, hir, rfl⟩ := List.mem_map.mp hrow'
    have hmem : ir.2 ∈ rows := by
      have := (List.mem_filter.mp hir).1
      exact List.snd_mem_of_mem_enum this
    have hk := hkeys ir.2 hmem
    rw [cleanedRowOf_no_defaults options hfix hdef ir.1 ir.2 hk]
    constructor
    · rw [List.map_map]
      exact hk
    · intro j kv hkv
      obtain ⟨x, _, rfl⟩ := List.mem_map.mp hkv
      exact trimStep_trimStep ir.1 j x.1 x.2
  have hkept : ∀ i, isDropped second options2 i = false := by
    intro i
    unfold isDropped
    rw [hasRowError_of_no_errors second herr, Bool.and_false]
  refine ⟨?_, ?_, ?_, ?_⟩
  · refine (cleanData_fixed h _ second options2 hkept ?_ ?_).1
    · intro ir hir
      have hmem := List.snd_mem_of_mem_enum hir
      exact (clean_row_fixed options2 hdef2 ir.1 ir.2 (hfirst _ hmem).1
        ((hfirst _ hmem).2 ir.1)).1
    · intro ir hir
      have hmem := List.snd_mem_of_mem_enum hir
      unfold rowLogOf
      rw [hkept]
      simp only [Bool.false_eq_true, if_false]
      split_ifs
      · exact (clean_row_fixed options2 hdef2 ir.1 ir.2 (hfirst _ hmem).1
          ((hfirst _ hmem).2 ir.1)).2
      · rfl
  · refine (cleanData_fixed h _ second options2 hkept ?_ ?_).2.1
    · intro ir hir
      have hmem := List.snd_mem_of_mem_enum hir
      exact (clean_row_fixed options2 hdef2 ir.1 ir.2 (hfirst _ hmem).1
        ((hfirst _ hmem).2 ir.1)).1
    · intro ir hir
      have hmem := List.snd_mem_of_mem_enum hir
      unfold rowLogOf
      rw [hkept]
      simp only [Bool.false_eq_true, if_false]
      split_ifs
      · exact (clean_row_fixed options2 hdef2 ir.1 ir.2 (hfirst _ hmem).1
          ((hfirst _ hmem).2 ir.1)).2
      · rfl
  · refine (cleanData_fixed h _ second options2 hkept ?_ ?_).2.2
    · intro ir hir
      have hmem := List.snd_mem_of_mem_enum hir
      exact (clean_row_fixed options2 hdef2 ir.1 ir.2 (hfirst _ hmem).1
        ((hfirst _ hmem).2 ir.1)).1
    · intro ir hir
      have hmem := List.snd_mem_of_mem_enum hir
      unfold rowLogOf
      rw [hkept]
      simp only [Bool.false_eq_true, if_false]
      split_ifs
      · exact (clean_row_fixed options2 hdef2 ir.1 ir.2 (hfirst _ hmem).1
          ((hfirst _ hmem).2 ir.1)).2
      · rfl
  · intro plain report input hremove hplain
    refine cleanData_fixed h input report plain ?_ ?_ ?_
    · intro i
      unfold isDropped
      rw [hremove, Bool.false_and]
    · intro ir _
      unfold cleanedRowOf
      rw [hplain]
      rfl
    · intro ir _
      unfold rowLogOf isDropped
      rw [hremove, hplain]
      rfl

/-- C30, on a row with a blank and a padded cell. -/
theorem cleanData_idempotent_witness :
    trimOptions.fixCommonIssues = true ∧ trimOptions.defaultValues = [] ∧
    emptyReport.errors = [] ∧
    (∀ row ∈ paddedRows, (row.map Prod.fst).Nodup) ∧
    (cleanData exampleHost paddedRows scenarioDReport trimOptions).cleanedRows
      = [[("c", .str ""), ("d", .str "x")]] ∧
    (cleanData exampleHost (cleanData exampleHost paddedRows scenarioDReport
        trimOptions).cleanedRows emptyReport trimOptions).cleanedRows
      = (cleanData exampleHost paddedRows scenarioDReport trimOptions).cleanedRows ∧
    (cleanData exampleHost (cleanData exampleHost paddedRows scenarioDReport
        trimOptions).cleanedRows emptyReport trimOptions).cleaningLog = [] ∧
    (cleanData exampleHost (cleanData exampleHost paddedRows scenarioDReport
        trimOptions).cleanedRows emptyReport trimOptions).removedCount = 0 ∧
    (cleanData exampleHost paddedRows scenarioDReport keepOptions).cleanedRows = paddedRows :=
  ⟨rfl, rfl, rfl, by decide, rfl,
    (cleanData_idempotent exampleHost paddedRows scenarioDReport emptyReport trimOptions
      trimOptions rfl rfl rfl rfl (by decide)).1,
    (cleanData_idempotent exampleHost paddedRows scenarioDReport emptyReport trimOptions
      trimOptions rfl rfl rfl rfl (by decide)).2.1,
    (cleanData_idempotent exampleHost paddedRows scenarioDReport emptyReport trimOptions
      trimOptions rfl rfl rfl rfl (by decide)).2.2.1,
    ((cleanData_idempotent exampleHost paddedRows scenarioDReport emptyReport trimOptions
      trimOptions rfl rfl rfl rfl (by decide)).2.2.2 keepOptions scenarioDReport paddedRows
      rfl rfl).1⟩

/-! ## The boolean literals of the coercion and of the inferencer -/

theorem isWhiteSpace_asciiLower (c : Char) : isWhiteSpace (asciiLower c) = isWhiteSpace c := by
  unfold asciiLower
  split_ifs with hc
  · have h1 : isWhiteSpace c = false := by
      unfold isWhiteSpace
      simp only [decide_eq_false_iff_not]
      omega
    have h2 : (Char.ofNat (c.toNat + 32)).toNat = c.toNat + 32 := by
      unfold Char.ofNat
      have hv : (c.toNat + 32).isValidChar := Or.inl (by omega)
      simp only [hv, dite_true]
      unfold Char.ofNatAux Char.toNat
      simp [UInt32.toNat]
    rw [h1]
    unfold isWhiteSpace
    simp only [h2, decide_eq_false_iff_not]
    omega
  · rfl

/-- A boolean literal of the inferencer has no white space and is not empty. -/
theorem booleanLiteral_shape (s : String) (hs : isBooleanLiteral s = true) :
    jsTrim s = s ∧ s ≠ "" := by
  unfold isBooleanLiteral at hs
  rw [List.any_eq_true] at hs
  obtain ⟨l, hl, heq⟩ := hs
  have heq' : s.toList.map asciiLower = l.toList := by simpa using heq
  have hws : ∀ l ∈ booleanLiterals, ∀ c ∈ l.toList, isWhiteSpace c = false := by decide
  have hne : ∀ l ∈ booleanLiterals, l.toList ≠ [] := by decide
  constructor
  · have hall : ∀ c ∈ s.toList, isWhiteSpace c = false := by
      intro c hc
      rw [← isWhiteSpace_asciiLower]
      apply hws l hl
      rw [← heq']
      exact List.mem_map_of_mem _ hc
    unfold jsTrim
    rw [trim_eq_self _ hall]
    rfl
  · intro hempty
    rw [hempty] at heq'
    exact hne l hl heq'.symm

theorem coercion_subset (s : String) (hs : isCoercionLiteral s = true) :
    isBooleanLiteral s = true := by
  unfold isCoercionLiteral at hs
  unfold isBooleanLiteral
  rw [List.any_eq_true] at hs ⊢
  obtain ⟨l, hl, heq⟩ := hs
  have hsub : ∀ l ∈ coercionLiterals, l ∈ booleanLiterals := by decide
  exact ⟨l, hsub l hl, heq⟩

/-- A column that holds one boolean literal is typed `boolean`. -/
theorem analyzeColumnType_boolean_literal (h : Host) (s : String)
    (hs : isBooleanLiteral s = true) :
    classify (jsTrim s) = .boolean ∧ (analyzeColumnType h [.str s]).type = "boolean" := by
  obtain ⟨htrim, hne⟩ := booleanLiteral_shape s hs
  have hclass : classify (jsTrim s) = .boolean := by
    rw [htrim]
    unfold classify
    rw [hs]
    rfl
  have hnull : isNullValue h (.str s) = false := by
    unfold isNullValue isNullish
    simp only [toStr, htrim, Bool.or_self, beq_eq_false_iff_ne, ne_eq]
    exact hne
  have hsample : nonNullSample h [.str s] = [jsTrim s] := by
    unfold nonNullSample trimmedNonNull
    simp [hnull, toStr]
  refine ⟨hclass, ?_⟩
  rw [analyzeColumnType_eq h [.str s] (by rw [hsample]; exact Nat.zero_lt_one), hsample]
  simp only [sampleWinner, bucketCount, List.countP_cons, List.countP_nil, hclass]
  rfl

theorem ok_tamam_not_coerced (t : String)
    (ht : t.toList.map asciiLower = "ok".toList ∨ t.toList.map asciiLower = "tamam".toList) :
    isBooleanLiteral t = true ∧ isCoercionLiteral t = false := by
  unfold isBooleanLiteral isCoercionLiteral
  rcases ht with ht | ht <;> rw [ht] <;> exact ⟨by decide, by decide⟩

/-- C29: every string that the boolean coercion of the transformation step converts is a
boolean literal of `analyzeColumnType`, which types a column holding it `boolean`; the
strings `ok` and `tamam`, in any letter case, are boolean literals of `analyzeColumnType` but
are left as they are by the coercion. -/
theorem boolean_coercion_subset (rt : Runtime) (s : String)
    (hs : isCoercionLiteral s = true) :
    coerceValue rt (.str "boolean") (.str s) = .bool (isTrueLiteral s) ∧
    isBooleanLiteral s = true ∧
    classify (jsTrim s) = .boolean ∧
    (analyzeColumnType rt.toHost [.str s]).type = "boolean" ∧
    (∀ t : String,
      t.toList.map asciiLower = "ok".toList ∨ t.toList.map asciiLower = "tamam".toList →
      isBooleanLiteral t = true ∧
      (analyzeColumnType rt.toHost [.str t]).type = "boolean" ∧
      isCoercionLiteral t = false ∧
      coerceValue rt (.str "boolean") (.str t) = .str t) := by
  have hbool := coercion_subset s hs
  obtain ⟨hclass, htype⟩ := analyzeColumnType_boolean_literal rt.toHost s hbool
  have hcoerce : ∀ u : String, coerceValue rt (.str "boolean") (.str u)
      = if isCoercionLiteral u then .bool (isTrueLiteral u) else .str u := by
    intro u
    unfold coerceValue
    rw [if_neg (by decide), if_pos (by decide)]
    rfl
  refine ⟨?_, hbool, hclass, htype, ?_⟩
  · rw [hcoerce, hs]
    rfl
  · intro t ht
    obtain ⟨h1, h2⟩ := ok_tamam_not_coerced t ht
    refine ⟨h1, (analyzeColumnType_boolean_literal rt.toHost t h1).2, h2, ?_⟩
    rw [hcoerce, h2]
    rfl

/-- C29, on the literal `Evet` and on the string `TAMAM`. -/
theorem boolean_coercion_subset_witness :
    isCoercionLiteral "Evet" = true ∧
    coerceValue exampleRuntime (.str "boolean") (.str "Evet") = .bool true ∧
    (analyzeColumnType exampleHost [.str "Evet"]).type = "boolean" ∧
    (analyzeColumnType exampleHost [.str "TAMAM"]).type = "boolean" ∧
    coerceValue exampleRuntime (.str "boolean") (.str "TAMAM") = .str "TAMAM" :=
  ⟨by decide,
    (boolean_coercion_subset exampleRuntime "Evet" (by decide)).1,
    (boolean_coercion_subset exampleRuntime "Evet" (by decide)).2.2.2.1,
    ((boolean_coercion_subset exampleRuntime "Evet" (by decide)).2.2.2.2 "TAMAM"
      (Or.inr (by decide))).2.1,
    ((boolean_coercion_subset exampleRuntime "Evet" (by decide)).2.2.2.2 "TAMAM"
      (Or.inr (by decide))).2.2.2⟩

/-! ## The rows of the transformation step -/

theorem setField_new (r : Record) (key : String) (v : JSValue)
    (hnew : key ∉ r.map Prod.fst) : setField r key v = r ++ [(key, v)] := by
  induction r with
  | nil => rfl
  | cons kv rest ih =>
    rw [List.map_cons, List.mem_cons, not_or] at hnew
    have hne : (kv.1 == key) = false := by
      rw [beq_eq_false_iff_ne]
      exact fun he => hnew.1 he.symm
    rw [setField, hne, ih hnew.2]
    rfl

/-- The transformed row and the errors of one record none of whose cells is an ill-formed
string. -/
theorem foldlM_transformStep (rt : Runtime) (targetType : Option Record) (i : Nat)
    (row : Record) :
    ∀ (transformations : List (String × JSValue)) (acc : Record × List TransformError),
      (transformations.map Prod.fst).Nodup →
      (∀ entry ∈ transformations, entry.1 ∉ acc.1.map Prod.fst) →
      (∀ entry ∈ transformations, ∀ units,
        transformCell rt targetType row entry.1 entry.2 ≠ .illFormed units) →
      transformations.foldlM (transformStep rt targetType i row) acc
        = some (acc.1 ++ transformedCells rt targetType transformations row,
            acc.2 ++ cellErrors rt targetType transformations i row) := by
  intro transformations
  induction transformations with
  | nil => intro acc _ _ _; simp [transformedCells, cellErrors]
  | cons entry rest ih =>
    intro acc hnodup hnew hrep
    rw [List.map_cons, List.nodup_cons] at hnodup
    rw [List.foldlM_cons]
    cases hcell : transformCell rt targetType row entry.1 entry.2 with
    | illFormed units => exact absurd hcell (hrep entry (List.mem_cons_self _ _) units)
    | error message =>
      have hstep : transformStep rt targetType i row acc entry
          = some (acc.1, acc.2 ++ [{ row := i + 1, column := entry.1, error := message,
                                     originalValue := getField row entry.1 }]) := by
        unfold transformStep
        rw [hcell]
      rw [hstep]
      show List.foldlM _ _ rest = _
      rw [ih (acc.1, acc.2 ++ [(⟨i + 1, entry.1, message, getField row entry.1⟩ : TransformError)])
        hnodup.2 (fun x hx => hnew x (List.mem_cons_of_mem _ hx))
        (fun x hx => hrep x (List.mem_cons_of_mem _ hx))]
      simp [transformedCells, cellErrors, hcell]
    | ok value =>
      have hstep : transformStep rt targetType i row acc entry
          = some (acc.1 ++ [(entry.1, value)], acc.2) := by
        unfold transformStep
        rw [hcell]
        show some (setField acc.1 entry.1 value, acc.2) = _
        rw [setField_new _ _ _ (hnew entry (List.mem_cons_self _ _))]
      rw [hstep]
      show List.foldlM _ _ rest = _
      rw [ih (acc.1 ++ [(entry.1, value)], acc.2) hnodup.2 (by
          intro x hx
          simp only [List.map_append, List.map_cons, List.map_nil, List.mem_append,
            List.mem_singleton, not_or]
          refine ⟨hnew x (List.mem_cons_of_mem _ hx), ?_⟩
          intro he
          exact hnodup.1 (he ▸ List.mem_map_of_mem Prod.fst hx))
        (fun x hx => hrep x (List.mem_cons_of_mem _ hx))]
      simp [transformedCells, cellErrors, hcell]

theorem transformLoop_eq (rt : Runtime) (transformations : List (String × JSValue))
    (targetType : Option Record) (hkeys : (transformations.map Prod.fst).Nodup) :
    ∀ (rows : List Record) (i : Nat) (acc : List Record × List TransformError),
      (∀ row ∈ rows, ∀ entry ∈ transformations, ∀ units,
        transformCell rt targetType row entry.1 entry.2 ≠ .illFormed units) →
      transformLoop rt transformations targetType i rows acc
        = some (acc.1 ++ rows.map (transformedCells rt targetType transformations),
            acc.2 ++ (rows.enumFrom i).flatMap
              fun ir => cellErrors rt targetType transformations ir.1 ir.2) := by
  intro rows
  induction rows with
  | nil => intro i acc _; simp [transformLoop]
  | cons row rest ih =>
    intro i acc hrep
    rw [transformLoop,
      foldlM_transformStep rt targetType i row transformations ([], acc.2) hkeys
        (fun _ _ hmem => nomatch hmem) (hrep row (List.mem_cons_self _ _))]
    simp only []
    rw [ih _ _ (fun x hx => hrep x (List.mem_cons_of_mem _ hx))]
    simp [List.enumFrom_cons]

/-- The answer of `/transform-data` to a non-empty dataset none of whose transformed cells
is an ill-formed string: every record gives the cells whose transformation did not throw,
and the errors are those of the records in row order. -/
theorem transformData_eq (rt : Runtime) (rows : List Record)
    (transformations : List (String × JSValue)) (targetType : Option Record)
    (hrows : rows ≠ []) (hkeys : (transformations.map Prod.fst).Nodup)
    (hrep : ∀ row ∈ rows, ∀ entry ∈ transformations, ∀ units,
      transformCell rt targetType row entry.1 entry.2 ≠ .illFormed units) :
    transformData rt rows transformations targetType
      = .ok
        { transformedRows := rows.map (transformedCells rt targetType transformations)
          totalRows := rows.length
          errors := rows.enum.flatMap
            fun ir => cellErrors rt targetType transformations ir.1 ir.2
          errorCount := (rows.enum.flatMap
            fun ir => cellErrors rt targetType transformations ir.1 ir.2).length } := by
  unfold transformData
  have hlen : ¬ rows.length = 0 := fun h0 => hrows (List.length_eq_zero.mp h0)
  rw [if_neg hlen, transformLoop_eq rt transformations targetType hkeys rows 0 ([], []) hrep]
  simp [List.enum]

theorem transformCell_disabled (rt : Runtime) (targetType : Option Record) (row : Record)
    (entry : String × JSValue) (hoff : isEnabled entry.2 = false)
    (hnone : truthy (targetOf targetType entry.1) = false) :
    transformCell rt targetType row entry.1 entry.2 = .ok (getField row entry.1) := by
  unfold transformCell
  rw [hoff, hnone]
  rfl

theorem projectRow_self (row : Record) (transformations : List (String × JSValue))
    (hsame : transformations.map Prod.fst = row.map Prod.fst)
    (hkeys : (row.map Prod.fst).Nodup) : projectRow transformations row = row := by
  have h1 : projectRow transformations row
      = (transformations.map Prod.fst).map fun k => (k, getField row k) := by
    unfold projectRow
    rw [List.map_map]
    rfl
  rw [h1, hsame, List.map_map]
  conv_rhs => rw [← List.map_id row]
  apply List.map_congr_left
  intro kv hkv
  show (kv.1, getField row kv.1) = kv
  rw [getField_of_mem row hkeys kv.1 kv.2 hkv]

/-- A column of the record that the transformations do not name is missing from the
transformed record. -/
theorem transform_disabled_counterexample :
    isEnabled (.obj [("type", .str "trim"), ("enabled", .bool false)]) = false ∧
    transformData exampleRuntime [[("a", .str "x"), ("b", .str "y")]]
        [("a", .obj [("type", .str "trim"), ("enabled", .bool false)])] none
      = .ok { transformedRows := [[("a", .str "x")]], totalRows := 1, errors := [],
              errorCount := 0 } :=
  ⟨rfl, rfl⟩

/-- C21 (amended): on a non-empty dataset, with every operation disabled and no target type
configured, the transformation step returns for each record its restriction to the columns
of the transformations, in their order (a column that the record lacks holds `undefined`),
and no error; a record whose columns are those of the transformations, in the same order, is
returned as it is. -/
theorem transformData_disabled (rt : Runtime) (rows : List Record)
    (transformations : List (String × JSValue)) (targetType : Option Record)
    (hrows : rows ≠ []) (hkeys : (transformations.map Prod.fst).Nodup)
    (hoff : ∀ entry ∈ transformations, isEnabled entry.2 = false)
    (hnone : ∀ entry ∈ transformations, truthy (targetOf targetType entry.1) = false) :
    transformData rt rows transformations targetType
      = .ok { transformedRows := rows.map (projectRow transformations)
              totalRows := rows.length
              errors := []
              errorCount := 0 } ∧
    (∀ row ∈ rows, ∀ entry ∈ transformations,
      getField (projectRow transformations row) entry.1 = getField row entry.1) ∧
    (∀ row ∈ rows, transformations.map Prod.fst = row.map Prod.fst →
      projectRow transformations row = row) ∧
    ((∀ row ∈ rows, transformations.map Prod.fst = row.map Prod.fst) →
      transformData rt rows transformations targetType
        = .ok { transformedRows := rows, totalRows := rows.length, errors := [],
                errorCount := 0 }) := by
  have hcells : ∀ row, transformedCells rt targetType transformations row
      = projectRow transformations row := by
    intro row
    unfold transformedCells projectRow
    rw [← List.filterMap_eq_map]
    apply List.filterMap_congr
    intro entry hentry
    rw [transformCell_disabled rt targetType row entry (hoff entry hentry) (hnone entry hentry)]
    rfl
  have herrors : ∀ i row, cellErrors rt targetType transformations i row = [] := by
    intro i row
    unfold cellErrors
    rw [List.filterMap_eq_nil_iff]
    intro entry hentry
    rw [transformCell_disabled rt targetType row entry (hoff entry hentry) (hnone entry hentry)]
  have hself : ∀ row ∈ rows, transformations.map Prod.fst = row.map Prod.fst →
      projectRow transformations row = row := by
    intro row _ hsame
    exact projectRow_self row transformations hsame (hsame ▸ hkeys)
  have hmain : transformData rt rows transformations targetType
      = .ok { transformedRows := rows.map (projectRow transformations)
              totalRows := rows.length
              errors := []
              errorCount := 0 } := by
    rw [transformData_eq rt rows transformations targetType hrows hkeys
      (fun row _ entry hentry units hbad => by
        rw [transformCell_disabled rt targetType row entry (hoff entry hentry)
          (hnone entry hentry)] at hbad
        cases hbad)]
    have hmap : rows.map (transformedCells rt targetType transformations)
        = rows.map (projectRow transformations) := List.map_congr_left fun row _ => hcells row
    have hflat : (rows.enum.flatMap
        fun ir => cellErrors rt targetType transformations ir.1 ir.2) = [] := by
      rw [List.flatMap_eq_nil_iff]
      intro ir _
      exact herrors ir.1 ir.2
    rw [hmap, hflat]
    rfl
  have hcell : ∀ row ∈ rows, ∀ entry ∈ transformations,
      getField (projectRow transformations row) entry.1 = getField row entry.1 := by
    intro row _ entry hentry
    apply getField_of_mem
    · unfold projectRow
      rw [List.map_map]
      exact hkeys
    · exact List.mem_map.mpr ⟨entry, hentry, rfl⟩
  refine ⟨hmain, hcell, hself, ?_⟩
  intro hall
  rw [hmain]
  have hid : rows.map (projectRow transformations) = rows := by
    conv_rhs => rw [← List.map_id rows]
    exact List.map_congr_left fun row hrow => hself row hrow (hall row hrow)
  rw [hid]

/-- C21, on a record whose two columns are named by the transformations. -/
theorem transformData_disabled_witness :
    pairRows ≠ [] ∧
    transformData exampleRuntime pairRows
        [("a", .obj [("type", .str "trim"), ("enabled", .bool false)]), ("b", .null)] none
      = .ok { transformedRows := pairRows, totalRows := 1, errors := [], errorCount := 0 } :=
  ⟨List.cons_ne_nil _ _,
    (transformData_disabled exampleRuntime pairRows
      [("a", .obj [("type", .str "trim"), ("enabled", .bool false)]), ("b", .null)] none
      (List.cons_ne_nil _ _) (by decide)
      (by
        intro entry hentry
        simp only [List.mem_cons, List.mem_singleton, List.not_mem_nil, or_false] at hentry
        rcases hentry with rfl | rfl <;> rfl)
      (fun _ _ => rfl)).2.2.2
      (by
        intro row hrow
        simp only [pairRows, List.mem_singleton] at hrow
        subst hrow
        rfl)⟩

/-! ## Formulas -/

theorem upperOf_ascii_list (rt : Runtime) (cs : List Char) (hcs : ∀ c ∈ cs, c.toNat < 128) :
    cs.flatMap rt.upperOf = cs.map asciiUpper := by
  induction cs with
  | nil => rfl
  | cons c rest ih =>
    rw [List.flatMap_cons, rt.upperOf_ascii c (hcs c (List.mem_cons_self _ _)),
      ih (fun x hx => hcs x (List.mem_cons_of_mem _ hx))]
    rfl

theorem containsSub_append (t u : List Char) : containsSub (t ++ u) t = true := by
  unfold containsSub
  cases htu : t ++ u with
  | nil =>
    have : t = [] := (List.append_eq_nil.mp htu).1
    subst this
    rfl
  | cons a l =>
    rw [List.tails, List.any_cons, ← htu, Bool.or_eq_true]
    left
    rw [List.isPrefixOf_iff_prefix]
    exact List.prefix_append t u

/-- The case `formula` on a value that is neither `null` nor `undefined`. -/
theorem applyTransformation_formula (rt : Runtime) (value : JSValue) (expression : String)
    (hnull : value ≠ .null) (hundef : value ≠ .undefined) :
    applyTransformation rt value (formulaOf expression)
      = evalFormula rt (.str expression) (toStr rt.toHost value) := by
  cases value with
  | null => exact absurd rfl hnull
  | undefined => exact absurd rfl hundef
  | _ => rfl

theorem matchHead_append (pattern rest : List Char) :
    matchHead pattern (pattern ++ rest) = some rest := by
  induction pattern with
  | nil => cases rest <;> rfl
  | cons p ps ih =>
    rw [List.cons_append, matchHead, if_pos rfl, ih]

theorem takeWhile_until (body rest : List Char) (hbody : ∀ c ∈ body, c ≠ ')') :
    (body ++ ')' :: rest).takeWhile (fun c => c != ')') = body ∧
    (body ++ ')' :: rest).dropWhile (fun c => c != ')') = ')' :: rest := by
  induction body with
  | nil => exact ⟨rfl, rfl⟩
  | cons c cs ih =>
    have hc : (c != ')') = true := by simpa using hbody c (List.mem_cons_self _ _)
    obtain ⟨h1, h2⟩ := ih (fun x hx => hbody x (List.mem_cons_of_mem _ hx))
    rw [List.cons_append, List.takeWhile_cons, List.dropWhile_cons, hc]
    exact ⟨by rw [if_pos rfl, h1], by rw [if_pos rfl, h2]⟩

/-- The pattern `/NAME\(([^)]+)\)/i` on the text `NAME(body)`: the capture group is the
body. -/
theorem matchCall_call (name body rest : List Char) (hne : body ≠ [])
    (hbody : ∀ c ∈ body, c ≠ ')') :
    matchCall name (name ++ '(' :: (body ++ ')' :: rest)) = some body := by
  have hat : matchCallAt name (name ++ '(' :: (body ++ ')' :: rest)) = some body := by
    unfold matchCallAt
    have happ : name ++ '(' :: (body ++ ')' :: rest) = (name ++ ['(']) ++ (body ++ ')' :: rest) := by
      simp
    rw [happ, matchHead_append]
    obtain ⟨h1, h2⟩ := takeWhile_until body rest hbody
    simp only [h1, h2]
    cases body with
    | nil => exact absurd rfl hne
    | cons c cs => rfl
  cases hl : name ++ '(' :: (body ++ ')' :: rest) with
  | nil =>
    rw [hl] at hat
    cases name <;> cases hat
  | cons c cs =>
    rw [matchCall, ← hl, hat]

theorem jsSplit_ne_nil (sep : Char) (cs : List Char) : jsSplit sep cs ≠ [] := by
  induction cs with
  | nil => simp [jsSplit]
  | cons c rest ih =>
    unfold jsSplit
    split_ifs
    · simp
    · cases hs : jsSplit sep rest with
      | nil => simp
      | cons p ps => simp

theorem jsSplit_single (sep : Char) (part : List Char) (hpart : ∀ c ∈ part, c ≠ sep) :
    jsSplit sep part = [part] := by
  induction part with
  | nil => rfl
  | cons c cs ih =>
    rw [jsSplit, if_neg (hpart c (List.mem_cons_self _ _)),
      ih (fun x hx => hpart x (List.mem_cons_of_mem _ hx))]

theorem jsSplit_cons (sep : Char) (part rest : List Char) (hpart : ∀ c ∈ part, c ≠ sep) :
    jsSplit sep (part ++ sep :: rest) = part :: jsSplit sep rest := by
  induction part with
  | nil =>
    rw [List.nil_append, jsSplit, if_pos rfl]
  | cons c cs ih =>
    rw [List.cons_append, jsSplit, if_neg (hpart c (List.mem_cons_self _ _)),
      ih (fun x hx => hpart x (List.mem_cons_of_mem _ hx))]

/-- Splitting the argument texts joined by commas gives the argument texts back. -/
theorem jsSplit_intercalate (sep : Char) (parts : List (List Char)) (hne : parts ≠ [])
    (hparts : ∀ part ∈ parts, ∀ c ∈ part, c ≠ sep) :
    jsSplit sep (List.intercalate [sep] parts) = parts := by
  induction parts with
  | nil => exact absurd rfl hne
  | cons part rest ih =>
    cases rest with
    | nil =>
      have : List.intercalate [sep] [part] = part := by
        simp [List.intercalate, List.intersperse]
      rw [this, jsSplit_single sep part (hparts part (List.mem_cons_self _ _))]
    | cons q qs =>
      have : List.intercalate [sep] (part :: q :: qs)
          = part ++ sep :: List.intercalate [sep] (q :: qs) := by
        simp [List.intercalate, List.intersperse]
      rw [this, jsSplit_cons sep part _ (hparts part (List.mem_cons_self _ _)),
        ih (List.cons_ne_nil _ _) (fun x hx => hparts x (List.mem_cons_of_mem _ hx))]

theorem intercalate_forall (sep x : Char) (parts : List (List Char)) (hsep : sep ≠ x)
    (hparts : ∀ part ∈ parts, ∀ c ∈ part, c ≠ x) :
    ∀ c ∈ List.intercalate [sep] parts, c ≠ x := by
  induction parts with
  | nil => intro c hc; simp [List.intercalate, List.intersperse] at hc
  | cons part rest ih =>
    cases rest with
    | nil =>
      have : List.intercalate [sep] [part] = part := by
        simp [List.intercalate, List.intersperse]
      rw [this]
      exact hparts part (List.mem_cons_self _ _)
    | cons q qs =>
      have : List.intercalate [sep] (part :: q :: qs)
          = part ++ sep :: List.intercalate [sep] (q :: qs) := by
        simp [List.intercalate, List.intersperse]
      rw [this]
      intro c hc
      rcases List.mem_append.mp hc with hp | hr
      · exact hparts part (List.mem_cons_self _ _) c hp
      · rcases List.mem_cons.mp hr with rfl | hr
        · exact hsep
        · exact ih (fun x hx => hparts x (List.mem_cons_of_mem _ hx)) c hr

theorem trim_between (a b : Char) (middle : List Char) (ha : isWhiteSpace a = false)
    (hb : isWhiteSpace b = false) :
    trimEnd (trimStart (a :: middle ++ [b])) = a :: middle ++ [b] := by
  have hstart : trimStart (a :: middle ++ [b]) = a :: middle ++ [b] := by
    unfold trimStart
    rw [List.cons_append, List.dropWhile_cons_of_neg (by simp [ha])]
  rw [hstart]
  unfold trimEnd
  have hrev : (a :: middle ++ [b]).reverse = b :: (a :: middle).reverse := by simp
  rw [hrev, List.dropWhile_cons_of_neg (by simp [hb]), ← hrev, List.reverse_reverse]

/-- The callback of `CONCAT` on a literal between double quotes gives the literal. -/
theorem unquote_quoted (literal : String) :
    unquote (quoted literal).toList = literal.toList := by
  show unquote (doubleQuote :: literal.toList ++ [doubleQuote]) = literal.toList
  unfold unquote
  rw [trim_between doubleQuote doubleQuote literal.toList (by decide) (by decide)]
  have h1 : (doubleQuote :: literal.toList ++ [doubleQuote]).head? = some doubleQuote := rfl
  have h2 : (doubleQuote :: literal.toList ++ [doubleQuote]).getLast? = some doubleQuote := by
    rw [List.getLast?_append]
    rfl
  rw [if_pos ⟨h1, h2⟩]
  show (literal.toList ++ [doubleQuote]).dropLast = literal.toList
  rw [List.dropLast_concat]

/-- The branch `CONCAT` of the formula evaluator. -/
theorem formulaBranch_concat (rt : Runtime) (upper formula body : List Char) (result : String)
    (hupper : containsSub upper "CONCAT".toList = true)
    (hmatch : matchCall "CONCAT".toList formula = some body) :
    formulaBranch rt upper formula result
      = .ok (.str (String.mk ((jsSplit ',' body).map unquote).flatten)) := by
  unfold formulaBranch
  rw [if_pos hupper, hmatch]

theorem evalFormula_concat (rt : Runtime) (args : List String) (result : String)
    (hne : List.intercalate [','] (args.map String.toList) ≠ [])
    (hargs : ∀ a ∈ args, ∀ c ∈ a.toList, c ≠ ',' ∧ c ≠ ')') :
    evalFormula rt (.str (concatExpression args)) result
      = .ok (.str (String.mk ((args.map fun a => unquote a.toList).flatten))) := by
  have hnil : args ≠ [] := by
    intro h0
    rw [h0] at hne
    exact hne rfl
  have hbody : ∀ c ∈ List.intercalate [','] (args.map String.toList), c ≠ ')' := by
    apply intercalate_forall ',' ')' _ (by decide)
    intro part hpart c hc
    obtain ⟨a, ha, rfl⟩ := List.mem_map.mp hpart
    exact (hargs a ha c hc).2
  have hupper : containsSub (toUpperCase rt (concatExpression args)).toList "CONCAT".toList
      = true := by
    show containsSub (("CONCAT(".toList ++ List.intercalate [','] (args.map String.toList)
      ++ [')']).flatMap rt.upperOf) "CONCAT".toList = true
    rw [List.append_assoc, List.flatMap_append,
      upperOf_ascii_list rt "CONCAT(".toList (by decide)]
    have : "CONCAT(".toList.map asciiUpper = "CONCAT".toList ++ ['('] := by decide
    rw [this, List.append_assoc]
    exact containsSub_append _ _
  have hmatch : matchCall "CONCAT".toList (concatExpression args).toList
      = some (List.intercalate [','] (args.map String.toList)) := by
    show matchCall "CONCAT".toList ("CONCAT(".toList
      ++ List.intercalate [','] (args.map String.toList) ++ [')']) = _
    have := matchCall_call "CONCAT".toList
      (List.intercalate [','] (args.map String.toList)) [] hne hbody
    exact this
  have hsplit := jsSplit_intercalate ',' (args.map String.toList)
    (by simpa using hnil)
    (by
      intro part hpart c hc
      obtain ⟨a, ha, rfl⟩ := List.mem_map.mp hpart
      exact (hargs a ha c hc).1)
  unfold evalFormula
  have htruthy : truthy (.str (concatExpression args)) = true := by
    unfold truthy
    simp only [bne_iff_ne, ne_eq]
    intro h0
    have := congrArg String.toList h0
    change "CONCAT(".toList ++ List.intercalate [','] (args.map String.toList) ++ [')'] = []
      at this
    simp at this
  rw [if_pos htruthy]
  simp only []
  rw [formulaBranch_concat rt _ _ _ result hupper hmatch, hsplit, List.map_map]
  rfl

/-- With `null` or `undefined` as the value, `applyTransformation` returns the value, not
the text of the formula. -/
theorem concat_null_counterexample :
    applyTransformation exampleRuntime .null (formulaOf scenarioCExpression) = .ok .null ∧
    applyTransformation exampleRuntime .undefined (formulaOf scenarioCExpression)
      = .ok .undefined :=
  ⟨rfl, rfl⟩

/-- C22 (amended): on every value other than `null` and `undefined`, the formula of
Scenario C gives `A-B`; more generally `CONCAT(a1,...,an)`, whose argument texts hold no
comma and no closing parenthesis, gives the concatenation of the arguments, each trimmed and
stripped of its quotes, whatever the value is; an argument that is a literal between double
quotes contributes the literal. -/
theorem applyTransformation_concat (rt : Runtime) (value : JSValue)
    (hnull : value ≠ .null) (hundef : value ≠ .undefined) :
    applyTransformation rt value (formulaOf scenarioCExpression) = .ok (.str "A-B") ∧
    (∀ args : List String,
      List.intercalate [','] (args.map String.toList) ≠ [] →
      (∀ a ∈ args, ∀ c ∈ a.toList, c ≠ ',' ∧ c ≠ ')') →
      applyTransformation rt value (formulaOf (concatExpression args))
        = .ok (.str (String.mk ((args.map fun a => unquote a.toList).flatten)))) ∧
    (∀ literal : String, unquote (quoted literal).toList = literal.toList) := by
  have hgeneral : ∀ args : List String,
      List.intercalate [','] (args.map String.toList) ≠ [] →
      (∀ a ∈ args, ∀ c ∈ a.toList, c ≠ ',' ∧ c ≠ ')') →
      applyTransformation rt value (formulaOf (concatExpression args))
        = .ok (.str (String.mk ((args.map fun a => unquote a.toList).flatten))) := by
    intro args hne hargs
    rw [applyTransformation_formula rt value _ hnull hundef,
      evalFormula_concat rt args _ hne hargs]
  refine ⟨?_, hgeneral, unquote_quoted⟩
  have hexpr : scenarioCExpression = concatExpression [quoted "A", quoted "-", quoted "B"] := by
    decide
  rw [hexpr, hgeneral _ (by decide) (by decide)]
  rfl

/-- C22, on the number 7 as the value. -/
theorem applyTransformation_concat_witness :
    JSValue.num (.ofNat 7) ≠ .null ∧ JSValue.num (.ofNat 7) ≠ .undefined ∧
    applyTransformation exampleRuntime (.num (.ofNat 7)) (formulaOf scenarioCExpression)
      = .ok (.str "A-B") :=
  ⟨(fun hv => nomatch hv), (fun hv => nomatch hv),
    (applyTransformation_concat exampleRuntime (.num (.ofNat 7)) (fun hv => nomatch hv)
      (fun hv => nomatch hv)).1⟩

theorem formulaBranch_unrecognized (rt : Runtime) (upper formula : List Char) (result : String)
    (hnames : ∀ name ∈ formulaNames, containsSub upper name.toList = false) :
    formulaBranch rt upper formula result = .ok (.str result) := by
  unfold formulaBranch
  rw [if_neg (by rw [hnames "CONCAT" (by decide)]; decide),
    if_neg (by rw [hnames "UPPER" (by decide)]; decide),
    if_neg (by rw [hnames "LOWER" (by decide)]; decide),
    if_neg (by rw [hnames "TRIM" (by decide)]; decide),
    if_neg (by rw [hnames "LENGTH" (by decide)]; decide),
    if_neg (by rw [hnames "SUBSTRING" (by decide)]; decide),
    if_neg (by rw [hnames "REPLACE" (by decide)]; decide),
    if_neg (by rw [hnames "DATE_FORMAT" (by decide)]; decide)]

theorem formulaBranch_no_match (rt : Runtime) (upper formula : List Char) (result : String)
    (hnames : ∀ name ∈ formulaNames, matchCall name.toList formula = none) :
    formulaBranch rt upper formula result = .ok (.str result) := by
  unfold formulaBranch
  rw [hnames "CONCAT" (by decide), hnames "UPPER" (by decide), hnames "LOWER" (by decide),
    hnames "TRIM" (by decide), hnames "LENGTH" (by decide), hnames "SUBSTRING" (by decide),
    hnames "REPLACE" (by decide), hnames "DATE_FORMAT" (by decide)]
  simp only [ite_self]

/-- A formula that names none of the eight functions, or in which none of them is followed
by a parenthesised argument list, leaves the string form of the value as it is. -/
theorem applyTransformation_formula_unchanged (rt : Runtime) (value : JSValue)
    (expression : String) (hnull : value ≠ .null) (hundef : value ≠ .undefined)
    (hplain : (∀ name ∈ formulaNames,
        containsSub (toUpperCase rt expression).toList name.toList = false) ∨
      (∀ name ∈ formulaNames, matchCall name.toList expression.toList = none)) :
    applyTransformation rt value (formulaOf expression) = .ok (.str (toStr rt.toHost value)) := by
  rw [applyTransformation_formula rt value _ hnull hundef]
  unfold evalFormula
  split_ifs
  · simp only []
    rcases hplain with hp | hp
    · rw [formulaBranch_unrecognized rt _ _ _ hp]
    · rw [formulaBranch_no_match rt _ _ _ hp]
  · rfl

theorem evalFormula_ascii (rt : Runtime) (expression result : String)
    (hascii : ∀ c ∈ expression.toList, c.toNat < 128) (hne : truthy (.str expression) = true) :
    evalFormula rt (.str expression) result
      = match formulaBranch rt (expression.toList.map asciiUpper) expression.toList result with
        | .error _ => .ok (.str result)
        | out => out := by
  unfold evalFormula
  rw [if_pos hne]
  show (match formulaBranch rt (expression.toList.flatMap rt.upperOf) expression.toList
      result with
    | .error _ => Outcome.ok (.str result)
    | out => out) = _
  rw [upperOf_ascii_list rt _ hascii]

/-- The branch `SUBSTRING` of the formula evaluator. -/
theorem formulaBranch_substring (rt : Runtime) (upper formula body : List Char)
    (result : String)
    (h1 : containsSub upper "CONCAT".toList = false)
    (h2 : containsSub upper "UPPER".toList = false)
    (h3 : containsSub upper "LOWER".toList = false)
    (h4 : containsSub upper "TRIM".toList = false)
    (h5 : containsSub upper "LENGTH".toList = false)
    (h6 : containsSub upper "SUBSTRING".toList = true)
    (hmatch : matchCall "SUBSTRING".toList formula = some body) :
    formulaBranch rt upper formula result
      = textOf (jsSubstring result
        (jsAdd (parseIntChars ((formulaParams body).getD 1 "undefined".toList)) (.fin (-1) 0))
        (jsAdd
          (jsAdd (parseIntChars ((formulaParams body).getD 1 "undefined".toList)) (.fin (-1) 0))
          (parseIntChars ((formulaParams body).getD 2 "undefined".toList)))) := by
  unfold formulaBranch
  rw [if_neg (by rw [h1]; decide), if_neg (by rw [h2]; decide), if_neg (by rw [h3]; decide),
    if_neg (by rw [h4]; decide), if_neg (by rw [h5]; decide), if_pos h6, hmatch]

/-- The branch `REPLACE` of the formula evaluator when an argument is missing: reading
`params[1].replace` or `params[2].replace` throws. -/
theorem formulaBranch_replace_missing (rt : Runtime) (upper formula body : List Char)
    (result : String)
    (h1 : containsSub upper "CONCAT".toList = false)
    (h2 : containsSub upper "UPPER".toList = false)
    (h3 : containsSub upper "LOWER".toList = false)
    (h4 : containsSub upper "TRIM".toList = false)
    (h5 : containsSub upper "LENGTH".toList = false)
    (h6 : containsSub upper "SUBSTRING".toList = false)
    (h7 : containsSub upper "REPLACE".toList = true)
    (hmatch : matchCall "REPLACE".toList formula = some body)
    (hshort : (formulaParams body).length < 3) :
    formulaBranch rt upper formula result
      = .error "Cannot read properties of undefined (reading 'replace')" := by
  unfold formulaBranch
  rw [if_neg (by rw [h1]; decide), if_neg (by rw [h2]; decide), if_neg (by rw [h3]; decide),
    if_neg (by rw [h4]; decide), if_neg (by rw [h5]; decide), if_neg (by rw [h6]; decide),
    if_pos h7, hmatch]
  have hnone : (formulaParams body)[2]? = none := by
    rw [List.getElem?_eq_none_iff]
    omega
  simp only [hnone]
  split <;> simp_all

/-- C23 fails on the code for `SUBSTRING` with fewer than three arguments: the missing
arguments are read as `NaN`, which `substring` takes as 0, and no exception is raised, so
`SUBSTRING(x)` turns the value into the empty string and `SUBSTRING(x,2)` into its first
character.  `REPLACE` with a single argument, a function name without an argument list and
an unknown function leave the value as it is. -/
theorem formula_substring_missing_arguments (rt : Runtime) :
    applyTransformation rt (.str "hello") (formulaOf "SUBSTRING(x)") = .ok (.str "") ∧
    applyTransformation rt (.str "hello") (formulaOf "SUBSTRING(x,2)") = .ok (.str "h") ∧
    applyTransformation rt (.str "hello") (formulaOf "REPLACE(x)") = .ok (.str "hello") ∧
    applyTransformation rt (.str "hello") (formulaOf "SUBSTRING") = .ok (.str "hello") ∧
    applyTransformation rt (.str "hello") (formulaOf "SUM(x)") = .ok (.str "hello") := by
  have hv1 : JSValue.str "hello" ≠ .null := fun hv => nomatch hv
  have hv2 : JSValue.str "hello" ≠ .undefined := fun hv => nomatch hv
  refine ⟨?_, ?_, ?_, ?_, ?_⟩
  · rw [applyTransformation_formula rt _ _ hv1 hv2,
      evalFormula_ascii rt "SUBSTRING(x)" _ (by decide) rfl,
      formulaBranch_substring rt _ _ "x".toList _ (by decide) (by decide) (by decide)
        (by decide) (by decide) (by decide) (by decide)]
    simp only [toStr]
    rfl
  · rw [applyTransformation_formula rt _ _ hv1 hv2,
      evalFormula_ascii rt "SUBSTRING(x,2)" _ (by decide) rfl,
      formulaBranch_substring rt _ _ "x,2".toList _ (by decide) (by decide) (by decide)
        (by decide) (by decide) (by decide) (by decide)]
    simp only [toStr]
    rfl
  · rw [applyTransformation_formula rt _ _ hv1 hv2,
      evalFormula_ascii rt "REPLACE(x)" _ (by decide) rfl,
      formulaBranch_replace_missing rt _ _ "x".toList _ (by decide) (by decide) (by decide)
        (by decide) (by decide) (by decide) (by decide) (by decide) (by decide)]
    rfl
  · exact applyTransformation_formula_unchanged rt _ _ hv1 hv2 (Or.inr (by decide))
  · exact applyTransformation_formula_unchanged rt _ _ hv1 hv2 (Or.inr (by decide))

/-! ## A cell whose transformation throws -/

theorem applyTransformation_replace_text_throws (rt : Runtime) (s search replace : String)
    (hsearch : search ≠ "") (hreplace : replace ≠ "")
    (hbad : rt.regexReplace search = none) :
    applyTransformation rt (.str s) (replaceTextOf search replace)
      = .error (rt.regexError search) := by
  have h1 : truthy (.str search) = true := by simpa [truthy] using hsearch
  have h2 : truthy (.str replace) = true := by simpa [truthy] using hreplace
  simp [applyTransformation, replaceTextOf, getProp, getField, isString, toStr, h1, h2, hbad]

theorem applyTransformation_trim (rt : Runtime) (s : String) :
    applyTransformation rt (.str s) trimOf = .ok (.str (jsTrim s)) := by
  rfl

/-- C24 fails on the code: when `replace_text` throws on the cell `a` (its search text `(` is
not a valid pattern), the error is recorded with the 1-based row number and the original
value, and the cell `b` is transformed as usual, but the transformed row has no column `a`
at all: the assignment `transformedRow[columnName] = value` is inside the `try` block. -/
theorem transformData_drops_failed_cell (rt : Runtime)
    (hbad : rt.regexReplace "(" = none) :
    transformData rt pairRows [("a", replaceTextOf "(" "z"), ("b", trimOf)] none
      = .ok { transformedRows := [[("b", .str "y")]]
              totalRows := 1
              errors := [{ row := 1, column := "a", error := rt.regexError "(",
                           originalValue := .str "x" }]
              errorCount := 1 } ∧
    getField [("a", JSValue.str "x"), ("b", JSValue.str " y ")] "a" = .str "x" ∧
    getField [("b", JSValue.str "y")] "a" = .undefined := by
  refine ⟨?_, rfl, rfl⟩
  have hga : getField [("a", JSValue.str "x"), ("b", JSValue.str " y ")] "a" = .str "x" := rfl
  have hgb : getField [("a", JSValue.str "x"), ("b", JSValue.str " y ")] "b" = .str " y " := rfl
  have ha : transformCell rt none [("a", .str "x"), ("b", .str " y ")] "a"
      (replaceTextOf "(" "z") = .error (rt.regexError "(") := by
    unfold transformCell
    rw [show isEnabled (replaceTextOf "(" "z") = true from rfl, hga,
      applyTransformation_replace_text_throws rt "x" "(" "z" (by decide) (by decide) hbad]
    rfl
  have hb : transformCell rt none [("a", .str "x"), ("b", .str " y ")] "b" trimOf
      = .ok (.str "y") := by
    unfold transformCell
    rw [show isEnabled trimOf = true from rfl, hgb, applyTransformation_trim]
    show Outcome.ok (JSValue.str (jsTrim " y ")) = _
    exact congrArg (fun s => Outcome.ok (JSValue.str s)) (by decide)
  rw [transformData_eq rt pairRows _ none (List.cons_ne_nil _ _) (by decide) (by
    intro row hrow entry hentry units hbadcell
    simp only [pairRows, List.mem_singleton] at hrow
    subst hrow
    simp only [List.mem_cons, List.mem_singleton, List.not_mem_nil, or_false] at hentry
    rcases hentry with rfl | rfl
    · rw [ha] at hbadcell
      cases hbadcell
    · rw [hb] at hbadcell
      cases hbadcell)]
  simp [pairRows, transformedCells, cellErrors, ha, hb, hga, List.enum, List.enumFrom]

/-- C24, on a host whose `RegExp` rejects the pattern. -/
theorem transformData_drops_failed_cell_witness :
    exampleRuntime.regexReplace "(" = none ∧
    transformData exampleRuntime pairRows [("a", replaceTextOf "(" "z"), ("b", trimOf)] none
      = .ok { transformedRows := [[("b", .str "y")]]
              totalRows := 1
              errors := [{ row := 1, column := "a", error := exampleRuntime.regexError "(",
                           originalValue := .str "x" }]
              errorCount := 1 } :=
  ⟨rfl, (transformData_drops_failed_cell exampleRuntime rfl).1⟩


/-! ## The operation `extract` -/

theorem toNat_ofNat (v : Nat) (hv : v < 55296 ∨ (57344 ≤ v ∧ v < 1114112)) :
    (Char.ofNat v).toNat = v := by
  unfold Char.ofNat
  have hvalid : v.isValidChar := by
    rcases hv with hlow | hhigh
    · exact Or.inl hlow
    · exact Or.inr ⟨by omega, hhigh.2⟩
  simp only [hvalid, dite_true]
  unfold Char.ofNatAux Char.toNat
  simp [UInt32.toNat]

theorem char_range (c : Char) : c.toNat < 55296 ∨ (57344 ≤ c.toNat ∧ c.toNat < 1114112) := by
  have hvalid := c.valid
  unfold UInt32.isValidChar Nat.isValidChar at hvalid
  unfold Char.toNat
  omega

theorem ofNat_toNat (c : Char) : Char.ofNat c.toNat = c := by
  apply Char.ext
  apply UInt32.ext
  exact toNat_ofNat c.toNat (char_range c)

/-- The code units of a character outside the basic plane are a surrogate pair. -/
theorem charUnits_pair (u l : Nat) (hu : 55296 ≤ u ∧ u < 56320) (hl : 56320 ≤ l ∧ l < 57344) :
    charUnits (Char.ofNat (65536 + (u - 55296) * 1024 + (l - 56320))) = [u, l] := by
  unfold charUnits
  rw [toNat_ofNat _ (Or.inr ⟨by omega, by omega⟩), if_neg (by omega)]
  have hhigh : 55296 + (65536 + (u - 55296) * 1024 + (l - 56320) - 65536) / 1024 = u := by
    omega
  have hlow : 56320 + (65536 + (u - 55296) * 1024 + (l - 56320) - 65536) % 1024 = l := by
    omega
  rw [hhigh, hlow]

theorem charUnits_single (u : Nat) (hu : u < 55296 ∨ (57344 ≤ u ∧ u < 65536)) :
    charUnits (Char.ofNat u) = [u] := by
  unfold charUnits
  rw [toNat_ofNat _ (by omega), if_pos (by omega)]

/-- The characters that `decodeUtf16` returns have the given code units. -/
theorem flatMap_charUnits_of_decode (n : Nat) :
    ∀ (units : List Nat) (cs : List Char), units.length ≤ n →
      decodeUtf16 units = some cs → cs.flatMap charUnits = units := by
  induction n with
  | zero =>
    intro units cs hlen hdec
    cases units with
    | nil =>
      have hcs : cs = [] := by
        unfold decodeUtf16 at hdec
        exact (Option.some.inj hdec).symm
      rw [hcs]
      rfl
    | cons u rest => simp at hlen
  | succ n ih =>
    intro units cs hlen hdec
    match units, hlen, hdec with
    | [], _, hdec =>
      have hcs : cs = [] := by
        unfold decodeUtf16 at hdec
        exact (Option.some.inj hdec).symm
      rw [hcs]
      rfl
    | [u], _, hdec =>
      unfold decodeUtf16 at hdec
      by_cases hu : u < 55296 ∨ (57344 ≤ u ∧ u < 65536)
      · rw [if_pos hu] at hdec
        rw [← Option.some.inj hdec, List.flatMap_cons, charUnits_single u hu]
        rfl
      · rw [if_neg hu] at hdec
        cases hdec
    | u :: l :: tail, hlen, hdec =>
      unfold decodeUtf16 at hdec
      by_cases hu : 55296 ≤ u ∧ u < 56320
      · rw [if_pos hu] at hdec
        by_cases hl : 56320 ≤ l ∧ l < 57344
        · rw [if_pos hl] at hdec
          cases hrest : decodeUtf16 tail with
          | none =>
            rw [hrest] at hdec
            cases hdec
          | some rest =>
            rw [hrest] at hdec
            rw [← Option.some.inj hdec, List.flatMap_cons, charUnits_pair u l hu hl,
              ih tail rest (by simp only [List.length_cons] at hlen; omega) hrest]
            rfl
        · rw [if_neg hl] at hdec
          cases hdec
      · rw [if_neg hu] at hdec
        by_cases hb : u < 55296 ∨ (57344 ≤ u ∧ u < 65536)
        · rw [if_pos hb] at hdec
          cases hrest : decodeUtf16 (l :: tail) with
          | none =>
            rw [hrest] at hdec
            cases hdec
          | some rest =>
            rw [hrest] at hdec
            rw [← Option.some.inj hdec, List.flatMap_cons, charUnits_single u hb,
              ih (l :: tail) rest (by simp only [List.length_cons] at hlen ⊢; omega) hrest]
            rfl
        · rw [if_neg hb] at hdec
          cases hdec

/-- The length of a string is the number of its code units. -/
theorem utf16Length_eq (s : String) : utf16Length s = (utf16 s).length := by
  unfold utf16Length utf16
  induction s.toList with
  | nil => rfl
  | cons c rest ih =>
    rw [List.map_cons, List.sum_cons, List.flatMap_cons, List.length_append, ih]
    unfold charUnits
    split_ifs <;> rfl

/-- The string that `textOf` returns has the given code units, whether they are well formed
or not. -/
theorem units_textOf (units : List Nat) : (textOf units).units = some units := by
  unfold textOf
  cases hdec : decodeUtf16 units with
  | none => rfl
  | some cs =>
    show some (utf16 (String.mk cs)) = some units
    unfold utf16
    rw [show (String.mk cs).toList = cs from rfl,
      flatMap_charUnits_of_decode units.length units cs (Nat.le_refl _) hdec]

theorem decodeUtf16_single (c : Char) (hc : c.toNat < 65536) (rest : List Nat) :
    decodeUtf16 (c.toNat :: rest) = (decodeUtf16 rest).map fun cs => c :: cs := by
  have hb : c.toNat < 55296 ∨ (57344 ≤ c.toNat ∧ c.toNat < 65536) := by
    have hrange := char_range c
    omega
  cases rest with
  | nil =>
    unfold decodeUtf16
    rw [if_pos hb, ofNat_toNat]
    rfl
  | cons l tail =>
    rw [decodeUtf16, if_neg (by omega), if_pos hb, ofNat_toNat]

/-- Within the basic plane every run of code units is well formed: it is the run of the
characters at the same positions. -/
theorem decodeUtf16_bmp (cs : List Char) (hcs : ∀ c ∈ cs, c.toNat < 65536) :
    cs.flatMap charUnits = cs.map Char.toNat ∧
    decodeUtf16 (cs.map Char.toNat) = some cs := by
  induction cs with
  | nil => exact ⟨rfl, rfl⟩
  | cons c rest ih =>
    have hc := hcs c (List.mem_cons_self _ _)
    have hrest := ih (fun x hx => hcs x (List.mem_cons_of_mem _ hx))
    constructor
    · rw [List.flatMap_cons, hrest.1, List.map_cons]
      unfold charUnits
      rw [if_pos hc]
      rfl
    · rw [List.map_cons, decodeUtf16_single c hc, hrest.2]
      rfl

/-- Within the basic plane `substring` cuts between characters. -/
theorem textOf_bmp (s : String) (hs : ∀ c ∈ s.toList, c.toNat < 65536) (start stop : Nat) :
    textOf (((utf16 s).drop start).take (stop - start))
      = .ok (.str (String.mk ((s.toList.drop start).take (stop - start)))) := by
  unfold textOf utf16
  rw [(decodeUtf16_bmp _ hs).1, ← List.map_drop, ← List.map_take,
    (decodeUtf16_bmp _
      (fun c hc => hs c (List.mem_of_mem_drop (List.mem_of_mem_take hc)))).2]

theorem clampIndex_ofNat (len n : Nat) : clampIndex len (.ofNat n) = min len n := by
  show min len ((n : Int) * 2 ^ 0).toNat = min len n
  simp

theorem truthy_ofNat (n : Nat) : truthy (.num (.ofNat n)) = decide (n ≠ 0) := by
  unfold truthy JSNum.ofNat JSNum.isFalsy
  simp

/-- The case `extract` on a value that is neither `null` nor `undefined`. -/
theorem applyTransformation_extract (rt : Runtime) (value : JSValue) (start stop : Nat)
    (hnull : value ≠ .null) (hundef : value ≠ .undefined) :
    applyTransformation rt value (extractOf start stop)
      = if start ≠ 0 ∧ stop ≠ 0 then
          textOf (jsSubstring (toStr rt.toHost value) (.ofNat start) (.ofNat stop))
        else .ok (.str (toStr rt.toHost value)) := by
  have hget1 : getProp (extractOf start stop) "start" = .num (.ofNat start) := rfl
  have hget2 : getProp (extractOf start stop) "end" = .num (.ofNat stop) := rfl
  have hmain : applyTransformation rt value (extractOf start stop)
      = if (truthy (getProp (extractOf start stop) "start")
            && truthy (getProp (extractOf start stop) "end")) = true then
          textOf (jsSubstring (toStr rt.toHost value)
            (toNumber rt.toHost (getProp (extractOf start stop) "start"))
            (toNumber rt.toHost (getProp (extractOf start stop) "end")))
        else .ok (.str (toStr rt.toHost value)) := by
    cases value with
    | null => exact absurd rfl hnull
    | undefined => exact absurd rfl hundef
    | _ => rfl
  rw [hmain, hget1, hget2, truthy_ofNat, truthy_ofNat]
  by_cases h1 : start = 0 <;> by_cases h2 : stop = 0 <;> simp [h1, h2, toNumber]

/-- The operation `extract` on a string of the basic plane returns the characters from
`start` to `end`. -/
theorem applyTransformation_extract_bmp (rt : Runtime) (value : JSValue) (start stop : Nat)
    (hnull : value ≠ .null) (hundef : value ≠ .undefined)
    (hstart : 1 ≤ start) (hle : start ≤ stop)
    (hstop : stop ≤ utf16Length (toStr rt.toHost value))
    (hbmp : ∀ c ∈ (toStr rt.toHost value).toList, c.toNat < 65536) :
    applyTransformation rt value (extractOf start stop)
      = .ok (.str (String.mk (((toStr rt.toHost value).toList.drop start).take
          (stop - start)))) := by
  rw [applyTransformation_extract rt value start stop hnull hundef,
    if_pos ⟨by omega, by omega⟩]
  unfold jsSubstring
  rw [clampIndex_ofNat, clampIndex_ofNat, Nat.min_eq_right (by omega : start ≤ _),
    Nat.min_eq_right hstop, Nat.min_eq_left hle, Nat.max_eq_right hle,
    textOf_bmp _ hbmp]

/-- With `start = 0` the operation `extract` leaves the value as it is. -/
theorem extract_counterexample :
    applyTransformation exampleRuntime (.str "hello") (extractOf 0 2) = .ok (.str "hello") ∧
    applyTransformation exampleRuntime (.str "hello") (extractOf 1 2) = .ok (.str "e") :=
  ⟨rfl, rfl⟩

/-- C25 (amended): for a value other than `null` and `undefined` with string form `s` and
indices `1 ≤ start ≤ end ≤ s.length`, counted in UTF-16 code units as `substring` counts
them, the operation `extract` returns the string whose code units are those of `s` from
`start` (inclusive) to `end` (exclusive), also where this cuts a surrogate pair in half;
with `start = 0` it returns `s` itself. -/
theorem applyTransformation_extract_range (rt : Runtime) (value : JSValue) (start stop : Nat)
    (hnull : value ≠ .null) (hundef : value ≠ .undefined)
    (hstart : 1 ≤ start) (hle : start ≤ stop)
    (hstop : stop ≤ utf16Length (toStr rt.toHost value)) :
    applyTransformation rt value (extractOf start stop)
      = textOf (((utf16 (toStr rt.toHost value)).drop start).take (stop - start)) ∧
    (applyTransformation rt value (extractOf start stop)).units
      = some (((utf16 (toStr rt.toHost value)).drop start).take (stop - start)) ∧
    (∀ last : Nat, applyTransformation rt value (extractOf 0 last)
      = .ok (.str (toStr rt.toHost value))) := by
  have hmain : applyTransformation rt value (extractOf start stop)
      = textOf (((utf16 (toStr rt.toHost value)).drop start).take (stop - start)) := by
    rw [applyTransformation_extract rt value start stop hnull hundef,
      if_pos ⟨by omega, by omega⟩]
    unfold jsSubstring
    rw [clampIndex_ofNat, clampIndex_ofNat, Nat.min_eq_right (by omega : start ≤ _),
      Nat.min_eq_right hstop, Nat.min_eq_left hle, Nat.max_eq_right hle]
  refine ⟨hmain, ?_, ?_⟩
  · rw [hmain, units_textOf]
  · intro last
    rw [applyTransformation_extract rt value 0 last hnull hundef, if_neg (by simp)]

/-- C25, on `a😀b`, whose four code units are 97, 55357, 56832 and 98: the units 1 to 3
are the whole pair, and the units 1 to 2 are its first half alone. -/
theorem applyTransformation_extract_range_witness :
    JSValue.str "a😀b" ≠ .null ∧ JSValue.str "a😀b" ≠ .undefined ∧
    utf16Length (toStr exampleRuntime.toHost (.str "a😀b")) = 4 ∧
    utf16 (toStr exampleRuntime.toHost (.str "a😀b")) = [97, 55357, 56832, 98] ∧
    applyTransformation exampleRuntime (.str "a😀b") (extractOf 1 3) = .ok (.str "😀") ∧
    applyTransformation exampleRuntime (.str "a😀b") (extractOf 1 2) = .illFormed [55357] ∧
    (applyTransformation exampleRuntime (.str "a😀b") (extractOf 1 2)).units
      = some (((utf16 (toStr exampleRuntime.toHost (.str "a😀b"))).drop 1).take (2 - 1)) ∧
    applyTransformation exampleRuntime (.str "hello") (extractOf 1 3) = .ok (.str "el") :=
  ⟨(fun hv => nomatch hv), (fun hv => nomatch hv), (by decide), (by decide), rfl, rfl,
    (applyTransformation_extract_range exampleRuntime (.str "a😀b") 1 2 (fun hv => nomatch hv)
      (fun hv => nomatch hv) (by decide) (by decide) (by decide)).2.1, rfl⟩

end Excel
